import Mathlib

/-!
# The evaluation core of Unilang (src/src/Evaluation.cpp)

A shallow embedding of the parameter matcher (GParameterMatcher), of the
per-object binder (BindParameterObject), of the two binding entry points
(BindParameter, BindParameterWellFormed) and of the reduction functions
(ReduceLeaf, ReduceBranch, ReduceCombinedBranch, ReduceOrdered, CallN),
followed by theorems about them.

Conventions of the embedding:

* strings and string views are lists of characters;
* a reference is represented by its tags, the term it refers to (by value)
  and a handle of its home environment; identity of the referent is not
  represented, its state is;
* C++ references and iterators into the operand tree, and into the tree under
  reduction, are paths from the root (Loc), an iterator being the path of the
  term and an index in its container, so that moves and erasures are visible;
* a moved-from container is the empty container, a moved-from value object is
  the empty value object;
* a continuation in the queue of a context, and a thunk of the matcher, is a
  value of a datatype with one constructor for each closure of the source;
* a C++ exception is thrown (Outcome.thrown, Reduced.thrown), a failed
  assertion (or a use that the source leaves undefined) is aborted, and timeout
  says that the fuel of the model ran out.
-/

set_option autoImplicit false

namespace Unilang

/-! ## Term tags -/

/-- The bitset TermTags over Unique, Nonmodifying and Temporary. -/
structure TermTags where
  Unique : Bool
  Nonmodifying : Bool
  Temporary : Bool
deriving DecidableEq

namespace TermTags

/-- The empty tag set, TermTags::Unqualified. -/
def Unqualified : TermTags := ⟨false, false, false⟩

/-- The singleton TermTags::Unique. -/
def uniqueTag : TermTags := ⟨true, false, false⟩

/-- The singleton TermTags::Nonmodifying. -/
def nonmodifyingTag : TermTags := ⟨false, true, false⟩

/-- The singleton TermTags::Temporary. -/
def temporaryTag : TermTags := ⟨false, false, true⟩

instance : OrOp TermTags :=
  ⟨fun a b => ⟨a.Unique || b.Unique, a.Nonmodifying || b.Nonmodifying,
    a.Temporary || b.Temporary⟩⟩

instance : AndOp TermTags :=
  ⟨fun a b => ⟨a.Unique && b.Unique, a.Nonmodifying && b.Nonmodifying,
    a.Temporary && b.Temporary⟩⟩

instance : Complement TermTags :=
  ⟨fun a => ⟨!a.Unique, !a.Nonmodifying, !a.Temporary⟩⟩

/-- The conversion bool(tags): some bit is set. -/
def toBool (a : TermTags) : Bool := a.Unique || a.Nonmodifying || a.Temporary

end TermTags

open TermTags

/-- Modelled from the spec: GetLValueTagsOf is declared outside Evaluation.cpp;
section 4.1 gives it as the tags with Unique cleared. -/
def GetLValueTagsOf (t : TermTags) : TermTags := t &&& ~~~uniqueTag

/-- Modelled from the spec: PropagateTo is declared outside Evaluation.cpp;
section 4.1 says that it keeps Nonmodifying from either side and clears Unique
unless both sides carry it. Temporary, on which the spec is silent, is that of
the target. -/
def PropagateTo (dst src : TermTags) : TermTags :=
  ⟨dst.Unique && src.Unique, dst.Nonmodifying || src.Nonmodifying, dst.Temporary⟩

/-- The function BindReferenceTags(TermTags), lines 180-185. -/
def BindReferenceTags (ref_tags : TermTags) : TermTags :=
  if (ref_tags &&& uniqueTag).toBool then ref_tags ||| temporaryTag else ref_tags

/-- The function BindReferenceTags(const TermReference&), lines 186-190, on the
tags of the reference. -/
def BindReferenceTagsOfReference (ref_tags : TermTags) : TermTags :=
  BindReferenceTags (GetLValueTagsOf ref_tags)

/-! ## Terms -/

/-- A string or string view. -/
abbrev TokenValue := List Char

/-- A handle of an environment (EnvironmentReference). -/
abbrev EnvironmentReference := Nat

mutual
/-- A term: the container of subterms, the value object and the tags. -/
inductive TermNode where
  | mk (container : List TermNode) (Value : ValueObject) (Tags : TermTags)
/-- The value slot of a term. -/
inductive ValueObject where
  /-- The empty value object. -/
  | empty
  /-- A TokenValue. -/
  | token (s : TokenValue)
  /-- A TermReference: tags, referent, home environment. -/
  | reference (tags : TermTags) (referent : TermNode) (env : EnvironmentReference)
  /-- A shared pointer owning a term. -/
  | shared (p : TermNode)
  /-- Any other host object. -/
  | object (n : Nat)
  /-- A ContextHandler. -/
  | handler (h : Nat)
end

namespace TermNode

/-- The container of subterms. -/
def container : TermNode → List TermNode
  | mk c _ _ => c

/-- The value slot. -/
def Value : TermNode → ValueObject
  | mk _ v _ => v

/-- The tags. -/
def Tags : TermNode → TermTags
  | mk _ _ g => g

end TermNode

/-- Whether a value object is empty. -/
def ValueObject.isEmpty : ValueObject → Bool
  | .empty => true
  | _ => false

/-- Whether a value object holds a TermReference. -/
def ValueObject.isReference : ValueObject → Bool
  | .reference _ _ _ => true
  | _ => false

/-- Modelled from the spec: IsBranch is declared outside Evaluation.cpp;
section 3: a branch has a non-empty container. -/
def IsBranch (t : TermNode) : Bool := !t.container.isEmpty

/-- Modelled from the spec: IsList is declared outside Evaluation.cpp;
section 3: a list has an empty value slot. -/
def IsList (t : TermNode) : Bool := t.Value.isEmpty

/-- Modelled from the spec: IsLeaf is declared outside Evaluation.cpp;
section 3: a leaf has a non-empty value slot and an empty container. -/
def IsLeaf (t : TermNode) : Bool := !t.Value.isEmpty && t.container.isEmpty

/-- Modelled from the spec: IsEmpty is declared outside Evaluation.cpp;
the empty term has neither a value nor a subterm. -/
def IsEmpty (t : TermNode) : Bool := t.Value.isEmpty && t.container.isEmpty

/-- Modelled from the spec: TryAccessLeaf for TokenValue, declared outside
Evaluation.cpp: the token held in the value slot of the term. -/
def TryAccessLeafToken (t : TermNode) : Option TokenValue :=
  match t.Value with
  | .token s => some s
  | _ => none

/-- Modelled from the spec: TryAccessLeaf for TermReference, declared outside
Evaluation.cpp; sections 4.4, 4.6, 4.9 and 4.10 ask whether the value of the
term is a TermReference, whatever its subterms: the reference (tags, referent,
home) held in the value slot of the term. -/
def TryAccessLeafReference (t : TermNode) :
    Option (TermTags × TermNode × EnvironmentReference) :=
  match t.Value with
  | .reference g r e => some (g, r, e)
  | _ => none

/-- Modelled from the spec: TermToNamePtr, declared outside Evaluation.cpp:
the token held in the value slot of a term. -/
def TermToNamePtr (t : TermNode) : Option TokenValue :=
  match t.Value with
  | .token s => some s
  | _ => none

/-- Modelled from the spec: IsIgnore, declared outside Evaluation.cpp: the
reserved token #ignore. -/
def IsIgnore (n : TokenValue) : Bool :=
  n == ['#', 'i', 'g', 'n', 'o', 'r', 'e']

/-- Modelled from the spec: TermReference::IsMovable, declared outside
Evaluation.cpp; section 4.10: Unique and not Nonmodifying. -/
def IsMovable (tags : TermTags) : Bool := tags.Unique && !tags.Nonmodifying

/-! ## Errors and outcomes -/

/-- The two messages of the InvalidSyntax of lines 48-50. -/
inductive LiteralMessage where
  /-- Unsupported literal prefix found in literal. -/
  | UnsupportedLiteralPrefix
  /-- Invalid literal found. -/
  | InvalidLiteral
deriving DecidableEq

/-- The exceptions thrown by the code. -/
inductive Error where
  /-- Line 474. -/
  | ArityMismatch (expected received : Nat)
  /-- The error of ThrowInsufficientTermsError, line 476. -/
  | InsufficientTerms
  /-- The error of ThrowListTypeErrorForNonlist, line 479. -/
  | ListTypeError
  /-- Line 485. -/
  | ParameterMismatch
  /-- The error of ThrowFormalParameterTypeError, lines 272-276. -/
  | FormalParameterTypeError (has_ref : Bool)
  /-- The error of ThrowInvalidTokenError, line 309. -/
  | InvalidToken (n : TokenValue)
  /-- Line 266. -/
  | InvalidReference
  /-- The error of ThrowNestedParameterTreeCheckError, lines 278-283: an
  InvalidSyntax nesting the exception being handled. -/
  | InvalidSyntax (nested : Error)
  /-- The InvalidSyntax of lines 48-50: the message and the token. -/
  | InvalidSyntaxLiteral (message : LiteralMessage) (id : TokenValue)
  /-- Line 74. -/
  | BadIdentifier (id : TokenValue)
  /-- Lines 651-654: whether the head is a reference, and the number of
  arguments that the message reports; the rendering of the head is left out. -/
  | ListReductionFailure (has_ref : Bool) (arguments : Nat)
deriving DecidableEq

/-- The result of running a piece of the code. -/
inductive Outcome (α : Type) where
  /-- Normal return. -/
  | ok (a : α)
  /-- An exception propagates. -/
  | thrown (e : Error)
  /-- An assertion fails, or the behaviour is undefined. -/
  | aborted
  /-- The fuel of the model is exhausted. -/
  | timeout

/-- Sequencing of outcomes. -/
def Outcome.bind {α β : Type} (r : Outcome α) (f : α → Outcome β) : Outcome β :=
  match r with
  | .ok a => f a
  | .thrown e => .thrown e
  | .aborted => .aborted
  | .timeout => .timeout

/-- The components that Evaluation.cpp takes from other files and on which the
spec is silent. -/
structure External where
  /-- The predicate IsUnilangSymbol of Lexical.h. -/
  IsUnilangSymbol : TokenValue → Bool
  /-- Which of the thrown kinds other than ParameterMismatch itself are classes
  derived from ParameterMismatch (Exception.h). -/
  DerivedFromParameterMismatch : Error → Bool
  /-- The function LiftToReturn that LiftSubtermsToReturn applies to each
  subterm. -/
  LiftToReturn : TermNode → TermNode
  /-- The tags given by the constructor TermReference(term, environment). -/
  DefaultReferenceTags : TermNode → TermTags

/-! ## Environments -/

/-- The bindings of an environment. -/
abbrev Environment := List (TokenValue × TermNode)

/-- Modelled from the spec: Environment::Bind, declared outside Evaluation.cpp;
section 3: inserts or replaces the binding of the name. -/
def Environment.Bind (env : Environment) (k : TokenValue) (tm : TermNode) :
    Environment :=
  (k, tm) :: env.filter (fun p => p.1 != k)

/-- The term bound to a name, if any. -/
def Environment.lookup : Environment → TokenValue → Option TermNode
  | [], _ => none
  | (k0, tm) :: rest, k => if k0 == k then some tm else Environment.lookup rest k

/-! ## The per-object binder -/

/-- The value char() of an absent sigil. -/
def noSigil : Char := Char.ofNat 0

/-- What BindParameterObject does with its two callbacks: it calls the copy
callback on a term, or the move callback on a container and a value object;
temporary says that MarkTemporaryTerm then sets Temporary on the term returned
by the move callback. -/
inductive BindCall where
  | cp (tm : TermNode)
  | mv (c : List TermNode) (vo : ValueObject) (temporary : Bool)

/-- The function MarkTemporaryTerm, lines 195-200, as the test it performs. -/
def MarkTemporaryTerm (sigil : Char) : Bool := decide (sigil ≠ noSigil)

/-- The call operator of BindParameterObject, lines 210-268. The result is the
callback invocation and the operand as it is left: a container or value that
is moved from is left empty; where only the TermReference inside the value is
moved from (line 232), the value is left as it is. -/
def BindParameterObject (Referenced : EnvironmentReference) (sigil : Char)
    (ref_temp : Bool) (o_tags : TermTags) (o : TermNode) :
    Outcome (BindCall × TermNode) :=
  let temp := (o_tags &&& temporaryTag).toBool
  if sigil ≠ '@' then
    let can_modify := !(o_tags &&& nonmodifyingTag).toBool
    match TryAccessLeafReference o with
    | some (p_tags, src, p_env) =>
      if sigil ≠ noSigil then
        let ref_tags := PropagateTo
          (if ref_temp then BindReferenceTagsOfReference p_tags else p_tags)
          o_tags
        if can_modify && temp then
          .ok (.mv o.container (.reference ref_tags src p_env) false,
            .mk [] o.Value o.Tags)
        else
          .ok (.mv o.container (.reference ref_tags src p_env) false, o)
      else
        if !IsMovable p_tags then
          .ok (.cp src, o)
        else
          .ok (.mv src.container src.Value false,
            .mk o.container (.reference p_tags (.mk [] .empty src.Tags) p_env)
              o.Tags)
    | none =>
      if (can_modify || sigil == '%') && temp then
        .ok (.mv o.container o.Value (MarkTemporaryTerm sigil),
          .mk [] .empty o.Tags)
      else if sigil == '&' then
        .ok (.mv [] (.reference (GetLValueTagsOf (o.Tags ||| o_tags)) o Referenced)
          false, o)
      else
        .ok (.cp o, o)
  else if !temp then
    .ok (.mv [] (.reference (o_tags &&& nonmodifyingTag) o Referenced) false, o)
  else
    .thrown .InvalidReference

/-- The function CopyTermTags, lines 174-178, as the tags it assigns. -/
def CopyTermTags (tm : TermNode) : TermTags := GetLValueTagsOf tm.Tags

/-- The term produced by the callbacks of BindParameterImpl (lines 585-592 and
618-622): the copy callback copies container and value and then copies the
tags with CopyTermTags; the move callback builds TermNode(container, value),
whose tags are Unqualified, on which MarkTemporaryTerm may set Temporary. -/
def BindCall.term : BindCall → TermNode
  | .cp tm => .mk tm.container tm.Value (CopyTermTags tm)
  | .mv c vo temporary =>
    .mk c vo (if temporary then Unqualified ||| temporaryTag else Unqualified)

/-- The function ExtractSigil, lines 539-549: the sigil and the remaining
identifier. The source reads id.front() without a test; on the empty view the
result is none. -/
def ExtractSigil : TokenValue → Option (Char × TokenValue)
  | [] => none
  | c :: rest =>
    if c ≠ '&' ∧ c ≠ '%' ∧ c ≠ '@' then some (noSigil, c :: rest)
    else some (c, rest)

/-! ## Locations in the operand tree -/

/-- One step of a path in the operand tree. -/
inductive Step where
  /-- The k-th subterm. -/
  | child (k : Nat)
  /-- The referent of the reference held by the term. -/
  | referent
deriving DecidableEq

/-- A path from the root operand: what a C++ reference to an operand subterm
denotes. -/
abbrev Loc := List Step

/-- The term at a location. -/
def getAt : Loc → TermNode → Option TermNode
  | [], t => some t
  | .child k :: p, t =>
    match t.container[k]? with
    | some c => getAt p c
    | none => none
  | .referent :: p, t =>
    match t.Value with
    | .reference _ r _ => getAt p r
    | _ => none

/-- Assignment to the term at a location. -/
def setAt : Loc → TermNode → TermNode → TermNode
  | [], v, _ => v
  | .child k :: p, v, t =>
    match t.container[k]? with
    | some c => .mk (t.container.set k (setAt p v c)) t.Value t.Tags
    | none => t
  | .referent :: p, v, t =>
    match t.Value with
    | .reference g r e => .mk t.container (.reference g (setAt p v r) e) t.Tags
    | _ => t

/-! ## The matcher -/

/-- The two traits classes, lines 285-370. -/
inductive Traits where
  | ParameterCheck
  | NoParameterCheck
deriving DecidableEq

/-- The closures stored in the thunk act of the matcher. -/
inductive Thunk where
  /-- Lines 495-498: match the referent nd of a reference formal against o. -/
  | matchReferent (nd : TermNode) (o : Loc) (o_tags : TermTags)
      (r_env : EnvironmentReference)
  /-- Lines 513-516: MatchSubterms on the formals from i on (up to last), with
  the operand iterator j in the container of o_tm. -/
  | subterms (i : List TermNode) (last : Option TermNode) (o_tm : Loc) (j : Nat)
      (tags : TermTags) (r_env : EnvironmentReference) (ellipsis : Bool)

/-- The state on which a matcher of BindParameterImpl works: the operand tree,
the bindings of the target environment, and the pending thunks (act), most
recent first. -/
structure MatcherState where
  root : TermNode
  env : Environment
  act : List Thunk

/-- The function ystdex::update_thunk applied to act: the new thunk runs
first and hands act back to the earlier ones. -/
def update_thunk (s : MatcherState) (f : Thunk) : MatcherState :=
  { s with act := f :: s.act }

/-- The member CheckBack of the traits, lines 289-294 and 340-345. -/
def CheckBack (tr : Traits) (t : TermNode) (t_has_ref : Bool) : Outcome Unit :=
  match tr with
  | .ParameterCheck =>
    if !IsList t then .thrown (.FormalParameterTypeError t_has_ref) else .ok ()
  | .NoParameterCheck =>
    if !IsList t then .aborted else .ok ()

/-- The member HandleLeaf of the traits, lines 296-314 and 347-362; f is the
callback, s the state returned when the callback is not called. -/
def HandleLeaf {σ : Type} (X : External) (tr : Traits)
    (f : TokenValue → Outcome σ) (t : TermNode) (t_has_ref : Bool) (s : σ) :
    Outcome σ :=
  match tr with
  | .ParameterCheck =>
    match TermToNamePtr t with
    | some n =>
      if !IsIgnore n then
        if X.IsUnilangSymbol n then f n else .thrown (.InvalidToken n)
      else .ok s
    | none => .thrown (.FormalParameterTypeError t_has_ref)
  | .NoParameterCheck =>
    match TermToNamePtr t with
    | none => .aborted
    | some n =>
      if !IsIgnore n then
        if X.IsUnilangSymbol n then f n else .aborted
      else .ok s

/-- The handler catch(ParameterMismatch&) of line 324: the exception is a
ParameterMismatch or of a class derived from it. -/
def catchesParameterMismatch (X : External) (e : Error) : Bool :=
  e == .ParameterMismatch || X.DerivedFromParameterMismatch e

/-- The member WrapCall of the traits, lines 316-332 and 364-369, applied to
the outcome of the wrapped call. -/
def WrapCall {α : Type} (X : External) (tr : Traits) (r : Outcome α) : Outcome α :=
  match tr with
  | .ParameterCheck =>
    match r with
    | .thrown e =>
      if catchesParameterMismatch X e then .thrown e
      else .thrown (.InvalidSyntax e)
    | other => other
  | .NoParameterCheck => r

/-- The leaf bind callback of BindParameterImpl, lines 609-622. -/
def BindValue (X : External) (n : TokenValue) (b : Loc) (o_tags : TermTags)
    (r_env : EnvironmentReference) (s : MatcherState) : Outcome MatcherState :=
  if IsIgnore n || !X.IsUnilangSymbol n then .aborted
  else
    match ExtractSigil n with
    | none => .aborted
    | some (sigil, id) =>
      if !id.isEmpty then
        match getAt b s.root with
        | none => .aborted
        | some o =>
          (BindParameterObject r_env sigil (sigil == '&') o_tags o).bind
            fun r => .ok { s with root := setAt b r.2 s.root,
                                  env := s.env.Bind id r.1.term }
      else .ok s

/-- Modelled from the spec: LiftSubtermsToReturn, declared outside
Evaluation.cpp; section 4.11: each subterm is lifted to its returnable form. -/
def LiftSubtermsToReturn (X : External) (tm : TermNode) : TermNode :=
  .mk (tm.container.map X.LiftToReturn) tm.Value tm.Tags

/-- The loop of lines 583-592: BindParameterObject on each operand in turn;
the result is the new container con and the operands as they are left. -/
def bindEach (r_env : EnvironmentReference) (sigil : Char) (o_tags : TermTags) :
    List TermNode → Outcome (List TermNode × List TermNode)
  | [] => .ok ([], [])
  | o :: rest =>
    (BindParameterObject r_env sigil false o_tags o).bind fun r =>
      (bindEach r_env sigil o_tags rest).bind fun rs =>
        .ok (r.1.term :: rs.1, r.2 :: rs.2)

/-- The trailing bind callback of BindParameterImpl, lines 558-608. -/
def BindTrailing (X : External) (o_tm : Loc) (first : Nat) (id : TokenValue)
    (o_tags : TermTags) (r_env : EnvironmentReference) (s : MatcherState) :
    Outcome MatcherState :=
  match id with
  | '.' :: id1 =>
    if !id1.isEmpty then
      match ExtractSigil id1 with
      | none => .aborted
      | some (sigil, id2) =>
        if !id2.isEmpty then
          match getAt o_tm s.root with
          | none => .aborted
          | some tm =>
            if (o_tags &&& (uniqueTag ||| nonmodifyingTag)) == uniqueTag
                || (o_tags &&& temporaryTag).toBool then
              let tm1 := if sigil == noSigil then LiftSubtermsToReturn X tm else tm
              let con := tm1.container.drop first
              .ok { s with
                root := setAt o_tm (.mk (tm1.container.take first) tm1.Value tm1.Tags)
                  s.root,
                env := s.env.Bind id2 (BindCall.term
                  (.mv con .empty (MarkTemporaryTerm sigil))) }
            else
              (bindEach r_env sigil o_tags (tm.container.drop first)).bind fun r =>
                let root1 := setAt o_tm
                  (.mk (tm.container.take first ++ r.2) tm.Value tm.Tags) s.root
                if sigil == '&' then
                  let sub := TermNode.mk r.1 .empty Unqualified
                  .ok { s with
                    root := root1,
                    env := s.env.Bind id2 (.mk [.mk [] (.shared sub) Unqualified]
                      (.reference (X.DefaultReferenceTags sub) sub r_env)
                      Unqualified) }
                else
                  .ok { s with
                    root := root1,
                    env := s.env.Bind id2 (BindCall.term
                      (.mv r.1 .empty (MarkTemporaryTerm sigil))) }
        else .ok s
    else .ok s
  | _ => .aborted

/-- The type of the member Match, as MatchSubterms calls it. -/
abbrev MatchFn :=
  TermNode → Loc → TermTags → EnvironmentReference → Bool → MatcherState →
    Outcome MatcherState

/-- The member MatchSubterms, lines 506-528. The formals from i up to last are
the list i; last is the term at the iterator last when that is not the end. -/
def MatchSubterms (X : External) (M : MatchFn) (i : List TermNode)
    (last : Option TermNode) (o_tm : Loc) (j : Nat) (tags : TermTags)
    (r_env : EnvironmentReference) (ellipsis : Bool) (s : MatcherState) :
    Outcome MatcherState :=
  match i with
  | ti :: rest =>
    let s1 := update_thunk s (.subterms rest last o_tm (j + 1) tags r_env ellipsis)
    match getAt (o_tm ++ [.child j]) s.root with
    | none => .aborted
    | some _ => M ti (o_tm ++ [.child j]) tags r_env false s1
  | [] =>
    if ellipsis then
      match last with
      | some l =>
        match l.Value with
        | .token id => BindTrailing X o_tm j id tags r_env s
        | _ => .aborted
      | none => .aborted
    else .ok s

/-- Modelled from the spec: ResolveTerm, declared outside Evaluation.cpp;
section 4.9: the operand is resolved through a surrounding reference. This is
the term that the callback receives: the referent when the value of the term
is a TermReference, whatever subterms the term has, else the term itself. -/
def resolved (term : TermNode) : TermNode :=
  match TryAccessLeafReference term with
  | some r => r.2.1
  | none => term

/-- The location of the term that the callback of ResolveTerm receives. -/
def resolvedLoc (o : Loc) (term : TermNode) : Loc :=
  match TryAccessLeafReference term with
  | some _ => o ++ [.referent]
  | none => o

/-- The tags with which Match goes on to the subterms, lines 458-468: with a
reference p_ref, Unique and Temporary are replaced by the Unique of the
reference and the result is propagated to the tags of the reference. -/
def subtermTags (o_tags : TermTags) (term : TermNode) : TermTags :=
  match TryAccessLeafReference term with
  | some r => PropagateTo
      ((o_tags &&& ~~~(uniqueTag ||| temporaryTag)) ||| (r.1 &&& uniqueTag)) r.1
  | none => o_tags

/-- The environment with which Match goes on to the subterms, lines 470-471:
that of the reference p_ref, else r_env. -/
def subtermEnvironment (r_env : EnvironmentReference) (term : TermNode) :
    EnvironmentReference :=
  match TryAccessLeafReference term with
  | some r => r.2.2
  | none => r_env

/-- Lines 430-448 of Match: whether the iterator last is moved back over a
trailing token that begins with a dot; CheckBack may throw. -/
def trailingEllipsis (tr : Traits) (t : TermNode) (t_has_ref : Bool) :
    Outcome Bool :=
  match t.container.getLast? with
  | none => .ok false
  | some back =>
    if IsLeaf back then
      match TryAccessLeafToken back with
      | some p => .ok (!p.isEmpty && p.head? == some '.')
      | none => (CheckBack tr back t_has_ref).bind fun _ => .ok false
    else .ok false

/-- The member Match, lines 421-504. The fuel bounds the depth of the direct
calls from MatchSubterms back to Match. -/
def Match (X : External) (tr : Traits) : Nat → MatchFn
  | 0, _, _, _, _, _, _ => .timeout
  | fuel + 1, t, o, o_tags, r_env, t_has_ref, s =>
    if IsList t then
      if IsBranch t then
        let n_p := t.container.length
        (trailingEllipsis tr t t_has_ref).bind fun ellipsis =>
          match getAt o s.root with
          | none => .aborted
          | some term =>
            let nd := resolved term
            if IsList nd then
              let n_o := nd.container.length
              if n_p == n_o || (ellipsis && decide (n_o ≥ n_p - 1)) then
                MatchSubterms X (Match X tr fuel)
                  (if ellipsis then t.container.dropLast else t.container)
                  (if ellipsis then t.container.getLast? else none)
                  (resolvedLoc o term) 0 (subtermTags o_tags term)
                  (subtermEnvironment r_env term) ellipsis s
              else if !ellipsis then .thrown (.ArityMismatch n_p n_o)
              else .thrown .InsufficientTerms
            else .thrown .ListTypeError
      else
        match getAt o s.root with
        | none => .aborted
        | some term =>
          if !IsEmpty (resolved term) then .thrown .ParameterMismatch else .ok s
    else
      match TryAccessLeafReference t with
      | some r => .ok (update_thunk s (.matchReferent r.2.1 o o_tags r_env))
      | none =>
        HandleLeaf X tr (fun n => BindValue X n o o_tags r_env s) t t_has_ref s

/-- The call of a thunk stored in act. -/
def Thunk.run (X : External) (tr : Traits) (fuel : Nat) :
    Thunk → MatcherState → Outcome MatcherState
  | .matchReferent nd o o_tags r_env, s => Match X tr fuel nd o o_tags r_env true s
  | .subterms i last o_tm j tags r_env ellipsis, s =>
    MatchSubterms X (Match X tr fuel) i last o_tm j tags r_env ellipsis s

/-- The loop of lines 396-401: while act is set, take it out and call it. -/
def drain (X : External) (tr : Traits) : Nat → MatcherState → Outcome MatcherState
  | _, ⟨root, env, []⟩ => .ok ⟨root, env, []⟩
  | 0, ⟨_, _, _ :: _⟩ => .timeout
  | fuel + 1, ⟨root, env, a :: rest⟩ =>
    (a.run X tr (fuel + 1) ⟨root, env, rest⟩).bind (drain X tr fuel)

/-- The body that the call operator of the matcher passes to WrapCall, lines
394-401. -/
def matchAndDrain (X : External) (tr : Traits) (fuel : Nat) (t : TermNode)
    (o_tags : TermTags) (r_env : EnvironmentReference) (s : MatcherState) :
    Outcome MatcherState :=
  (Match X tr fuel t [] o_tags r_env false s).bind (drain X tr fuel)

/-- The call operator of GParameterMatcher, lines 389-403. -/
def GParameterMatcher (X : External) (tr : Traits) (fuel : Nat) (t : TermNode)
    (o_tags : TermTags) (r_env : EnvironmentReference) (s : MatcherState) :
    Outcome MatcherState :=
  WrapCall X tr (matchAndDrain X tr fuel t o_tags r_env s)

/-- The function BindParameterImpl, lines 551-624: p_env is the handle of the
target environment and env its bindings; o is the operand. -/
def BindParameterImpl (X : External) (tr : Traits) (fuel : Nat)
    (p_env : EnvironmentReference) (env : Environment) (t o : TermNode) :
    Outcome MatcherState :=
  GParameterMatcher X tr fuel t temporaryTag p_env ⟨o, env, []⟩

/-- The function BindParameter, lines 699-704. -/
def BindParameter (X : External) (fuel : Nat) (p_env : EnvironmentReference)
    (env : Environment) (t o : TermNode) : Outcome MatcherState :=
  BindParameterImpl X .ParameterCheck fuel p_env env t o

/-- The function BindParameterWellFormed, lines 706-711. -/
def BindParameterWellFormed (X : External) (fuel : Nat)
    (p_env : EnvironmentReference) (env : Environment) (t o : TermNode) :
    Outcome MatcherState :=
  BindParameterImpl X .NoParameterCheck fuel p_env env t o

/-! ## The reduction engine: contexts -/

/-- Modelled from the spec: ReductionStatus, declared outside Evaluation.cpp;
section 4.2 names its four values. -/
inductive ReductionStatus where
  | Partial
  | Neutral
  | Retained
  | Regular
deriving DecidableEq

/-- Modelled from the spec: CheckReducible, declared outside Evaluation.cpp;
section 4.2: Partial says that more work is queued and the trampoline resumes,
Neutral and Retained say that no further reduction is required. -/
def CheckReducible (s : ReductionStatus) : Bool :=
  match s with
  | .Partial => true
  | _ => false

/-- The continuations that Evaluation.cpp passes to SetupFront; a term is named
by its location in the tree under reduction, an iterator by the location of
the term and an index in its container. -/
inductive Action where
  /-- Lines 126-129: set the next term to term and call ReduceCombinedBranch. -/
  | combinedBranch (term : Loc)
  /-- Lines 130-132: ReduceOnce on sub. -/
  | reduceOnce (sub : Loc)
  /-- Lines 149-151: ReduceChildrenOrderedAsync from first to the end of the
  container of term. -/
  | childrenOrdered (term : Loc) (first : Nat)
  /-- Lines 167-169: erase the subterm at i and call
  ReduceSequenceOrderedAsync on the iterator that erase returns. -/
  | sequenceOrdered (term : Loc) (i : Nat)
  /-- Lines 687-690: set the next term to term and call CallN with the count
  n, which is the count of the scheduling call less one. -/
  | callN (h : Nat) (n : Nat) (term : Loc)
  /-- Line 96: the continuation that calls the handler h on the next term. -/
  | handler (h : Nat)

/-- Modelled from the spec: Context, declared outside Evaluation.cpp; section
3: the next term, the last status and the queue of continuations, together
with the tree under reduction, the chain of environments from the current
record (handle and bindings, innermost first) and the part of the TCO action
of section 4.8 that CombinerReturnThunk writes. -/
structure Context where
  root : TermNode
  Record : List (EnvironmentReference × Environment)
  NextTerm : Loc
  LastStatus : ReductionStatus
  current : List Action
  LastFunction : Option Nat
  attached : List Nat

/-- The result of a reduction function: the status returned and the context
as it is left; an exception leaves the context as it was when thrown. -/
inductive Reduced where
  /-- Normal return. -/
  | ok (status : ReductionStatus) (ctx : Context)
  /-- An exception propagates. -/
  | thrown (e : Error) (ctx : Context)
  /-- An assertion fails, or the behaviour is undefined. -/
  | aborted
  /-- The fuel of the model is exhausted. -/
  | timeout

/-- The components of the reduction engine that Evaluation.cpp takes from
other files and that the spec leaves open. -/
structure Host where
  /-- The member ReduceOnce of the context, a pluggable dispatch (section
  4.2), called on a term and the context. -/
  ReduceOnce : Loc → Context → Reduced
  /-- The call of the ContextHandler h on a term and the context. -/
  Handler : Nat → Loc → Context → Reduced
  /-- The function Environment::MakeTermTags of the environment with the given
  handle. -/
  MakeTermTags : EnvironmentReference → TermNode → TermTags

/-- Modelled from the spec: Context::SetNextTermRef, declared outside
Evaluation.cpp; section 4.2: declares the term of the next continuation. -/
def SetNextTermRef (p : Loc) (ctx : Context) : Context :=
  { ctx with NextTerm := p }

/-- Modelled from the spec: Context::SetupFront, declared outside
Evaluation.cpp; section 4.2: enqueues a continuation at the head. -/
def SetupFront (a : Action) (ctx : Context) : Context :=
  { ctx with current := a :: ctx.current }

/-- Modelled from the spec: Context::Resolve, declared outside Evaluation.cpp;
section 3: walks the chain of environments and returns the bound term and the
environment that owns it. -/
def Resolve : List (EnvironmentReference × Environment) → TokenValue →
    Option (TermNode × EnvironmentReference)
  | [], _ => none
  | (e, env) :: parents, id =>
    match env.lookup id with
    | some b => some (b, e)
    | none => Resolve parents id

/-- Modelled from the spec: IsBranchedList, declared outside Evaluation.cpp;
section 3: a branch whose value slot is empty. -/
def IsBranchedList (t : TermNode) : Bool := IsBranch t && IsList t

/-- Modelled from the spec: TryAccessLeaf for ContextHandler, declared outside
Evaluation.cpp; section 4.6 asks whether the value of the referent is a
ContextHandler: the handler held in the value slot of the term. -/
def TryAccessLeafHandler (t : TermNode) : Option Nat :=
  match t.Value with
  | .handler h => some h
  | _ => none

/-- Modelled from the spec: TryAccessTerm for ContextHandler, declared outside
Evaluation.cpp; section 4.6: the handler is extracted from the term by
value. -/
def TryAccessTermHandler (t : TermNode) : Option Nat :=
  match t.Value with
  | .handler h => some h
  | _ => none

/-! ## The reduction engine: leaves -/

/-- The function ReduceOnce, lines 658-663. RelayDirect is declared outside
Evaluation.cpp and modelled from the spec (section 4.2): it relays to the
reducer of the context, on the term, in tail position. -/
def ReduceOnce (X : Host) (term : Loc) (ctx : Context) : Reduced :=
  X.ReduceOnce term (SetNextTermRef term ctx)

/-- The function ystdex::isdigit: a decimal digit. -/
def isdigit (c : Char) : Bool := decide ('0' ≤ c) && decide (c ≤ '9')

/-- The test of lines 45-47 on a token with first character f. -/
def literalRejected (f : Char) (id : TokenValue) : Bool :=
  (decide (id.length > 1) && (f == '#' || f == '+' || f == '-')
    && id.any (fun c => c != '+' && c != '-')) || isdigit f

/-- The function EnsureLValueReference, lines 25-29, on the tags. -/
def EnsureLValueReference (tags : TermTags) : TermTags := tags &&& ~~~uniqueTag

/-- The function ReduceLeaf, lines 31-79, on the term at a location. -/
def ReduceLeaf (X : Host) (p : Loc) (ctx : Context) : Reduced :=
  match getAt p ctx.root with
  | none => .aborted
  | some term =>
    match TermToNamePtr term with
    | some id =>
      match id with
      | [] =>
        if CheckReducible .Retained then ReduceOnce X p ctx else .ok .Retained ctx
      | f :: _ =>
        if literalRejected f id then
          .thrown (.InvalidSyntaxLiteral
            (if f ≠ '#' then .UnsupportedLiteralPrefix else .InvalidLiteral) id) ctx
        else
          match Resolve ctx.Record id with
          | some (bound, p_env) =>
            let term1 :=
              match TryAccessLeafReference bound with
              | some (g, r, e) =>
                TermNode.mk bound.container
                  (.reference (EnsureLValueReference g) r e) term.Tags
              | none =>
                TermNode.mk term.container
                  (.reference (X.MakeTermTags p_env bound &&& ~~~uniqueTag) bound p_env)
                  term.Tags
            let ctx1 := { ctx with root := setAt p term1 ctx.root }
            if CheckReducible .Neutral then ReduceOnce X p ctx1 else .ok .Neutral ctx1
          | none => .thrown (.BadIdentifier id) ctx
    | none => .ok .Retained ctx

/-! ## The reduction engine: branches -/

/-- Modelled from the spec: RelaySwitched, declared outside Evaluation.cpp;
section 4.2 and 4.6: installs the continuation, to which the trampoline
relays; the status says that work is queued. -/
def RelaySwitched (a : Action) (ctx : Context) : Reduced :=
  .ok .Partial (SetupFront a ctx)

/-- The function CombinerReturnThunk, lines 81-97; owner is the optional
owning argument. EnsureTCOAction is outside Evaluation.cpp (section 4.8): of
the TCO action, LastFunction and the attached functions are kept. -/
def CombinerReturnThunk (h : Nat) (p : Loc) (owner : Option Nat) (ctx : Context) :
    Reduced :=
  match getAt p ctx.root with
  | none => .aborted
  | some term =>
    let ctx1 : Context :=
      { ctx with
        root := setAt p (.mk term.container .empty term.Tags) ctx.root,
        LastFunction := owner,
        attached := match owner with
          | some g => g :: ctx.attached
          | none => ctx.attached }
    RelaySwitched
      (.handler (match owner with
        | some g => g
        | none => h))
      (SetNextTermRef p ctx1)

/-- The function ReduceCombinedBranch, lines 628-656. -/
def ReduceCombinedBranch (p : Loc) (ctx : Context) : Reduced :=
  match getAt p ctx.root with
  | none => .aborted
  | some term =>
    if !IsBranchedList term then .aborted
    else
      match term.container with
      | [] => .aborted
      | fm :: _ =>
        let p_ref_fm := TryAccessLeafReference fm
        let tags1 :=
          if p_ref_fm.isSome then term.Tags &&& ~~~temporaryTag
          else term.Tags ||| temporaryTag
        let ctx1 : Context :=
          { ctx with root := setAt p (.mk term.container term.Value tags1) ctx.root }
        match p_ref_fm.bind (fun r => TryAccessLeafHandler r.2.1) with
        | some h => CombinerReturnThunk h p none ctx1
        | none =>
          match TryAccessTermHandler fm with
          | some h => CombinerReturnThunk h p (some h) ctx1
          | none =>
            .thrown (.ListReductionFailure p_ref_fm.isSome (term.container.length - 1))
              ctx1

/-- Modelled from the spec: LiftOther, declared outside Evaluation.cpp;
section 4.5: the value and the container of tm are transferred to the term. -/
def LiftOther (p tm : Loc) (ctx : Context) : Option Context :=
  match getAt p ctx.root, getAt tm ctx.root with
  | some term, some t =>
    some { ctx with root := setAt p (.mk t.container t.Value term.Tags) ctx.root }
  | _, _ => none

/-- Modelled from the spec: ReduceOnceLifted, declared outside Evaluation.cpp;
sections 4.5 and 4.7: lifts tm into the place of the term and reduces the
term once. -/
def ReduceOnceLifted (X : Host) (p tm : Loc) (ctx : Context) : Reduced :=
  match LiftOther p tm ctx with
  | none => .aborted
  | some ctx1 => ReduceOnce X p ctx1

/-- The loop of lines 111-115, entered on a term of size 1: the location,
from the term, of the subterm at which the loop stops. -/
def firstSubtermLoop : TermNode → Loc
  | .mk [c] _ _ => .child 0 :: firstSubtermLoop c
  | _ => []

/-- Modelled from the spec: RemoveHead, declared outside Evaluation.cpp;
section 4.5: the first child is dropped. -/
def RemoveHead (t : TermNode) : TermNode := .mk t.container.tail t.Value t.Tags

/-- The function ReduceBranch, lines 99-136. -/
def ReduceBranch (X : Host) (p : Loc) (ctx : Context) : Reduced :=
  match getAt p ctx.root with
  | none => .aborted
  | some term =>
    if IsBranch term then
      if term.container.length == 1 then
        ReduceOnceLifted X p (p ++ firstSubtermLoop term) ctx
      else
        let term1 :=
          match term.container.head? with
          | some first => if IsEmpty first then RemoveHead term else term
          | none => term
        if !IsBranchedList term1 then .aborted
        else
          let ctx1 : Context :=
            { ctx with root := setAt p term1 ctx.root, NextTerm := p,
                       LastStatus := .Neutral }
          .ok .Partial
            (SetupFront (.reduceOnce (p ++ [.child 0]))
              (SetupFront (.combinedBranch p) ctx1))
    else .ok .Retained ctx

/-- The function Context::DefaultReduceOnce, lines 665-670. -/
def DefaultReduceOnce (X : Host) (p : Loc) (ctx : Context) : Reduced :=
  match getAt p ctx.root with
  | none => .aborted
  | some term =>
    if !term.Value.isEmpty then ReduceLeaf X p ctx else ReduceBranch X p ctx

/-! ## The reduction engine: ordered evaluation -/

/-- Modelled from the spec: ReduceSubsequent, declared outside Evaluation.cpp;
section 4.7: the continuation is scheduled first, then the term is
reduced. -/
def ReduceSubsequent (X : Host) (p : Loc) (next : Action) (ctx : Context) : Reduced :=
  ReduceOnce X p (SetupFront next ctx)

/-- The function ReduceChildrenOrderedAsyncUnchecked, lines 142-152; last is
the end of the container of term. -/
def ReduceChildrenOrderedAsyncUnchecked (X : Host) (term : Loc) (first : Nat)
    (ctx : Context) : Reduced :=
  match getAt term ctx.root with
  | none => .aborted
  | some t =>
    if first < t.container.length then
      ReduceSubsequent X (term ++ [.child first]) (.childrenOrdered term (first + 1)) ctx
    else .aborted

/-- The function ReduceChildrenOrderedAsync, lines 154-159. -/
def ReduceChildrenOrderedAsync (X : Host) (term : Loc) (first : Nat)
    (ctx : Context) : Reduced :=
  match getAt term ctx.root with
  | none => .aborted
  | some t =>
    if first ≠ t.container.length then
      ReduceChildrenOrderedAsyncUnchecked X term first ctx
    else .ok .Neutral ctx

/-- The function ReduceSequenceOrderedAsync, lines 161-171. -/
def ReduceSequenceOrderedAsync (X : Host) (term : Loc) (i : Nat) (ctx : Context) :
    Reduced :=
  match getAt term ctx.root with
  | none => .aborted
  | some t =>
    if i < t.container.length then
      if i + 1 == t.container.length then
        ReduceOnceLifted X term (term ++ [.child i]) ctx
      else
        ReduceOnce X (term ++ [.child i]) (SetupFront (.sequenceOrdered term i) ctx)
    else .aborted

/-- Modelled from the spec: ValueToken::Unspecified, declared outside
Evaluation.cpp; section 4.7 names it as a value; it is a host object of its
own. -/
def Unspecified : ValueObject := .object 0

/-- The function ReduceOrdered, lines 672-679. -/
def ReduceOrdered (X : Host) (term : Loc) (ctx : Context) : Reduced :=
  match getAt term ctx.root with
  | none => .aborted
  | some t =>
    if IsBranch t then ReduceSequenceOrderedAsync X term 0 ctx
    else
      .ok .Retained
        { ctx with root := setAt term (.mk t.container Unspecified t.Tags) ctx.root }

/-- The function FormContextHandler::CallN, lines 682-696; h is the member
Handler. -/
def CallN (X : Host) (h : Nat) (n : Nat) (term : Loc) (ctx : Context) : Reduced :=
  match getAt term ctx.root with
  | none => .aborted
  | some t =>
    if n == 0 || decide (t.container.length ≤ 1) then X.Handler h ctx.NextTerm ctx
    else
      match ReduceChildrenOrderedAsyncUnchecked X term 1
          (SetNextTermRef term (SetupFront (.callN h (n - 1) term) ctx)) with
      | .ok _ c => .ok .Partial c
      | other => other

/-! ## The reduction engine: the trampoline -/

/-- The call of a continuation of the queue. -/
def Action.exec (X : Host) : Action → Context → Reduced
  | .combinedBranch p, c => ReduceCombinedBranch p (SetNextTermRef p c)
  | .reduceOnce p, c => ReduceOnce X p c
  | .childrenOrdered p j, c => ReduceChildrenOrderedAsync X p j c
  | .sequenceOrdered p i, c =>
    match getAt p c.root with
    | none => .aborted
    | some t =>
      ReduceSequenceOrderedAsync X p i
        { c with root := setAt p (.mk (t.container.eraseIdx i) t.Value t.Tags) c.root }
  | .callN h n p, c => CallN X h n p (SetNextTermRef p c)
  | .handler h, c => X.Handler h c.NextTerm c

/-- Modelled from the spec: the trampoline, outside Evaluation.cpp; section
5: it pops continuations from the front until the queue is empty; section 4.2:
LastStatus holds the status of the most recent reduction. -/
def Trampoline (X : Host) : Nat → Context → Reduced
  | 0, ctx =>
    match ctx.current with
    | [] => .ok ctx.LastStatus ctx
    | _ :: _ => .timeout
  | fuel + 1, ctx =>
    match ctx.current with
    | [] => .ok ctx.LastStatus ctx
    | a :: rest =>
      match a.exec X { ctx with current := rest } with
      | .ok st c => Trampoline X fuel { c with LastStatus := st }
      | other => other

/-- A reduction followed by the trampoline run to exhaustion. -/
def Reduced.thenRun (X : Host) (fuel : Nat) : Reduced → Reduced
  | .ok st c => Trampoline X fuel { c with LastStatus := st }
  | other => other

/-- The host whose dispatch is the default one, DefaultReduceOnce; the fuel
bounds the depth of the direct calls of ReduceOnce from the reduction
functions. -/
def DefaultHost (Handler : Nat → Loc → Context → Reduced)
    (MakeTermTags : EnvironmentReference → TermNode → TermTags) : Nat → Host
  | 0 => ⟨fun _ _ => .timeout, Handler, MakeTermTags⟩
  | fuel + 1 =>
    ⟨DefaultReduceOnce (DefaultHost Handler MakeTermTags fuel), Handler, MakeTermTags⟩

/-! ## Vocabulary of the statements -/

/-- One admissible choice of the external components: every non-empty token is
a symbol; ArityMismatch and the error of ThrowInsufficientTermsError are the
classes derived from ParameterMismatch; LiftToReturn replaces a reference by
the content of its referent; the two-argument constructor of TermReference
gives no tag. -/
def External.sample : External where
  IsUnilangSymbol := fun n => !n.isEmpty
  DerivedFromParameterMismatch := fun e =>
    match e with
    | .ArityMismatch _ _ => true
    | .InsufficientTerms => true
    | _ => false
  LiftToReturn := fun t =>
    match t.Value with
    | .reference _ r _ => .mk r.container r.Value t.Tags
    | _ => t
  DefaultReferenceTags := fun _ => Unqualified

/-- A leaf holding a token. -/
def tokenLeaf (n : TokenValue) : TermNode := .mk [] (.token n) Unqualified

/-- A leaf holding a host object that is not a reference. -/
def objectLeaf (n : Nat) : TermNode := .mk [] (.object n) Unqualified

/-- A list term. -/
def listTerm (l : List TermNode) : TermNode := .mk l .empty Unqualified

/-- The rest marker in the words of the spec (section 4.9): the last element
of the formal is a token beginning with a dot. -/
def hasRestMarker (t : TermNode) : Bool :=
  match t.container.getLast? with
  | some (.mk [] (.token ('.' :: _)) _) => true
  | _ => false

/-- A symbol without sigil that the symbol check of HandleLeaf accepts. -/
def plainSymbol (X : External) (s : TokenValue) : Prop :=
  X.IsUnilangSymbol s = true ∧ IsIgnore s = false ∧ ExtractSigil s = some (noSigil, s)

/-- The state in which a move leaves a term: container and value are gone. -/
def movedFrom (v : TermNode) : TermNode := .mk [] .empty v.Tags

/-- The term that the move callback binds for the operand v. -/
def boundMoved (v : TermNode) : TermNode := .mk v.container v.Value Unqualified

/-- The bindings made for the symbols, in order. -/
def bindSymbols : Environment → List (TokenValue × TermTags) → List TermNode → Environment
  | env, p :: ss, v :: vs => bindSymbols (env.Bind p.1 (boundMoved v)) ss vs
  | env, _, _ => env

/-- The formal leaves of the symbols. -/
def symbolLeaves (syms : List (TokenValue × TermTags)) : List TermNode :=
  syms.map fun p => .mk [] (.token p.1) p.2

/-- The container from which BindTrailing takes the rest: the subterms are
lifted when there is no sigil. -/
def restSource (X : External) (sigil : Char) (c : List TermNode) : List TermNode :=
  if sigil == noSigil then c.map X.LiftToReturn else c

/-- The tags of the term bound to the rest name when the rest is spliced. -/
def restTags (sigil : Char) : TermTags :=
  if sigil ≠ noSigil then temporaryTag else Unqualified

/-- The first step of a location when it enters a subterm of the root. -/
def headChild : Loc → Option Nat
  | .child j :: _ => some j
  | _ => none

/-- The operand location that a thunk captures. -/
def Thunk.loc : Thunk → Loc
  | .matchReferent _ o _ _ => o
  | .subterms _ _ o_tm _ _ _ _ => o_tm

/-- Two states of the root operand that differ at most in the j-th subterm. -/
def sameOutside (j : Nat) (r r1 : TermNode) : Prop :=
  r1.Value = r.Value ∧ r1.Tags = r.Tags ∧
  r1.container.length = r.container.length ∧
  ∀ i, i ≠ j → r1.container[i]? = r.container[i]?

/-- A step of the matcher that works inside the j-th subterm of the root: it
adds thunks on top of act, all of them inside that subterm, and changes the
root operand in that subterm only. -/
def Framed (j : Nat) (F : MatcherState → Outcome MatcherState) : Prop :=
  ∀ s s1, F s = .ok s1 →
    ∃ new, s1.act = new ++ s.act ∧ (∀ th ∈ new, headChild th.loc = some j) ∧
      sameOutside j s.root s1.root

/-- A context that holds a term tree and a chain of environments, with no
pending continuation. -/
def Context.initial (root : TermNode)
    (Record : List (EnvironmentReference × Environment)) : Context :=
  ⟨root, Record, [], .Neutral, [], none, []⟩

/-- A host whose handlers return at once and whose environments give no
tag. -/
def Host.sample (fuel : Nat) : Host :=
  DefaultHost (fun _ _ c => .ok .Regular c) (fun _ _ => Unqualified) fuel

/-- A chain of nested lists with one subterm each, with the given tags,
around the term u. -/
def singletonChain : List TermTags → TermNode → TermNode
  | [], u => u
  | g :: gs, u => .mk [singletonChain gs u] .empty g

/-- A context with further continuations pending behind those of the queue. -/
def Context.pending (ctx : Context) (q : List Action) : Context :=
  { ctx with current := ctx.current ++ q }

/-- A result with further continuations pending behind those of the queue. -/
def Reduced.pending : Reduced → List Action → Reduced
  | .ok st c, q => .ok st (c.pending q)
  | .thrown e c, q => .thrown e (c.pending q)
  | .aborted, _ => .aborted
  | .timeout, _ => .timeout

/-- The dispatch and the handlers of a host schedule continuations in front of
the queue only: they neither read nor change the continuations that are
pending when they are called. -/
def Host.QueueBlind (X : Host) : Prop :=
  (∀ p ctx q, X.ReduceOnce p (Context.pending ctx q) = (X.ReduceOnce p ctx).pending q) ∧
  (∀ h p ctx q, X.Handler h p (Context.pending ctx q) = (X.Handler h p ctx).pending q)

/-- The trampoline, started in the first context, comes to the second one
after a fixed number of continuations. -/
def Leads (X : Host) (ctx1 ctx2 : Context) : Prop :=
  ∃ F, ∀ g, Trampoline X (F + g) ctx1 = Trampoline X g ctx2

/-- The sequence of section 4.7 in the words of the spec, for a term with at
most k subterms: as long as the term has more than one subterm, the first one
is reduced, with all the continuations that this schedules, and then erased;
the last one is lifted into the term, which is then reduced, again with all
the continuations that this schedules. -/
def sequenceReference (X : Host) (fuel : Nat) : Nat → Loc → Context → Reduced
  | 0, _, _ => .timeout
  | k + 1, term, ctx =>
    match getAt term ctx.root with
    | none => .aborted
    | some t =>
      match t.container with
      | [] => .aborted
      | [_] => (ReduceOnceLifted X term (term ++ [.child 0]) ctx).thenRun X fuel
      | _ :: _ :: _ =>
        match (ReduceOnce X (term ++ [.child 0]) ctx).thenRun X fuel with
        | .ok _ c =>
          match getAt term c.root with
          | none => .aborted
          | some t1 =>
            sequenceReference X fuel k term
              { c with root := setAt term (.mk t1.container.tail t1.Value t1.Tags) c.root }
        | other => other

/-- One pass over the operands in the words of the spec, from the subterm j
on, for at most k operands: each operand in turn is reduced, with all the
continuations that this schedules; the pass ends with the status Neutral. -/
def operandsReference (X : Host) (fuel : Nat) : Nat → Loc → Nat → Context → Reduced
  | 0, _, _, _ => .timeout
  | k + 1, term, j, ctx =>
    match getAt term ctx.root with
    | none => .aborted
    | some t =>
      if j = t.container.length then .ok .Neutral ctx
      else if j < t.container.length then
        match (ReduceOnce X (term ++ [.child j]) ctx).thenRun X fuel with
        | .ok _ c => operandsReference X fuel k term (j + 1) c
        | other => other
      else .aborted

/-- The call CallN(n, term, ctx) in the words of the spec, for at most k
operands: when n is 0 or there is no operand, the handler is called on the
next term; else there is one pass over the operands, the first operand being
reduced under the status Partial that CallN reports, and then the same with
n - 1, on the term as next term. -/
def callNReference (X : Host) (fuel k : Nat) (h : Nat) : Nat → Loc → Context → Reduced
  | 0, term, ctx =>
    match getAt term ctx.root with
    | none => .aborted
    | some _ => (X.Handler h ctx.NextTerm ctx).thenRun X fuel
  | n + 1, term, ctx =>
    match getAt term ctx.root with
    | none => .aborted
    | some t =>
      if t.container.length ≤ 1 then (X.Handler h ctx.NextTerm ctx).thenRun X fuel
      else
        match ReduceOnce X (term ++ [.child 1]) (SetNextTermRef term ctx) with
        | .ok _ c0 =>
          match Trampoline X fuel { c0 with LastStatus := .Partial } with
          | .ok _ c1 =>
            match operandsReference X fuel k term 2 c1 with
            | .ok st c2 =>
              callNReference X fuel k h n term
                (SetNextTermRef term { c2 with LastStatus := st })
            | other => other
          | other => other
        | other => other

/-- The term t inside d nested lists of one element each. -/
def nest : Nat → TermNode → TermNode
  | 0, t => t
  | d + 1, t => listTerm [nest d t]

/-- The thunks that the matcher has stored when it reaches the leaf of a
formal nested d lists deep, matched at the location o: one deferred call of
MatchSubterms for each list, the innermost first. -/
def spineThunks (tags : TermTags) (r_env : EnvironmentReference) : Nat → Loc → List Thunk
  | 0, _ => []
  | d + 1, o =>
    spineThunks tags r_env d (o ++ [.child 0]) ++ [.subterms [] none o 1 tags r_env false]

/-- A value object without the state of the term that a reference in it
refers to: the referent is not a part of the term that holds the reference. -/
def ValueObject.eraseReferent : ValueObject → ValueObject
  | .reference g _ e => .reference g (.mk [] .empty Unqualified) e
  | v => v

mutual
/-- A term as it is in itself: its subterms, values and tags, where a
reference counts by its tags and its environment and not by the state of its
referent. -/
def eraseReferents : TermNode → TermNode
  | .mk c v g => .mk (eraseReferentsList c) v.eraseReferent g
/-- The subterms of a term as they are in themselves. -/
def eraseReferentsList : List TermNode → List TermNode
  | [] => []
  | t :: ts => eraseReferents t :: eraseReferentsList ts
end

/-- The operand tags that a thunk captures. -/
def Thunk.tags : Thunk → TermTags
  | .matchReferent _ _ o_tags _ => o_tags
  | .subterms _ _ _ _ tags _ _ => tags

/-- The context in which a reduction function leaves off, by return or by
exception. -/
def Reduced.context : Reduced → Option Context
  | .ok _ c => some c
  | .thrown _ c => some c
  | .aborted => none
  | .timeout => none

/-! ## Auxiliary facts -/

theorem Outcome.bind_ok {α β : Type} (a : α) (f : α → Outcome β) :
    (Outcome.ok a).bind f = f a := rfl

theorem trailingEllipsis_eq (tr : Traits) (t : TermNode) (h : Bool)
    (hback : ∀ back, t.container.getLast? = some back → IsLeaf back = true →
      (TermToNamePtr back).isSome = true) :
    trailingEllipsis tr t h = .ok (hasRestMarker t) := by
  unfold trailingEllipsis hasRestMarker
  cases hl : t.container.getLast? with
  | none => rfl
  | some back =>
    have hb := hback back hl
    obtain ⟨c, v, g⟩ := back
    cases c with
    | cons c0 cs => simp [IsLeaf, TermNode.container]
    | nil =>
      cases v with
      | token p =>
        cases p with
        | nil => simp [IsLeaf, TermNode.container, TermNode.Value, ValueObject.isEmpty,
            TryAccessLeafToken]
        | cons ch rest =>
          by_cases hc : ch = '.'
          · subst hc
            simp [IsLeaf, TermNode.container, TermNode.Value, ValueObject.isEmpty,
              TryAccessLeafToken]
          · simp [IsLeaf, TermNode.container, TermNode.Value, ValueObject.isEmpty,
              TryAccessLeafToken, hc]
      | empty => simp [IsLeaf, TermNode.container, TermNode.Value, ValueObject.isEmpty]
      | reference a b c =>
        simp [IsLeaf, TermNode.container, TermNode.Value, ValueObject.isEmpty,
          TermToNamePtr] at hb
      | shared a =>
        simp [IsLeaf, TermNode.container, TermNode.Value, ValueObject.isEmpty,
          TermToNamePtr] at hb
      | object a =>
        simp [IsLeaf, TermNode.container, TermNode.Value, ValueObject.isEmpty,
          TermToNamePtr] at hb
      | handler a =>
        simp [IsLeaf, TermNode.container, TermNode.Value, ValueObject.isEmpty,
          TermToNamePtr] at hb

theorem Match_list_eq (X : External) (tr : Traits) (fuel : Nat) (t : TermNode)
    (o : Loc) (o_tags : TermTags) (r_env : EnvironmentReference) (h : Bool)
    (s : MatcherState) (term : TermNode)
    (ht : IsList t = true) (hb : IsBranch t = true)
    (hback : ∀ back, t.container.getLast? = some back → IsLeaf back = true →
      (TermToNamePtr back).isSome = true)
    (ho : getAt o s.root = some term) (hnd : IsList (resolved term) = true) :
    Match X tr (fuel + 1) t o o_tags r_env h s =
      if (hasRestMarker t = false ∧
            (resolved term).container.length = t.container.length) ∨
          (hasRestMarker t = true ∧
            (resolved term).container.length ≥ t.container.length - 1) then
        MatchSubterms X (Match X tr fuel)
          (if hasRestMarker t then t.container.dropLast else t.container)
          (if hasRestMarker t then t.container.getLast? else none)
          (resolvedLoc o term) 0 (subtermTags o_tags term)
          (subtermEnvironment r_env term) (hasRestMarker t) s
      else if hasRestMarker t = false then
        .thrown (.ArityMismatch t.container.length (resolved term).container.length)
      else .thrown .InsufficientTerms := by
  simp only [Match, ht, hb, trailingEllipsis_eq tr t h hback, Outcome.bind, ho, if_true, hnd]
  cases he : hasRestMarker t
  · by_cases hlen : (resolved term).container.length = t.container.length
    · simp [hlen]
    · have hlen2 : ¬ t.container.length = (resolved term).container.length :=
        fun h => hlen h.symm
      simp [hlen, hlen2]
  · by_cases hge : t.container.length - 1 ≤ (resolved term).container.length
    · simp [hge]
    · have hne : ¬ t.container.length = (resolved term).container.length := by omega
      simp [hge, hne]

theorem IsIgnore_cons_ne (c : Char) (rest : TokenValue) (hc : c ≠ '#') :
    IsIgnore (c :: rest) = false := by
  simp [IsIgnore, hc]

theorem BindParameterObject_ok_of_ne_at (Referenced : EnvironmentReference)
    (sigil : Char) (ref_temp : Bool) (o_tags : TermTags) (o : TermNode)
    (hs : sigil ≠ '@') :
    ∃ call o1, BindParameterObject Referenced sigil ref_temp o_tags o = .ok (call, o1) := by
  unfold BindParameterObject
  simp only [hs, ne_eq, not_false_eq_true, if_true]
  split
  · split
    · split <;> exact ⟨_, _, rfl⟩
    · split <;> exact ⟨_, _, rfl⟩
  · split
    · exact ⟨_, _, rfl⟩
    · split <;> exact ⟨_, _, rfl⟩

theorem BindParameterObject_thrown (Referenced : EnvironmentReference) (sigil : Char)
    (ref_temp : Bool) (o_tags : TermTags) (o : TermNode) (e : Error)
    (h : BindParameterObject Referenced sigil ref_temp o_tags o = .thrown e) :
    e = .InvalidReference := by
  by_cases hs : sigil = '@'
  · subst hs
    unfold BindParameterObject at h
    simp only [ne_eq, not_true_eq_false, if_false] at h
    split at h
    · cases h
    · cases h
      rfl
  · obtain ⟨call, o1, hok⟩ :=
      BindParameterObject_ok_of_ne_at Referenced sigil ref_temp o_tags o hs
    rw [hok] at h
    cases h

theorem getElem?_append_length_cons {α : Type} (pre : List α) (v : α) (vs : List α) :
    (pre ++ v :: vs)[pre.length]? = some v := by
  induction pre with
  | nil => simp
  | cons a pre ih => simpa using ih

theorem set_append_length_cons {α : Type} (pre : List α) (v x : α) (vs : List α) :
    (pre ++ v :: vs).set pre.length x = pre ++ x :: vs := by
  induction pre with
  | nil => rfl
  | cons a pre ih => simp [ih]

theorem getAt_child_append (pre : List TermNode) (v : TermNode) (vs : List TermNode)
    (val : ValueObject) (g : TermTags) :
    getAt [.child pre.length] (.mk (pre ++ v :: vs) val g) = some v := by
  simp only [getAt, TermNode.container, getElem?_append_length_cons]

theorem setAt_child_append (pre : List TermNode) (v x : TermNode) (vs : List TermNode)
    (val : ValueObject) (g : TermTags) :
    setAt [.child pre.length] x (.mk (pre ++ v :: vs) val g)
      = .mk (pre ++ x :: vs) val g := by
  simp only [setAt, TermNode.container, getElem?_append_length_cons,
    set_append_length_cons, TermNode.Value, TermNode.Tags]

theorem TryAccessLeafReference_none_of_not_reference (v : TermNode)
    (hv : v.Value.isReference = false) : TryAccessLeafReference v = none := by
  obtain ⟨c, val, g⟩ := v
  cases val <;> simp_all [TryAccessLeafReference, TermNode.Value, ValueObject.isReference]

theorem BindParameterObject_plain_temporary (Referenced : EnvironmentReference)
    (v : TermNode) (hv : v.Value.isReference = false) :
    BindParameterObject Referenced noSigil false temporaryTag v
      = .ok (.mv v.container v.Value false, movedFrom v) := by
  have hn := TryAccessLeafReference_none_of_not_reference v hv
  simp [BindParameterObject, hn, noSigil, temporaryTag, nonmodifyingTag, TermTags.toBool,
    HAnd.hAnd, AndOp.and, MarkTemporaryTerm, movedFrom]

theorem Match_plainSymbol (X : External) (tr : Traits) (fuel : Nat) (s : TokenValue)
    (g go : TermTags) (p_env : EnvironmentReference) (pre : List TermNode) (v : TermNode)
    (vs : List TermNode) (env : Environment) (act : List Thunk)
    (hs : plainSymbol X s) (hv : v.Value.isReference = false) :
    Match X tr (fuel + 1) (.mk [] (.token s) g) [.child pre.length] temporaryTag p_env false
        ⟨.mk (pre ++ v :: vs) .empty go, env, act⟩
      = .ok ⟨.mk (pre ++ movedFrom v :: vs) .empty go, env.Bind s (boundMoved v), act⟩ := by
  obtain ⟨hsym, hign, hx⟩ := hs
  have hne : s.isEmpty = false := by
    cases s with
    | nil => simp [ExtractSigil] at hx
    | cons _ _ => rfl
  have hbv : BindValue X s [.child pre.length] temporaryTag p_env
      ⟨.mk (pre ++ v :: vs) .empty go, env, act⟩
      = .ok ⟨.mk (pre ++ movedFrom v :: vs) .empty go, env.Bind s (boundMoved v), act⟩ := by
    have hns : (noSigil == '&') = false := by decide
    simp only [BindValue, hign, hsym, hx, hne, getAt_child_append, setAt_child_append, hns,
      BindParameterObject_plain_temporary _ v hv, Outcome.bind, BindCall.term, boundMoved]
    simp
  cases tr <;>
    simp [Match, IsList, TermNode.Value, ValueObject.isEmpty, TryAccessLeafReference, IsLeaf,
      HandleLeaf, TermToNamePtr, hign, hsym, hbv]

theorem BindTrailing_temporary (X : External) (p_env : EnvironmentReference)
    (c : List TermNode) (val : ValueObject) (go : TermTags) (env : Environment)
    (act : List Thunk) (j : Nat)
    (id1 : TokenValue) (sigil : Char) (id2 : TokenValue)
    (hx : ExtractSigil id1 = some (sigil, id2)) (hid2 : id2 ≠ []) :
    BindTrailing X [] j ('.' :: id1) temporaryTag p_env ⟨.mk c val go, env, act⟩ =
      .ok ⟨.mk ((restSource X sigil c).take j) val go,
        env.Bind id2 (.mk ((restSource X sigil c).drop j) .empty (restTags sigil)), act⟩ := by
  have h1 : id1.isEmpty = false := by
    cases id1 with
    | nil => simp [ExtractSigil] at hx
    | cons _ _ => rfl
  have h2 : id2.isEmpty = false := by
    cases id2 with
    | nil => exact absurd rfl hid2
    | cons _ _ => rfl
  have ht : ((temporaryTag &&& (uniqueTag ||| nonmodifyingTag)) == uniqueTag
      || (temporaryTag &&& temporaryTag).toBool) = true := by decide
  simp only [BindTrailing, h1, h2, hx, getAt, setAt, ht, restSource, restTags,
    LiftSubtermsToReturn, BindCall.term, MarkTemporaryTerm, TermNode.container,
    TermNode.Value, TermNode.Tags]
  by_cases hs : sigil = noSigil
  · subst hs
    simp
  · have hs2 : (sigil == noSigil) = false := by simpa using hs
    have ht2 : Unqualified ||| temporaryTag = temporaryTag := by decide
    simp [hs, hs2, ht2]

theorem MatchSubterms_cons (X : External) (M : MatchFn) (ti : TermNode)
    (rest : List TermNode) (last : Option TermNode) (o_tm : Loc) (j : Nat) (tags : TermTags)
    (r_env : EnvironmentReference) (ellipsis : Bool) (s : MatcherState) :
    MatchSubterms X M (ti :: rest) last o_tm j tags r_env ellipsis s =
      match getAt (o_tm ++ [.child j]) s.root with
      | none => .aborted
      | some _ => M ti (o_tm ++ [.child j]) tags r_env false
          (update_thunk s (.subterms rest last o_tm (j + 1) tags r_env ellipsis)) := rfl

theorem drain_cons (X : External) (tr : Traits) (fuel : Nat) (root : TermNode)
    (env : Environment) (a : Thunk) (rest : List Thunk) :
    drain X tr (fuel + 1) ⟨root, env, a :: rest⟩ =
      (a.run X tr (fuel + 1) ⟨root, env, rest⟩).bind (drain X tr fuel) := rfl

theorem MatchSubterms_symbols_drain (X : External) (tr : Traits)
    (p_env : EnvironmentReference) (go gr : TermTags) (id1 : TokenValue) (sigil : Char)
    (id2 : TokenValue) (hx : ExtractSigil id1 = some (sigil, id2)) (hid2 : id2 ≠ []) :
    ∀ (syms : List (TokenValue × TermTags)) (pre ops : List TermNode) (env : Environment)
      (f1 f2 : Nat),
      (∀ p ∈ syms, plainSymbol X p.1) →
      (∀ v ∈ ops.take syms.length, v.Value.isReference = false) →
      syms.length ≤ ops.length → 1 ≤ f1 → syms.length ≤ f2 →
      (MatchSubterms X (Match X tr f1) (symbolLeaves syms)
          (some (.mk [] (.token ('.' :: id1)) gr)) [] pre.length temporaryTag p_env true
          ⟨.mk (pre ++ ops) .empty go, env, []⟩).bind (drain X tr f2)
        = .ok ⟨.mk ((restSource X sigil
              (pre ++ (ops.take syms.length).map movedFrom ++ ops.drop syms.length)).take
              (pre.length + syms.length)) .empty go,
            (bindSymbols env syms ops).Bind id2
              (.mk ((restSource X sigil
                (pre ++ (ops.take syms.length).map movedFrom ++ ops.drop syms.length)).drop
                (pre.length + syms.length)) .empty (restTags sigil)), []⟩ := by
  intro syms
  induction syms with
  | nil =>
    intro pre ops env f1 f2 _ _ _ _ _
    simp only [symbolLeaves, List.map_nil, MatchSubterms, if_true, TermNode.Value,
      BindTrailing_temporary X p_env _ .empty go env [] _ id1 sigil id2 hx hid2, Outcome.bind,
      drain, List.length_nil, List.take_zero, List.map_nil, List.drop_zero, Nat.add_zero,
      List.append_nil, bindSymbols]
  | cons p ss ih =>
    intro pre ops env f1 f2 hsyms hops hlen hf1 hf2
    cases ops with
    | nil => simp at hlen
    | cons v vs =>
      obtain ⟨f1', rfl⟩ : ∃ k, f1 = k + 1 := ⟨f1 - 1, by omega⟩
      obtain ⟨f2', rfl⟩ : ∃ k, f2 = k + 1 := ⟨f2 - 1, by simp at hf2; omega⟩
      have hp : plainSymbol X p.1 := hsyms p (List.mem_cons_self _ _)
      have hv : v.Value.isReference = false :=
        hops v (by simp [List.take_succ_cons])
      have hstep := Match_plainSymbol X tr f1' p.1 p.2 go p_env pre v vs env
        [.subterms (symbolLeaves ss) (some (.mk [] (.token ('.' :: id1)) gr)) []
          (pre.length + 1) temporaryTag p_env true] hp hv
      have hih := ih (pre ++ [movedFrom v]) vs (env.Bind p.1 (boundMoved v)) (f2' + 1) f2'
        (fun q hq => hsyms q (List.mem_cons_of_mem _ hq))
        (fun w hw => hops w (by
          simp only [List.length_cons, List.take_succ_cons]
          exact List.mem_cons_of_mem _ hw))
        (by simpa using hlen) (by omega) (by simpa using hf2)
      have hcons : symbolLeaves (p :: ss)
          = .mk [] (.token p.1) p.2 :: symbolLeaves ss := rfl
      rw [hcons, MatchSubterms_cons]
      simp only [List.nil_append, getAt_child_append, update_thunk]
      rw [hstep, Outcome.bind_ok, drain_cons]
      simp only [Thunk.run]
      simp only [List.length_append, List.length_singleton,
        List.append_assoc, List.singleton_append] at hih
      rw [hih]
      have e1 : pre.length + (ss.length + 1) = pre.length + 1 + ss.length := by omega
      simp only [List.length_cons, List.take_succ_cons, List.map_cons, List.drop_succ_cons,
        bindSymbols, List.append_assoc, List.cons_append, e1]

theorem lookup_filter_ne (env : Environment) (k k1 : TokenValue) (h : k1 ≠ k) :
    Environment.lookup (env.filter (fun p => p.1 != k)) k1 = Environment.lookup env k1 := by
  induction env with
  | nil => rfl
  | cons q rest ih =>
    obtain ⟨k0, tm⟩ := q
    by_cases h0 : k0 = k
    · subst h0
      have hf : ((k0, tm) :: rest).filter (fun p => p.1 != k0)
          = rest.filter (fun p => p.1 != k0) := by
        simp [List.filter_cons]
      have hne : (k0 == k1) = false := by
        simpa using fun e : k0 = k1 => h e.symm
      rw [hf, ih]
      simp [Environment.lookup, hne]
    · have hf : ((k0, tm) :: rest).filter (fun p => p.1 != k)
          = (k0, tm) :: rest.filter (fun p => p.1 != k) := by
        simp [List.filter_cons, h0]
      rw [hf]
      simp only [Environment.lookup, ih]

theorem lookup_Bind_self (env : Environment) (k : TokenValue) (tm : TermNode) :
    Environment.lookup (env.Bind k tm) k = some tm := by
  simp [Environment.Bind, Environment.lookup]

theorem lookup_Bind_ne (env : Environment) (k k1 : TokenValue) (tm : TermNode)
    (h : k1 ≠ k) : Environment.lookup (env.Bind k tm) k1 = Environment.lookup env k1 := by
  have hne : (k == k1) = false := by
    simpa using fun e : k = k1 => h e.symm
  simp only [Environment.Bind, Environment.lookup, hne]
  exact lookup_filter_ne env k k1 h

theorem lookup_bindSymbols_not_mem (k : TokenValue) :
    ∀ (syms : List (TokenValue × TermTags)) (env : Environment) (ops : List TermNode),
      k ∉ syms.map (fun p => p.1) →
      Environment.lookup (bindSymbols env syms ops) k = Environment.lookup env k := by
  intro syms
  induction syms with
  | nil => intro env ops _; rfl
  | cons p ss ih =>
    intro env ops hk
    cases ops with
    | nil => rfl
    | cons v vs =>
      simp only [List.map_cons, List.mem_cons, not_or] at hk
      simp only [bindSymbols]
      rw [ih _ _ hk.2, lookup_Bind_ne _ _ _ _ hk.1]

theorem lookup_bindSymbols :
    ∀ (syms : List (TokenValue × TermTags)) (env : Environment) (ops : List TermNode)
      (i : Nat) (s : TokenValue) (v : TermNode),
      (syms.map (fun p => p.1)).Nodup →
      (syms.map (fun p => p.1))[i]? = some s → ops[i]? = some v →
      Environment.lookup (bindSymbols env syms ops) s = some (boundMoved v) := by
  intro syms
  induction syms with
  | nil => intro env ops i s v _ hs _; simp at hs
  | cons p ss ih =>
    intro env ops i s v hnd hs hv
    cases ops with
    | nil => simp at hv
    | cons v0 vs =>
      simp only [List.map_cons, List.nodup_cons] at hnd
      cases i with
      | zero =>
        simp only [List.map_cons, List.getElem?_cons_zero, Option.some.injEq] at hs hv
        subst hs hv
        simp only [bindSymbols]
        rw [lookup_bindSymbols_not_mem _ _ _ _ hnd.1, lookup_Bind_self]
      | succ i =>
        simp only [List.map_cons, List.getElem?_cons_succ] at hs hv
        simp only [bindSymbols]
        exact ih _ vs i s v hnd.2 hs hv

theorem getLast?_append_singleton {α : Type} (l : List α) (a : α) :
    (l ++ [a]).getLast? = some a := by
  simp

theorem hasRestMarker_concat (l : List TermNode) (id1 : TokenValue) (gr gt : TermTags)
    (val : ValueObject) :
    hasRestMarker (.mk (l ++ [.mk [] (.token ('.' :: id1)) gr]) val gt) = true := by
  simp [hasRestMarker, TermNode.container]

theorem matchAndDrain_symbols_rest (X : External) (tr : Traits) (fuel : Nat)
    (p_env : EnvironmentReference) (env : Environment)
    (syms : List (TokenValue × TermTags)) (id1 : TokenValue) (sigil : Char)
    (id2 : TokenValue) (gr gt go : TermTags) (ops : List TermNode)
    (hx : ExtractSigil id1 = some (sigil, id2)) (hid2 : id2 ≠ [])
    (hsyms : ∀ p ∈ syms, plainSymbol X p.1)
    (hops : ∀ v ∈ ops.take syms.length, v.Value.isReference = false)
    (hlen : syms.length ≤ ops.length) (hfuel : syms.length + 2 ≤ fuel) :
    matchAndDrain X tr fuel
        (.mk (symbolLeaves syms ++ [.mk [] (.token ('.' :: id1)) gr]) .empty gt)
        temporaryTag p_env ⟨.mk ops .empty go, env, []⟩
      = .ok ⟨.mk ((restSource X sigil
              ((ops.take syms.length).map movedFrom ++ ops.drop syms.length)).take
              syms.length) .empty go,
            (bindSymbols env syms ops).Bind id2
              (.mk ((restSource X sigil
                ((ops.take syms.length).map movedFrom ++ ops.drop syms.length)).drop
                syms.length) .empty (restTags sigil)), []⟩ := by
  obtain ⟨F, rfl⟩ : ∃ k, fuel = k + 1 := ⟨fuel - 1, by omega⟩
  have hres : resolved (.mk ops .empty go) = .mk ops .empty go := rfl
  have hm := Match_list_eq X tr F
    (.mk (symbolLeaves syms ++ [.mk [] (.token ('.' :: id1)) gr]) .empty gt) []
    temporaryTag p_env false ⟨.mk ops .empty go, env, []⟩ (.mk ops .empty go) rfl
    (by simp [IsBranch, TermNode.container])
    (by
      intro back hb _
      simp only [TermNode.container, getLast?_append_singleton, Option.some.injEq] at hb
      subst hb
      rfl)
    rfl rfl
  have hd := MatchSubterms_symbols_drain X tr p_env go gr id1 sigil id2 hx hid2 syms [] ops
    env F (F + 1) hsyms hops hlen (by omega) (by omega)
  simp only [List.nil_append, List.length_nil, Nat.zero_add] at hd
  unfold matchAndDrain
  rw [hm]
  simp only [hasRestMarker_concat, hres, TermNode.container, List.length_append,
    List.length_singleton, symbolLeaves, List.length_map, Nat.add_sub_cancel]
  simp only [hlen, ge_iff_le, and_self, or_true, if_true, List.dropLast_concat,
    getLast?_append_singleton]
  exact hd

theorem drop_moved_append (ops : List TermNode) (k : Nat) (hk : k ≤ ops.length) :
    ((ops.take k).map movedFrom ++ ops.drop k).drop k = ops.drop k := by
  have hl : ((ops.take k).map movedFrom).length = k := by
    simp [List.length_take, hk]
  rw [List.drop_append_of_le_length (by omega)]
  rw [List.drop_of_length_le (by omega)]
  rfl

theorem sample_LiftToReturn (v : TermNode) (hv : v.Value.isReference = false) :
    External.sample.LiftToReturn v = v := by
  obtain ⟨c, val, g⟩ := v
  cases val <;> simp_all [External.sample, TermNode.Value, ValueObject.isReference]

/-! ## The frame of a match inside one subterm of the operand -/

theorem sameOutside_refl (j : Nat) (r : TermNode) : sameOutside j r r :=
  ⟨rfl, rfl, rfl, fun _ _ => rfl⟩

theorem setAt_sameOutside (j : Nat) (loc : Loc) (v root : TermNode)
    (h : headChild loc = some j) : sameOutside j root (setAt loc v root) := by
  cases loc with
  | nil => simp [headChild] at h
  | cons st p =>
    cases st with
    | referent => simp [headChild] at h
    | child k =>
      simp only [headChild, Option.some.injEq] at h
      subst h
      simp only [setAt]
      cases hk : root.container[k]? with
      | none => exact sameOutside_refl k root
      | some c =>
        refine ⟨rfl, rfl, by simp [TermNode.container], ?_⟩
        intro i hi
        simp only [TermNode.container]
        rw [List.getElem?_set_ne (fun e => hi e.symm)]

theorem headChild_append (loc l2 : Loc) (j : Nat) (h : headChild loc = some j) :
    headChild (loc ++ l2) = some j := by
  cases loc with
  | nil => simp [headChild] at h
  | cons st p =>
    cases st with
    | referent => simp [headChild] at h
    | child k => simpa [headChild] using h

theorem headChild_resolvedLoc (o : Loc) (term : TermNode) (j : Nat)
    (h : headChild o = some j) : headChild (resolvedLoc o term) = some j := by
  unfold resolvedLoc
  split
  · exact headChild_append o _ j h
  · exact h

theorem BindValue_framed (X : External) (j : Nat) (n : TokenValue) (b : Loc)
    (tags : TermTags) (r_env : EnvironmentReference) (hb : headChild b = some j) :
    Framed j (BindValue X n b tags r_env) := by
  intro s s1 hs
  unfold BindValue at hs
  split at hs
  · cases hs
  · split at hs
    · cases hs
    · split at hs
      · split at hs
        · cases hs
        · rename_i o ho
          cases hbpo : BindParameterObject r_env _ _ tags o with
          | ok r =>
            rw [hbpo] at hs
            simp only [Outcome.bind, Outcome.ok.injEq] at hs
            subst hs
            exact ⟨[], rfl, by simp, setAt_sameOutside j b _ _ hb⟩
          | thrown e => rw [hbpo] at hs; cases hs
          | aborted => rw [hbpo] at hs; cases hs
          | timeout => rw [hbpo] at hs; cases hs
      · cases hs
        exact ⟨[], rfl, by simp, sameOutside_refl j _⟩

theorem BindTrailing_framed (X : External) (j : Nat) (o_tm : Loc) (first : Nat)
    (id : TokenValue) (tags : TermTags) (r_env : EnvironmentReference)
    (hb : headChild o_tm = some j) :
    Framed j (BindTrailing X o_tm first id tags r_env) := by
  intro s s1 hs
  unfold BindTrailing at hs
  split at hs
  · split at hs
    · split at hs
      · cases hs
      · split at hs
        · split at hs
          · cases hs
          · split at hs
            · simp only [Outcome.ok.injEq] at hs
              subst hs
              exact ⟨[], rfl, by simp, setAt_sameOutside j o_tm _ _ hb⟩
            · rename_i tm htm hcond
              cases hbe : bindEach r_env _ tags (tm.container.drop first) with
              | ok r =>
                rw [hbe] at hs
                simp only [Outcome.bind] at hs
                split at hs
                · simp only [Outcome.ok.injEq] at hs
                  subst hs
                  exact ⟨[], rfl, by simp, setAt_sameOutside j o_tm _ _ hb⟩
                · simp only [Outcome.ok.injEq] at hs
                  subst hs
                  exact ⟨[], rfl, by simp, setAt_sameOutside j o_tm _ _ hb⟩
              | thrown e => rw [hbe] at hs; cases hs
              | aborted => rw [hbe] at hs; cases hs
              | timeout => rw [hbe] at hs; cases hs
        · cases hs
          exact ⟨[], rfl, by simp, sameOutside_refl j _⟩
    · cases hs
      exact ⟨[], rfl, by simp, sameOutside_refl j _⟩
  · cases hs

theorem MatchSubterms_nil (X : External) (M : MatchFn) (last : Option TermNode)
    (o_tm : Loc) (j : Nat) (tags : TermTags) (r_env : EnvironmentReference)
    (ellipsis : Bool) (s : MatcherState) :
    MatchSubterms X M [] last o_tm j tags r_env ellipsis s =
      if ellipsis then
        match last with
        | some l =>
          match l.Value with
          | .token id => BindTrailing X o_tm j id tags r_env s
          | _ => .aborted
        | none => .aborted
      else .ok s := rfl

theorem MatchSubterms_framed (X : External) (j : Nat) (M : MatchFn)
    (hM : ∀ t loc tags r_env h, headChild loc = some j → Framed j (M t loc tags r_env h))
    (i : List TermNode) (last : Option TermNode) (o_tm : Loc) (jj : Nat) (tags : TermTags)
    (r_env : EnvironmentReference) (ellipsis : Bool) (hb : headChild o_tm = some j) :
    Framed j (MatchSubterms X M i last o_tm jj tags r_env ellipsis) := by
  intro s s1 hs
  cases i with
  | cons ti rest =>
    rw [MatchSubterms_cons] at hs
    split at hs
    · cases hs
    · obtain ⟨new, hact, hnew, hroot⟩ :=
        hM ti (o_tm ++ [.child jj]) tags r_env false (headChild_append o_tm _ j hb) _ s1 hs
      refine ⟨new ++ [.subterms rest last o_tm (jj + 1) tags r_env ellipsis], ?_, ?_, hroot⟩
      · simp [hact, update_thunk]
      · intro th hth
        simp only [List.mem_append, List.mem_singleton] at hth
        rcases hth with h | h
        · exact hnew th h
        · subst h
          exact hb
  | nil =>
    rw [MatchSubterms_nil] at hs
    split at hs
    · split at hs
      · split at hs
        · exact BindTrailing_framed X j o_tm jj _ tags r_env hb s s1 hs
        · cases hs
      · cases hs
    · cases hs
      exact ⟨[], rfl, by simp, sameOutside_refl j _⟩

theorem HandleLeaf_BindValue_framed (X : External) (tr : Traits) (j : Nat) (t : TermNode)
    (o : Loc) (tags : TermTags) (r_env : EnvironmentReference) (h : Bool)
    (hb : headChild o = some j) :
    Framed j (fun s => HandleLeaf X tr (fun n => BindValue X n o tags r_env s) t h s) := by
  intro s s1 hs
  simp only [HandleLeaf] at hs
  cases tr with
  | ParameterCheck =>
    simp only at hs
    split at hs
    · split at hs
      · split at hs
        · exact BindValue_framed X j _ o tags r_env hb s s1 hs
        · cases hs
      · cases hs
        exact ⟨[], rfl, by simp, sameOutside_refl j _⟩
    · cases hs
  | NoParameterCheck =>
    simp only at hs
    split at hs
    · cases hs
    · split at hs
      · split at hs
        · exact BindValue_framed X j _ o tags r_env hb s s1 hs
        · cases hs
      · cases hs
        exact ⟨[], rfl, by simp, sameOutside_refl j _⟩

theorem Match_framed (X : External) (tr : Traits) (j : Nat) :
    ∀ (fuel : Nat) (t : TermNode) (loc : Loc) (tags : TermTags)
      (r_env : EnvironmentReference) (h : Bool),
      headChild loc = some j → Framed j (Match X tr fuel t loc tags r_env h) := by
  intro fuel
  induction fuel with
  | zero =>
    intro t loc tags r_env h _ s s1 hs
    simp [Match] at hs
  | succ fuel ih =>
    intro t loc tags r_env h hb s s1 hs
    unfold Match at hs
    split at hs
    · split at hs
      · cases hte : trailingEllipsis tr t h with
        | ok ell =>
          rw [hte] at hs
          simp only [Outcome.bind] at hs
          split at hs
          · cases hs
          · rename_i term hterm
            split at hs
            · split at hs
              · exact MatchSubterms_framed X j (Match X tr fuel) ih _ _
                  (resolvedLoc loc term) 0 _ _ ell
                  (headChild_resolvedLoc loc term j hb) s s1 hs
              · split at hs <;> cases hs
            · cases hs
        | thrown e => rw [hte] at hs; cases hs
        | aborted => rw [hte] at hs; cases hs
        | timeout => rw [hte] at hs; cases hs
      · split at hs
        · cases hs
        · split at hs
          · cases hs
          · cases hs
            exact ⟨[], rfl, by simp, sameOutside_refl j _⟩
    · split at hs
      · rename_i r hr
        cases hs
        exact ⟨[.matchReferent r.2.1 loc tags r_env], by simp [update_thunk],
          by
            intro th hth
            simp only [List.mem_singleton] at hth
            subst hth
            exact hb,
          sameOutside_refl j _⟩
      · exact HandleLeaf_BindValue_framed X tr j t loc tags r_env h hb s s1 hs

theorem Thunk_run_framed (X : External) (tr : Traits) (j : Nat) (fuel : Nat) (th : Thunk)
    (hb : headChild th.loc = some j) : Framed j (th.run X tr fuel) := by
  cases th with
  | matchReferent nd o o_tags r_env =>
    exact Match_framed X tr j fuel nd o o_tags r_env true hb
  | subterms i last o_tm jj tags r_env ellipsis =>
    exact MatchSubterms_framed X j (Match X tr fuel) (Match_framed X tr j fuel) i last o_tm
      jj tags r_env ellipsis hb

theorem sameOutside_drop (j m : Nat) (r r1 : TermNode) (h : sameOutside j r r1)
    (hj : j < m) : r1.container.drop m = r.container.drop m := by
  apply List.ext_getElem?
  intro i
  rw [List.getElem?_drop, List.getElem?_drop]
  exact h.2.2.2 (m + i) (by omega)

theorem restSource_drop (X : External) (sigil : Char) (c : List TermNode) (k : Nat) :
    (restSource X sigil c).drop k = restSource X sigil (c.drop k) := by
  unfold restSource
  split
  · rw [List.map_drop]
  · rfl

theorem drain_nil (X : External) (tr : Traits) (fuel : Nat) (s : MatcherState)
    (h : s.act = []) : drain X tr fuel s = .ok s := by
  obtain ⟨root, env, act⟩ := s
  simp only at h
  subst h
  cases fuel <;> rfl

theorem Outcome.bind_eq_ok {α β : Type} (r : Outcome α) (f : α → Outcome β) (b : β)
    (h : r.bind f = .ok b) : ∃ a, r = .ok a ∧ f a = .ok b := by
  cases r with
  | ok a => exact ⟨a, rfl, h⟩
  | thrown e => cases h
  | aborted => cases h
  | timeout => cases h

theorem WrapCall_eq_ok {α : Type} (X : External) (tr : Traits) (r : Outcome α) (a : α)
    (h : WrapCall X tr r = .ok a) : r = .ok a := by
  cases tr with
  | NoParameterCheck => exact h
  | ParameterCheck =>
    cases r with
    | ok b => exact h
    | thrown e =>
      simp only [WrapCall] at h
      split at h <;> cases h
    | aborted => cases h
    | timeout => cases h

theorem MatchSubterms_rest_step (X : External) (tr : Traits) (p_env : EnvironmentReference)
    (pre : List TermNode) (gr : TermTags) (id1 : TokenValue) (sigil : Char)
    (id2 : TokenValue) (hx : ExtractSigil id1 = some (sigil, id2)) (hid2 : id2 ≠ [])
    (ops : List TermNode) (f1 m : Nat) (root : TermNode) (env : Environment)
    (s1 : MatcherState) (hm : m ≤ pre.length)
    (hroot : root.container.drop m = ops.drop m)
    (hs : MatchSubterms X (Match X tr f1) (pre.drop m)
      (some (.mk [] (.token ('.' :: id1)) gr)) [] m temporaryTag p_env true
      ⟨root, env, []⟩ = .ok s1) :
    (m = pre.length ∧ s1.act = [] ∧
      s1.env.lookup id2 = some (.mk (restSource X sigil (ops.drop pre.length)) .empty
        (restTags sigil))) ∨
    (m < pre.length ∧ ∃ new, s1.act = new ++
        [.subterms (pre.drop (m + 1)) (some (.mk [] (.token ('.' :: id1)) gr)) [] (m + 1)
          temporaryTag p_env true] ∧
      (∀ th ∈ new, headChild th.loc = some m) ∧
      s1.root.container.drop (m + 1) = ops.drop (m + 1)) := by
  cases hd : pre.drop m with
  | nil =>
    have hmk : m = pre.length := by
      have := List.drop_eq_nil_iff.mp hd
      omega
    left
    obtain ⟨c, val, go⟩ := root
    rw [hd, MatchSubterms_nil] at hs
    simp only [if_true, TermNode.Value,
      BindTrailing_temporary X p_env c val go env [] m id1 sigil id2 hx hid2,
      Outcome.ok.injEq] at hs
    subst hs
    refine ⟨hmk, rfl, ?_⟩
    simp only [TermNode.container] at hroot
    show Environment.lookup (Environment.Bind _ _ _) id2 = _
    rw [lookup_Bind_self, restSource_drop, hroot, hmk]
  | cons f fs =>
    have hmk : m < pre.length := by
      by_contra hcon
      have : pre.drop m = [] := List.drop_eq_nil_iff.mpr (by omega)
      rw [this] at hd
      cases hd
    have hfs : fs = pre.drop (m + 1) := by
      have h1 : pre.drop (m + 1) = (pre.drop m).drop 1 := by
        rw [List.drop_drop, Nat.add_comm]
      rw [h1, hd]
      rfl
    right
    rw [hd, MatchSubterms_cons] at hs
    split at hs
    · cases hs
    · obtain ⟨new, hact, hnew, hsame⟩ :=
        Match_framed X tr m f1 f ([] ++ [Step.child m]) temporaryTag p_env false
          (by rfl) _ s1 hs
      refine ⟨hmk, new, ?_, hnew, ?_⟩
      · rw [hact, hfs]
        rfl
      · have h2 := sameOutside_drop m (m + 1) _ _ hsame (by omega)
        simp only [update_thunk] at h2
        rw [h2]
        have h3 : ∀ l : List TermNode, l.drop (m + 1) = (l.drop m).drop 1 := by
          intro l
          rw [List.drop_drop, Nat.add_comm]
        rw [h3 root.container, h3 ops, hroot]

theorem drain_rest (X : External) (tr : Traits) (p_env : EnvironmentReference)
    (pre : List TermNode) (gr : TermTags) (id1 : TokenValue) (sigil : Char)
    (id2 : TokenValue) (hx : ExtractSigil id1 = some (sigil, id2)) (hid2 : id2 ≠ [])
    (ops : List TermNode) :
    ∀ (fuel m : Nat) (above : List Thunk) (root : TermNode) (env : Environment)
      (s1 : MatcherState),
      m ≤ pre.length →
      (∀ th ∈ above, ∃ j, j < m ∧ headChild th.loc = some j) →
      root.container.drop m = ops.drop m →
      drain X tr fuel ⟨root, env, above ++
          [.subterms (pre.drop m) (some (.mk [] (.token ('.' :: id1)) gr)) [] m
            temporaryTag p_env true]⟩ = .ok s1 →
      s1.env.lookup id2 = some (.mk (restSource X sigil (ops.drop pre.length)) .empty
        (restTags sigil)) := by
  intro fuel
  induction fuel with
  | zero =>
    intro m above root env s1 _ _ _ hs
    cases above <;> simp [drain] at hs
  | succ fuel ih =>
    intro m above root env s1 hm habove hroot hs
    cases above with
    | nil =>
      rw [List.nil_append, drain_cons] at hs
      obtain ⟨s2, hrun, hrest⟩ := Outcome.bind_eq_ok _ _ _ hs
      simp only [Thunk.run] at hrun
      rcases MatchSubterms_rest_step X tr p_env pre gr id1 sigil id2 hx hid2 ops (fuel + 1) m
        root env s2 hm hroot hrun with ⟨_, hact, hlook⟩ | ⟨hlt, new, hact, hnew, hdrop⟩
      · rw [drain_nil X tr fuel s2 hact] at hrest
        cases hrest
        exact hlook
      · obtain ⟨root2, env2, act2⟩ := s2
        simp only at hact hdrop
        subst hact
        exact ih (m + 1) new root2 env2 s1 hlt
          (fun th hth => ⟨m, Nat.lt_succ_self m, hnew th hth⟩) hdrop hrest
    | cons th rest =>
      rw [List.cons_append, drain_cons] at hs
      obtain ⟨s2, hrun, hrest⟩ := Outcome.bind_eq_ok _ _ _ hs
      obtain ⟨j, hj, hloc⟩ := habove th (List.mem_cons_self _ _)
      obtain ⟨new, hact, hnew, hsame⟩ :=
        Thunk_run_framed X tr j (fuel + 1) th hloc _ s2 hrun
      obtain ⟨root2, env2, act2⟩ := s2
      simp only at hact hsame
      subst hact
      rw [← List.append_assoc] at hrest
      refine ih m (new ++ rest) root2 env2 s1 hm ?_ ?_ hrest
      · intro t2 ht2
        simp only [List.mem_append] at ht2
        rcases ht2 with h | h
        · exact ⟨j, hj, hnew t2 h⟩
        · exact habove t2 (List.mem_cons_of_mem _ h)
      · rw [sameOutside_drop j m _ _ hsame hj]
        exact hroot

theorem BindParameterImpl_rest_lookup (X : External) (tr : Traits) (fuel : Nat)
    (p_env : EnvironmentReference) (env : Environment) (pre : List TermNode)
    (gr gt go : TermTags) (id1 : TokenValue) (sigil : Char) (id2 : TokenValue)
    (hx : ExtractSigil id1 = some (sigil, id2)) (hid2 : id2 ≠ [])
    (ops : List TermNode) (s1 : MatcherState)
    (hs : BindParameterImpl X tr fuel p_env env
      (.mk (pre ++ [.mk [] (.token ('.' :: id1)) gr]) .empty gt) (.mk ops .empty go)
      = .ok s1) :
    s1.env.lookup id2 = some (.mk (restSource X sigil (ops.drop pre.length)) .empty
      (restTags sigil)) := by
  unfold BindParameterImpl GParameterMatcher at hs
  have hmd := WrapCall_eq_ok X tr _ _ hs
  unfold matchAndDrain at hmd
  obtain ⟨s2, hmatch, hdrain⟩ := Outcome.bind_eq_ok _ _ _ hmd
  cases fuel with
  | zero => simp [Match] at hmatch
  | succ F =>
    have hm := Match_list_eq X tr F
      (.mk (pre ++ [.mk [] (.token ('.' :: id1)) gr]) .empty gt) []
      temporaryTag p_env false ⟨.mk ops .empty go, env, []⟩ (.mk ops .empty go) rfl
      (by simp [IsBranch, TermNode.container])
      (by
        intro back hb _
        simp only [TermNode.container, getLast?_append_singleton, Option.some.injEq] at hb
        subst hb
        rfl)
      rfl rfl
    rw [hm] at hmatch
    have hres : resolved (.mk ops .empty go) = .mk ops .empty go := rfl
    simp only [hasRestMarker_concat, hres, TermNode.container, List.length_append,
      List.length_singleton, Nat.add_sub_cancel, List.dropLast_concat,
      getLast?_append_singleton, if_true] at hmatch
    split at hmatch
    · have hstep := MatchSubterms_rest_step X tr p_env pre gr id1 sigil id2 hx hid2 ops F 0
        (.mk ops .empty go) env s2 (Nat.zero_le _) rfl hmatch
      rcases hstep with ⟨_, hact, hlook⟩ | ⟨hlt, new, hact, hnew, hdrop⟩
      · rw [drain_nil X tr (F + 1) s2 hact] at hdrain
        cases hdrain
        exact hlook
      · obtain ⟨root2, env2, act2⟩ := s2
        simp only at hact hdrop
        subst hact
        exact drain_rest X tr p_env pre gr id1 sigil id2 hx hid2 ops (F + 1) 1 new root2 env2
          s1 hlt (fun th hth => ⟨0, Nat.zero_lt_one, hnew th hth⟩) hdrop hdrain
    · simp at hmatch


/-! ## C1: the length test of Match -/

/-- C1, counterexample: the formal (a b .r) has two elements besides its rest
marker and the operand (1) has one, so the claimed test (n_o at least n_p - 1
with n_p = 2) accepts; Match raises InsufficientTerms. -/
theorem Match_length_excluding_rest_counterexample :
    hasRestMarker (listTerm [tokenLeaf ['a'], tokenLeaf ['b'], tokenLeaf ['.', 'r']])
      = true ∧
    (listTerm [objectLeaf 1]).container.length ≥
      ((listTerm [tokenLeaf ['a'], tokenLeaf ['b'], tokenLeaf ['.', 'r']]).container.length
        - 1) - 1 ∧
    Match External.sample .ParameterCheck 1
      (listTerm [tokenLeaf ['a'], tokenLeaf ['b'], tokenLeaf ['.', 'r']]) [] temporaryTag 0
      false ⟨listTerm [objectLeaf 1], [], []⟩ = .thrown .InsufficientTerms := by
  refine ⟨rfl, by decide, rfl⟩

/-- C1, amended: for a non-empty list formal t (whose last element, if a leaf,
is a token) and an operand that resolves to a list, with n_p the number of ALL
elements of t, the rest marker included, and n_o the number of operand
elements, Match goes on to MatchSubterms iff t has no rest marker and
n_o = n_p, or t has a rest marker and n_o ≥ n_p - 1; otherwise it raises
ArityMismatch(n_p, n_o) without a rest marker and InsufficientTerms with one. -/
theorem Match_length_check (X : External) (tr : Traits) (fuel : Nat) (t : TermNode)
    (o : Loc) (o_tags : TermTags) (r_env : EnvironmentReference) (h : Bool)
    (s : MatcherState) (term : TermNode)
    (ht : IsList t = true) (hb : IsBranch t = true)
    (hback : ∀ back, t.container.getLast? = some back → IsLeaf back = true →
      (TermToNamePtr back).isSome = true)
    (ho : getAt o s.root = some term) (hnd : IsList (resolved term) = true) :
    Match X tr (fuel + 1) t o o_tags r_env h s =
      if (hasRestMarker t = false ∧
            (resolved term).container.length = t.container.length) ∨
          (hasRestMarker t = true ∧
            (resolved term).container.length ≥ t.container.length - 1) then
        MatchSubterms X (Match X tr fuel)
          (if hasRestMarker t then t.container.dropLast else t.container)
          (if hasRestMarker t then t.container.getLast? else none)
          (resolvedLoc o term) 0 (subtermTags o_tags term)
          (subtermEnvironment r_env term) (hasRestMarker t) s
      else if hasRestMarker t = false then
        .thrown (.ArityMismatch t.container.length (resolved term).container.length)
      else .thrown .InsufficientTerms :=
  Match_list_eq X tr fuel t o o_tags r_env h s term ht hb hback ho hnd

/-- C1, witness: the formal (a .r) against the operand (). -/
theorem Match_length_check_witness :
    IsList (listTerm [tokenLeaf ['a'], tokenLeaf ['.', 'r']]) = true ∧
    IsBranch (listTerm [tokenLeaf ['a'], tokenLeaf ['.', 'r']]) = true ∧
    getAt [] (listTerm []) = some (listTerm []) ∧
    IsList (resolved (listTerm [])) = true ∧
    Match External.sample .ParameterCheck (0 + 1)
      (listTerm [tokenLeaf ['a'], tokenLeaf ['.', 'r']]) [] temporaryTag 0 false
      ⟨listTerm [], [], []⟩ = .thrown .InsufficientTerms := by
  refine ⟨rfl, rfl, rfl, rfl, ?_⟩
  have hw := Match_length_check External.sample .ParameterCheck 0
    (listTerm [tokenLeaf ['a'], tokenLeaf ['.', 'r']]) [] temporaryTag 0 false
    ⟨listTerm [], [], []⟩ (listTerm []) rfl rfl
    (by
      intro back hb _
      simp only [listTerm, tokenLeaf, TermNode.container, List.getLast?] at hb
      cases hb
      rfl)
    rfl rfl
  rw [hw]
  rfl

/-! ## C2: symbols followed by a rest marker -/

/-- C2: for a formal list of k distinct symbols without sigil followed by a
rest marker .r (r without sigil, different from the symbols) and an operand
list of n ≥ k terms that hold no reference, BindParameter succeeds (with fuel
k + 2 or more) and leaves an environment that binds the i-th symbol to a term
with the container and value of the i-th operand, and r to the list of the
operands after the k-th, in their order (the empty list when n = k). The
symbols are accepted by the symbol check, and LiftToReturn leaves a term that
holds no reference as it is. -/
theorem BindParameter_symbols_rest (X : External) (fuel : Nat)
    (p_env : EnvironmentReference) (env : Environment)
    (syms : List (TokenValue × TermTags)) (r : TokenValue) (gr gt go : TermTags)
    (ops : List TermNode)
    (hsyms : ∀ p ∈ syms, plainSymbol X p.1)
    (hr : ExtractSigil r = some (noSigil, r))
    (hnodup : (syms.map (fun p => p.1)).Nodup) (hrn : r ∉ syms.map (fun p => p.1))
    (hops : ∀ v ∈ ops, v.Value.isReference = false)
    (hlen : syms.length ≤ ops.length)
    (hLift : ∀ v : TermNode, v.Value.isReference = false → X.LiftToReturn v = v)
    (hfuel : syms.length + 2 ≤ fuel) :
    ∃ s1, BindParameter X fuel p_env env
        (.mk (symbolLeaves syms ++ [.mk [] (.token ('.' :: r)) gr]) .empty gt)
        (.mk ops .empty go) = .ok s1 ∧
      (∀ (i : Nat) (s : TokenValue) (v : TermNode),
        (syms.map (fun p => p.1))[i]? = some s → ops[i]? = some v →
        s1.env.lookup s = some (.mk v.container v.Value Unqualified)) ∧
      s1.env.lookup r = some (.mk (ops.drop syms.length) .empty Unqualified) := by
  have hrne : r ≠ [] := by
    intro h
    subst h
    simp [ExtractSigil] at hr
  have hmd := matchAndDrain_symbols_rest X .ParameterCheck fuel p_env env syms r noSigil r
    gr gt go ops hr hrne hsyms (fun v hv => hops v (List.mem_of_mem_take hv)) hlen hfuel
  have hfix : (ops.drop syms.length).map X.LiftToReturn = ops.drop syms.length := by
    conv_rhs => rw [← List.map_id (ops.drop syms.length)]
    apply List.map_congr_left
    intro v hv
    exact hLift v (hops v (List.mem_of_mem_drop hv))
  have hsrc : (restSource X noSigil
      ((ops.take syms.length).map movedFrom ++ ops.drop syms.length)).drop syms.length
      = ops.drop syms.length := by
    have h0 : (noSigil == noSigil) = true := by decide
    simp only [restSource, h0, if_true]
    rw [← List.map_drop, drop_moved_append ops syms.length hlen, hfix]
  have htags : restTags noSigil = Unqualified := by decide
  rw [hsrc, htags] at hmd
  unfold BindParameter BindParameterImpl GParameterMatcher
  rw [hmd]
  refine ⟨_, rfl, ?_, ?_⟩
  · intro i s v hs hv
    have hsr : s ≠ r := by
      intro h
      subst h
      exact hrn (List.getElem?_mem hs)
    show Environment.lookup (Environment.Bind _ _ _) s = _
    rw [lookup_Bind_ne _ _ _ _ hsr]
    exact lookup_bindSymbols syms env ops i s v hnodup hs hv
  · show Environment.lookup (Environment.Bind _ _ _) r = _
    rw [lookup_Bind_self]

/-- C2, witness: the formal (a b .r) against the operand (1 2 3 4) binds a to
1, b to 2 and r to (3 4). -/
theorem BindParameter_symbols_rest_witness :
    ∃ s1, BindParameter External.sample 4 0 []
        (.mk (symbolLeaves [(['a'], Unqualified), (['b'], Unqualified)]
          ++ [.mk [] (.token ['.', 'r']) Unqualified]) .empty Unqualified)
        (.mk [objectLeaf 1, objectLeaf 2, objectLeaf 3, objectLeaf 4] .empty Unqualified)
        = .ok s1 ∧
      (∀ (i : Nat) (s : TokenValue) (v : TermNode),
        ([(['a'], Unqualified), (['b'], Unqualified)].map
          (fun p : TokenValue × TermTags => p.1))[i]? = some s →
        [objectLeaf 1, objectLeaf 2, objectLeaf 3, objectLeaf 4][i]? = some v →
        s1.env.lookup s = some (.mk v.container v.Value Unqualified)) ∧
      s1.env.lookup ['r'] = some (.mk [objectLeaf 3, objectLeaf 4] .empty Unqualified) :=
  BindParameter_symbols_rest External.sample 4 0 []
    [(['a'], Unqualified), (['b'], Unqualified)] ['r'] Unqualified Unqualified Unqualified
    [objectLeaf 1, objectLeaf 2, objectLeaf 3, objectLeaf 4]
    (by
      intro p hp
      simp only [List.mem_cons, List.mem_singleton, List.not_mem_nil, or_false] at hp
      rcases hp with rfl | rfl <;> exact ⟨rfl, rfl, rfl⟩)
    rfl (by decide) (by decide)
    (by
      intro v hv
      simp only [List.mem_cons, List.mem_singleton, List.not_mem_nil, or_false] at hv
      rcases hv with rfl | rfl | rfl | rfl <;> rfl)
    (by decide) sample_LiftToReturn (by decide)

/-! ## C3: the errors of the length test at the entry points -/

/-- C3, counterexample: the empty list formal () is rejected against the list
operand (1 2), whose length differs, and has no rest marker; the error raised
by both entry points is ParameterMismatch, not ArityMismatch(0, 2). -/
theorem BindParameter_empty_formal_counterexample :
    IsList (listTerm []) = true ∧ hasRestMarker (listTerm []) = false ∧
    IsList (listTerm [objectLeaf 1, objectLeaf 2]) = true ∧
    BindParameter External.sample 1 0 [] (listTerm [])
      (listTerm [objectLeaf 1, objectLeaf 2]) = .thrown .ParameterMismatch ∧
    BindParameterWellFormed External.sample 1 0 [] (listTerm [])
      (listTerm [objectLeaf 1, objectLeaf 2]) = .thrown .ParameterMismatch :=
  ⟨rfl, rfl, rfl, rfl, rfl⟩

/-- C3, amended: when a NON-EMPTY list formal t (whose last element, if a leaf,
is a token) is rejected for length against an operand that resolves to a list,
Match raises, wherever in the operand tree the pair is met, ArityMismatch(number
of formal elements, number of operand elements) if t has no rest marker and
InsufficientTerms if it has one, and for a pair at the top both entry points
raise that error; an empty list formal against an operand that resolves to a
non-empty list raises ParameterMismatch. For BindParameter the first part uses
that the two errors are caught by the handler of line 324, that is, are classes
derived from ParameterMismatch. -/
theorem BindParameter_length_error (X : External) (fuel : Nat)
    (p_env : EnvironmentReference) (env : Environment) (t o : TermNode)
    (ht : IsList t = true)
    (hback : ∀ back, t.container.getLast? = some back → IsLeaf back = true →
      (TermToNamePtr back).isSome = true)
    (hnd : IsList (resolved o) = true)
    (hA : ∀ a b, X.DerivedFromParameterMismatch (.ArityMismatch a b) = true)
    (hI : X.DerivedFromParameterMismatch .InsufficientTerms = true) :
    (∀ (tr : Traits) (loc : Loc) (o_tags : TermTags) (r_env : EnvironmentReference)
        (h : Bool) (s : MatcherState) (term : TermNode),
      IsBranch t = true → getAt loc s.root = some term → IsList (resolved term) = true →
      ¬ ((hasRestMarker t = false ∧
            (resolved term).container.length = t.container.length) ∨
          (hasRestMarker t = true ∧
            (resolved term).container.length ≥ t.container.length - 1)) →
      Match X tr (fuel + 1) t loc o_tags r_env h s =
        .thrown (if hasRestMarker t = false then
            .ArityMismatch t.container.length (resolved term).container.length
          else .InsufficientTerms)) ∧
    (IsBranch t = true →
      ¬ ((hasRestMarker t = false ∧
            (resolved o).container.length = t.container.length) ∨
          (hasRestMarker t = true ∧
            (resolved o).container.length ≥ t.container.length - 1)) →
      BindParameter X (fuel + 1) p_env env t o =
        .thrown (if hasRestMarker t = false then
            .ArityMismatch t.container.length (resolved o).container.length
          else .InsufficientTerms) ∧
      BindParameterWellFormed X (fuel + 1) p_env env t o =
        .thrown (if hasRestMarker t = false then
            .ArityMismatch t.container.length (resolved o).container.length
          else .InsufficientTerms)) ∧
    (IsBranch t = false → (resolved o).container ≠ [] →
      BindParameter X (fuel + 1) p_env env t o = .thrown .ParameterMismatch ∧
      BindParameterWellFormed X (fuel + 1) p_env env t o = .thrown .ParameterMismatch) := by
  have hgen : ∀ (tr : Traits) (loc : Loc) (o_tags : TermTags) (r_env : EnvironmentReference)
      (h : Bool) (s : MatcherState) (term : TermNode),
      IsBranch t = true → getAt loc s.root = some term → IsList (resolved term) = true →
      ¬ ((hasRestMarker t = false ∧
            (resolved term).container.length = t.container.length) ∨
          (hasRestMarker t = true ∧
            (resolved term).container.length ≥ t.container.length - 1)) →
      Match X tr (fuel + 1) t loc o_tags r_env h s =
        .thrown (if hasRestMarker t = false then
            .ArityMismatch t.container.length (resolved term).container.length
          else .InsufficientTerms) := by
    intro tr loc o_tags r_env h s term hb hloc hl hrej
    rw [Match_list_eq X tr fuel t loc o_tags r_env h s term ht hb hback hloc hl]
    simp only [hrej, if_false]
    cases he : hasRestMarker t <;> simp
  refine ⟨hgen, ?_, ?_⟩
  · intro hb hrej
    have h1 := fun tr => hgen tr [] temporaryTag p_env false ⟨o, env, []⟩ o hb rfl hnd hrej
    constructor
    · unfold BindParameter BindParameterImpl GParameterMatcher matchAndDrain
      rw [h1]
      cases he : hasRestMarker t <;>
        simp [Outcome.bind, WrapCall, catchesParameterMismatch, hA, hI]
    · unfold BindParameterWellFormed BindParameterImpl GParameterMatcher matchAndDrain
      rw [h1]
      cases he : hasRestMarker t <;> simp [Outcome.bind, WrapCall]
  · intro hb hne
    have hemp : IsEmpty (resolved o) = false := by
      cases hc : (resolved o).container with
      | nil => exact absurd hc hne
      | cons a l => simp [IsEmpty, hc]
    have h1 : ∀ tr, Match X tr (fuel + 1) t [] temporaryTag p_env false ⟨o, env, []⟩
        = .thrown .ParameterMismatch := by
      intro tr
      simp [Match, ht, hb, getAt, hemp]
    constructor
    · unfold BindParameter BindParameterImpl GParameterMatcher matchAndDrain
      rw [h1]
      simp [Outcome.bind, WrapCall, catchesParameterMismatch]
    · unfold BindParameterWellFormed BindParameterImpl GParameterMatcher matchAndDrain
      rw [h1]
      simp [Outcome.bind, WrapCall]

/-- C3, witness: the formal (a b) against the operand (1 2 3 4) raises
ArityMismatch(2, 4). -/
theorem BindParameter_length_error_witness :
    BindParameter External.sample (0 + 1) 0 []
      (listTerm [tokenLeaf ['a'], tokenLeaf ['b']])
      (listTerm [objectLeaf 1, objectLeaf 2, objectLeaf 3, objectLeaf 4])
      = .thrown (.ArityMismatch 2 4) ∧
    BindParameterWellFormed External.sample (0 + 1) 0 []
      (listTerm [tokenLeaf ['a'], tokenLeaf ['b']])
      (listTerm [objectLeaf 1, objectLeaf 2, objectLeaf 3, objectLeaf 4])
      = .thrown (.ArityMismatch 2 4) :=
  (BindParameter_length_error External.sample 0 0 []
    (listTerm [tokenLeaf ['a'], tokenLeaf ['b']])
    (listTerm [objectLeaf 1, objectLeaf 2, objectLeaf 3, objectLeaf 4])
    rfl
    (by
      intro back hb _
      simp only [listTerm, tokenLeaf, TermNode.container, List.getLast?] at hb
      cases hb
      rfl)
    rfl (fun _ _ => rfl) rfl).2.1 rfl (by decide)

/-! ## C4: error wrapping -/

/-- C4: BindParameter surfaces an error e of the match (the first Match call
or the drain of the thunks) unchanged if the handler for ParameterMismatch
catches it and as InvalidSyntax nesting e otherwise, and changes no other
outcome, so that every error it raises is a ParameterMismatch or an
InvalidSyntax nesting the error of the match; BindParameterWellFormed surfaces
every outcome unchanged. -/
theorem BindParameter_error_wrapping (X : External) (fuel : Nat)
    (p_env : EnvironmentReference) (env : Environment) (t o : TermNode) :
    BindParameter X fuel p_env env t o =
      (match matchAndDrain X .ParameterCheck fuel t temporaryTag p_env ⟨o, env, []⟩ with
        | .thrown e =>
          if catchesParameterMismatch X e then .thrown e
          else .thrown (.InvalidSyntax e)
        | r => r) ∧
    (∀ e, BindParameter X fuel p_env env t o = .thrown e →
      (catchesParameterMismatch X e = true ∧
        matchAndDrain X .ParameterCheck fuel t temporaryTag p_env ⟨o, env, []⟩
          = .thrown e) ∨
      ∃ e0, e = .InvalidSyntax e0 ∧ catchesParameterMismatch X e0 = false ∧
        matchAndDrain X .ParameterCheck fuel t temporaryTag p_env ⟨o, env, []⟩
          = .thrown e0) ∧
    BindParameterWellFormed X fuel p_env env t o =
      matchAndDrain X .NoParameterCheck fuel t temporaryTag p_env ⟨o, env, []⟩ := by
  refine ⟨?_, ?_, rfl⟩
  · unfold BindParameter BindParameterImpl GParameterMatcher WrapCall
    generalize matchAndDrain X .ParameterCheck fuel t temporaryTag p_env ⟨o, env, []⟩ = r
    cases r <;> rfl
  · intro e
    unfold BindParameter BindParameterImpl GParameterMatcher WrapCall
    generalize matchAndDrain X .ParameterCheck fuel t temporaryTag p_env ⟨o, env, []⟩ = r
    cases r with
    | thrown e1 =>
      cases hc : catchesParameterMismatch X e1 with
      | true =>
        intro h
        simp only [hc, if_true, Outcome.thrown.injEq] at h
        subst h
        exact Or.inl ⟨hc, rfl⟩
      | false =>
        intro h
        simp only [hc, Bool.false_eq_true, if_false, Outcome.thrown.injEq] at h
        subst h
        exact Or.inr ⟨e1, rfl, hc, rfl⟩
    | ok a => intro h; cases h
    | aborted => intro h; cases h
    | timeout => intro h; cases h

/-! ## C5: errors of the leaf bind callback -/

/-- C5, counterexample: binding the formal (@a) to the operand list (1) with
BindParameter: the leaf bind callback raises InvalidReference, and
BindParameter does not surface InvalidReference itself but an InvalidSyntax
nesting it. -/
theorem BindParameter_wraps_InvalidReference_counterexample :
    BindValue External.sample ['@', 'a'] [.child 0] temporaryTag 0
      ⟨listTerm [objectLeaf 1], [], []⟩ = .thrown .InvalidReference ∧
    BindParameter External.sample 2 0 [] (listTerm [tokenLeaf ['@', 'a']])
      (listTerm [objectLeaf 1]) = .thrown (.InvalidSyntax .InvalidReference) ∧
    BindParameter External.sample 2 0 [] (listTerm [tokenLeaf ['@', 'a']])
      (listTerm [objectLeaf 1]) ≠ .thrown .InvalidReference := by
  refine ⟨rfl, rfl, ?_⟩
  intro h
  have h2 : BindParameter External.sample 2 0 [] (listTerm [tokenLeaf ['@', 'a']])
      (listTerm [objectLeaf 1]) = .thrown (.InvalidSyntax .InvalidReference) := rfl
  rw [h2] at h
  cases h

/-- C5, amended: the only error that the leaf bind callback raises is
InvalidReference (from BindParameterObject, on the sigil @ with a temporary
operand). For every formal tree and operand, when it escapes the match
BindParameter surfaces it like every other error of the match: nested in an
InvalidSyntax, unless the handler for ParameterMismatch catches it. In
particular, for a formal list (@id) with a symbol @id, id not empty, and an
operand list of one element, the callback raises InvalidReference, BindParameter
raises InvalidSyntax nesting it (or it unchanged if that handler catches it),
and BindParameterWellFormed raises InvalidReference unchanged. -/
theorem BindParameter_sigil_at_temporary (X : External) :
    (∀ (n : TokenValue) (b : Loc) (tags : TermTags) (r_env : EnvironmentReference)
        (s : MatcherState) (e : Error),
      BindValue X n b tags r_env s = .thrown e → e = .InvalidReference) ∧
    (∀ (fuel : Nat) (p_env : EnvironmentReference) (env : Environment) (t o : TermNode),
      matchAndDrain X .ParameterCheck fuel t temporaryTag p_env ⟨o, env, []⟩
        = .thrown .InvalidReference →
      BindParameter X fuel p_env env t o =
        (if catchesParameterMismatch X .InvalidReference then .thrown .InvalidReference
         else .thrown (.InvalidSyntax .InvalidReference))) ∧
    (∀ (fuel : Nat) (p_env : EnvironmentReference) (env : Environment) (id : TokenValue)
        (g gt go : TermTags) (v : TermNode),
      id ≠ [] → X.IsUnilangSymbol ('@' :: id) = true →
      BindValue X ('@' :: id) [.child 0] temporaryTag p_env
        ⟨.mk [v] .empty go, env,
          [.subterms [] none [] 1 temporaryTag p_env false]⟩
        = .thrown .InvalidReference ∧
      BindParameter X (fuel + 2) p_env env
        (.mk [.mk [] (.token ('@' :: id)) g] .empty gt) (.mk [v] .empty go) =
        (if catchesParameterMismatch X .InvalidReference then .thrown .InvalidReference
         else .thrown (.InvalidSyntax .InvalidReference)) ∧
      BindParameterWellFormed X (fuel + 2) p_env env
        (.mk [.mk [] (.token ('@' :: id)) g] .empty gt) (.mk [v] .empty go)
        = .thrown .InvalidReference) := by
  refine ⟨?_, ?_, ?_⟩
  · intro n b tags r_env s e hs
    unfold BindValue at hs
    split at hs
    · cases hs
    · split at hs
      · cases hs
      · split at hs
        · split at hs
          · cases hs
          · rename_i o ho
            cases hbpo : BindParameterObject r_env _ _ tags o with
            | ok r => rw [hbpo] at hs; cases hs
            | thrown e1 =>
              rw [hbpo] at hs
              simp only [Outcome.bind, Outcome.thrown.injEq] at hs
              subst hs
              exact BindParameterObject_thrown _ _ _ _ _ _ hbpo
            | aborted => rw [hbpo] at hs; cases hs
            | timeout => rw [hbpo] at hs; cases hs
        · cases hs
  · intro fuel p_env env t o hmd
    unfold BindParameter BindParameterImpl GParameterMatcher
    rw [hmd]
    rfl
  · intro fuel p_env env id g gt go v hid hsym
    have hign : IsIgnore ('@' :: id) = false := IsIgnore_cons_ne _ _ (by decide)
    have hidE : id.isEmpty = false := by
      cases id with
      | nil => exact absurd rfl hid
      | cons _ _ => rfl
    have hbv : ∀ s : MatcherState, s.root = .mk [v] .empty go →
        BindValue X ('@' :: id) [.child 0] temporaryTag p_env s
          = .thrown .InvalidReference := by
      intro s hs
      simp [BindValue, hign, hsym, ExtractSigil, hidE, getAt, hs, TermNode.container,
        BindParameterObject, temporaryTag, TermTags.toBool, HAnd.hAnd, AndOp.and,
        Outcome.bind]
    have hm : ∀ tr, Match X tr (fuel + 2) (.mk [.mk [] (.token ('@' :: id)) g] .empty gt) []
        temporaryTag p_env false ⟨.mk [v] .empty go, env, []⟩
          = .thrown .InvalidReference := by
      intro tr
      have hb := hbv ⟨.mk [v] .empty go, env,
        [.subterms [] none [] 1 temporaryTag p_env false]⟩ rfl
      cases tr <;>
      simp [Match, IsList, IsBranch, TermNode.Value, TermNode.container, ValueObject.isEmpty,
        trailingEllipsis, IsLeaf, TryAccessLeafToken, Outcome.bind, getAt, resolved,
        resolvedLoc, subtermTags, subtermEnvironment,
        TryAccessLeafReference, MatchSubterms, update_thunk, HandleLeaf, TermToNamePtr,
        hign, hsym, hb]
    refine ⟨hbv _ rfl, ?_, ?_⟩
    · simp [BindParameter, BindParameterImpl, GParameterMatcher, matchAndDrain, hm,
        Outcome.bind, WrapCall]
    · simp [BindParameterWellFormed, BindParameterImpl, GParameterMatcher, matchAndDrain, hm,
        Outcome.bind, WrapCall]

/-- C5, witness: the formal (@a) against the operand (1). -/
theorem BindParameter_sigil_at_temporary_witness :
    (['a'] : TokenValue) ≠ [] ∧
    External.sample.IsUnilangSymbol ['@', 'a'] = true ∧
    BindParameter External.sample (0 + 2) 0 []
      (.mk [.mk [] (.token ['@', 'a']) Unqualified] .empty Unqualified)
      (.mk [objectLeaf 1] .empty Unqualified)
      = .thrown (.InvalidSyntax .InvalidReference) ∧
    BindParameterWellFormed External.sample (0 + 2) 0 []
      (.mk [.mk [] (.token ['@', 'a']) Unqualified] .empty Unqualified)
      (.mk [objectLeaf 1] .empty Unqualified)
      = .thrown .InvalidReference := by
  have hw := (BindParameter_sigil_at_temporary External.sample).2.2 0 0 [] ['a']
    Unqualified Unqualified Unqualified (objectLeaf 1) (by decide) rfl
  exact ⟨by decide, rfl, hw.2.1, hw.2.2⟩

/-! ## C6: the binder on the sigil @ -/

/-- C6: with the sigil @, BindParameterObject raises InvalidReference iff
Temporary is in the operand tags; otherwise it calls the move callback with an
empty container and a reference whose tags are the operand tags intersected
with Nonmodifying, whose referent is the operand and whose home is the given
environment, and it leaves the operand as it is. -/
theorem BindParameterObject_sigil_at (Referenced : EnvironmentReference)
    (ref_temp : Bool) (o_tags : TermTags) (o : TermNode) :
    (BindParameterObject Referenced '@' ref_temp o_tags o = .thrown .InvalidReference
      ↔ o_tags.Temporary = true) ∧
    BindParameterObject Referenced '@' ref_temp o_tags o =
      (if o_tags.Temporary = true then .thrown .InvalidReference
       else .ok (.mv [] (.reference ⟨false, o_tags.Nonmodifying, false⟩ o Referenced)
          false, o)) := by
  obtain ⟨u, n, tmp⟩ := o_tags
  cases tmp <;>
    simp [BindParameterObject, TermTags.toBool, temporaryTag, nonmodifyingTag,
      HAnd.hAnd, AndOp.and]

/-! ## C7: the binder on operands that hold no reference -/

/-- C7: for the sigils none, & and % and an operand whose value is not a
reference, BindParameterObject does exactly one of: (1) if (Nonmodifying is
not in the operand tags or the sigil is %) and Temporary is in them, it moves
container and value of the operand and marks the bound term Temporary iff a
sigil is present; (2) else, for the sigil &, it binds a fresh reference with
the tags GetLValueTagsOf(operand.Tags | operand tags), the operand as referent
and the given home; (3) else it copies the operand. -/
theorem BindParameterObject_nonreference (Referenced : EnvironmentReference)
    (sigil : Char) (ref_temp : Bool) (o_tags : TermTags) (o : TermNode)
    (hs : sigil = noSigil ∨ sigil = '&' ∨ sigil = '%')
    (ho : o.Value.isReference = false) :
    BindParameterObject Referenced sigil ref_temp o_tags o =
      (if (o_tags.Nonmodifying = false ∨ sigil = '%') ∧ o_tags.Temporary = true then
        .ok (.mv o.container o.Value (decide (sigil ≠ noSigil)), .mk [] .empty o.Tags)
      else if sigil = '&' then
        .ok (.mv [] (.reference (GetLValueTagsOf (o.Tags ||| o_tags)) o Referenced)
          false, o)
      else .ok (.cp o, o)) ∧
    (BindCall.term (.mv o.container o.Value (decide (sigil ≠ noSigil)))).Tags.Temporary
      = decide (sigil ≠ noSigil) := by
  have hnone : TryAccessLeafReference o = none := by
    obtain ⟨c, v, g⟩ := o
    cases v <;> simp_all [TryAccessLeafReference, TermNode.Value, ValueObject.isReference]
  have hat : sigil ≠ '@' := by
    rcases hs with h | h | h <;> subst h <;> decide
  constructor
  · obtain ⟨u, n, tmp⟩ := o_tags
    rcases hs with h | h | h <;> subst h <;> cases n <;> cases tmp <;>
      simp [BindParameterObject, hnone, TermTags.toBool, temporaryTag, nonmodifyingTag,
        HAnd.hAnd, AndOp.and, MarkTemporaryTerm, noSigil]
  · by_cases h : sigil = noSigil <;>
      simp [BindCall.term, TermNode.Tags, h, Unqualified, temporaryTag, HOr.hOr, OrOp.or]

/-- C7, witness: the sigil & on a temporary operand holding the object 1. -/
theorem BindParameterObject_nonreference_witness :
    ('&' = noSigil ∨ '&' = '&' ∨ '&' = '%') ∧
    (objectLeaf 1).Value.isReference = false ∧
    BindParameterObject 0 '&' true temporaryTag (objectLeaf 1) =
      .ok (.mv [] (.object 1) true, .mk [] .empty Unqualified) := by
  refine ⟨Or.inr (Or.inl rfl), rfl, ?_⟩
  have hw := (BindParameterObject_nonreference 0 '&' true temporaryTag (objectLeaf 1)
    (Or.inr (Or.inl rfl)) rfl).1
  rw [hw]
  rfl

/-! ## C9: a rest marker with the sigil & on a direct operand -/

/-- C9, counterexample: BindParameter of (a .&r) against (1 2 3) binds r to
the list (2 3) itself, tagged Temporary: its value slot is empty and holds no
reference. -/
theorem BindParameter_rest_reference_counterexample :
    BindParameter External.sample 3 0 []
        (listTerm [tokenLeaf ['a'], tokenLeaf ['.', '&', 'r']])
        (listTerm [objectLeaf 1, objectLeaf 2, objectLeaf 3])
      = .ok ⟨listTerm [.mk [] .empty Unqualified],
          [(['r'], .mk [objectLeaf 2, objectLeaf 3] .empty temporaryTag),
           (['a'], objectLeaf 1)], []⟩ ∧
    Environment.lookup
        [(['r'], .mk [objectLeaf 2, objectLeaf 3] .empty temporaryTag),
         (['a'], objectLeaf 1)] ['r']
      = some (.mk [objectLeaf 2, objectLeaf 3] .empty temporaryTag) ∧
    (TermNode.mk [objectLeaf 2, objectLeaf 3] .empty temporaryTag).Value.isReference
      = false :=
  ⟨rfl, rfl, rfl⟩

/-- C9, amended: for every formal list ending in a rest marker .&r (whatever
the formals before it) and every operand list supplied directly to
BindParameter, whenever the binding succeeds the rest name r is bound to the
list of the remaining operands itself: a term with an empty value slot, which
holds no reference, whose subterms are the operands after those matched by the
other formals, and which is tagged Temporary. The binding does succeed when the
other formals are k distinct symbols without sigil and the operand list has
n ≥ k elements of which the first k hold no reference (and the fuel is k + 2 or
more); the symbols are then bound as without the rest marker. -/
theorem BindParameter_rest_ampersand (X : External) (fuel : Nat)
    (p_env : EnvironmentReference) (env : Environment) (pre : List TermNode)
    (r : TokenValue) (gr gt go : TermTags) (ops : List TermNode) (hr : r ≠ []) :
    (∀ s1, BindParameter X fuel p_env env
        (.mk (pre ++ [.mk [] (.token ('.' :: '&' :: r)) gr]) .empty gt)
        (.mk ops .empty go) = .ok s1 →
      s1.env.lookup r = some (.mk (ops.drop pre.length) .empty temporaryTag) ∧
      (TermNode.mk (ops.drop pre.length) .empty temporaryTag).Value.isReference = false) ∧
    (∀ syms : List (TokenValue × TermTags), pre = symbolLeaves syms →
      (∀ p ∈ syms, plainSymbol X p.1) →
      (syms.map (fun p => p.1)).Nodup → r ∉ syms.map (fun p => p.1) →
      (∀ v ∈ ops.take syms.length, v.Value.isReference = false) →
      syms.length ≤ ops.length → syms.length + 2 ≤ fuel →
      ∃ s1, BindParameter X fuel p_env env
          (.mk (pre ++ [.mk [] (.token ('.' :: '&' :: r)) gr]) .empty gt)
          (.mk ops .empty go) = .ok s1 ∧
        ∀ (i : Nat) (s : TokenValue) (v : TermNode),
          (syms.map (fun p => p.1))[i]? = some s → ops[i]? = some v →
          s1.env.lookup s = some (.mk v.container v.Value Unqualified)) := by
  constructor
  · intro s1 hs
    have hl := BindParameterImpl_rest_lookup X .ParameterCheck fuel p_env env pre gr gt go
      ('&' :: r) '&' r rfl hr ops s1 hs
    have h0 : ('&' == noSigil) = false := by decide
    have htags : restTags '&' = temporaryTag := by decide
    simp only [restSource, h0, htags] at hl
    exact ⟨hl, rfl⟩
  · intro syms hpre hsyms hnodup hrn hops hlen hfuel
    subst hpre
    have hmd := matchAndDrain_symbols_rest X .ParameterCheck fuel p_env env syms ('&' :: r)
      '&' r gr gt go ops rfl hr hsyms hops hlen hfuel
    unfold BindParameter BindParameterImpl GParameterMatcher
    rw [hmd]
    refine ⟨_, rfl, ?_⟩
    intro i s v hs hv
    have hsr : s ≠ r := by
      intro h
      subst h
      exact hrn (List.getElem?_mem hs)
    show Environment.lookup (Environment.Bind _ _ _) s = _
    rw [lookup_Bind_ne _ _ _ _ hsr]
    exact lookup_bindSymbols syms env ops i s v hnodup hs hv

/-- C9, witness: the formal (a .&r) against the operand (1 2 3) binds a to 1
and r to the list (2 3), tagged Temporary. -/
theorem BindParameter_rest_ampersand_witness :
    (['r'] : TokenValue) ≠ [] ∧
    ∃ s1, BindParameter External.sample 3 0 []
        (.mk (symbolLeaves [(['a'], Unqualified)]
          ++ [.mk [] (.token ('.' :: '&' :: ['r'])) Unqualified]) .empty Unqualified)
        (.mk [objectLeaf 1, objectLeaf 2, objectLeaf 3] .empty Unqualified) = .ok s1 ∧
      s1.env.lookup ['a'] = some (objectLeaf 1) ∧
      s1.env.lookup ['r'] = some (.mk [objectLeaf 2, objectLeaf 3] .empty temporaryTag) := by
  have hw := BindParameter_rest_ampersand External.sample 3 0 []
    (symbolLeaves [(['a'], Unqualified)]) ['r'] Unqualified Unqualified Unqualified
    [objectLeaf 1, objectLeaf 2, objectLeaf 3] (by decide)
  obtain ⟨s1, hs1, hsym⟩ := hw.2 [(['a'], Unqualified)] rfl
    (by
      intro p hp
      simp only [List.mem_singleton] at hp
      subst hp
      exact ⟨rfl, rfl, rfl⟩)
    (by decide) (by decide)
    (by
      intro v hv
      simp only [List.length_singleton, List.take_succ_cons, List.take_zero,
        List.mem_singleton] at hv
      subst hv
      rfl)
    (by decide) (by decide)
  exact ⟨by decide, s1, hs1, hsym 0 ['a'] (objectLeaf 1) rfl rfl, (hw.1 s1 hs1).1⟩

/-! ## C10: which leaf formals bind -/

/-- C10, counterexample: the token &#ignore passes the symbol check and after
stripping the sigil the identifier #ignore remains, yet BindParameter inserts
a binding, of the name #ignore; and for the token @x the identifier x remains,
which is not empty and not #ignore, yet BindParameter inserts no binding and
raises an error. -/
theorem BindParameter_sigil_ignore_counterexample :
    External.sample.IsUnilangSymbol ['&', '#', 'i', 'g', 'n', 'o', 'r', 'e'] = true ∧
    ExtractSigil ['&', '#', 'i', 'g', 'n', 'o', 'r', 'e']
      = some ('&', ['#', 'i', 'g', 'n', 'o', 'r', 'e']) ∧
    BindParameter External.sample 1 0 []
      (tokenLeaf ['&', '#', 'i', 'g', 'n', 'o', 'r', 'e']) (objectLeaf 1)
      = .ok ⟨.mk [] .empty Unqualified,
          [(['#', 'i', 'g', 'n', 'o', 'r', 'e'], .mk [] (.object 1) temporaryTag)],
          []⟩ ∧
    External.sample.IsUnilangSymbol ['@', 'x'] = true ∧
    ExtractSigil ['@', 'x'] = some ('@', ['x']) ∧
    BindParameter External.sample 1 0 [] (tokenLeaf ['@', 'x']) (objectLeaf 1)
      = .thrown (.InvalidSyntax .InvalidReference) :=
  ⟨rfl, rfl, rfl, rfl, rfl, rfl⟩

/-- C10, amended: for a leaf formal token n accepted by the symbol check (n is
#ignore or a symbol), with sigil and id the result of stripping one optional
sigil from n, BindParameter (1) binds nothing and returns if n itself is
#ignore or id is empty; (2) raises InvalidReference (wrapped like every error)
if id is not empty and the sigil is @, the operand of the entry point being
temporary; (3) otherwise inserts the binding of id to the term that
BindParameterObject produces. The test for #ignore is made on the whole token:
the formals #ignore and & bind nothing, &#ignore binds the name #ignore. -/
theorem BindParameter_leaf_binding (X : External) (fuel : Nat)
    (p_env : EnvironmentReference) (env : Environment) (n : TokenValue) (g : TermTags)
    (o : TermNode) (sigil : Char) (id : TokenValue)
    (hx : ExtractSigil n = some (sigil, id))
    (hacc : IsIgnore n = true ∨ X.IsUnilangSymbol n = true) :
    (IsIgnore n = true ∨ id = [] →
      BindParameter X (fuel + 1) p_env env (.mk [] (.token n) g) o = .ok ⟨o, env, []⟩) ∧
    (IsIgnore n = false ∧ id ≠ [] ∧ sigil = '@' →
      BindParameter X (fuel + 1) p_env env (.mk [] (.token n) g) o =
        (if catchesParameterMismatch X .InvalidReference then .thrown .InvalidReference
         else .thrown (.InvalidSyntax .InvalidReference))) ∧
    (IsIgnore n = false ∧ id ≠ [] ∧ sigil ≠ '@' →
      ∃ call o1,
        BindParameterObject p_env sigil (sigil == '&') temporaryTag o = .ok (call, o1) ∧
        BindParameter X (fuel + 1) p_env env (.mk [] (.token n) g) o
          = .ok ⟨o1, env.Bind id call.term, []⟩) := by
  have hm : Match X .ParameterCheck (fuel + 1) (.mk [] (.token n) g) [] temporaryTag p_env
      false ⟨o, env, []⟩ =
      if IsIgnore n = true then .ok ⟨o, env, []⟩
      else BindValue X n [] temporaryTag p_env ⟨o, env, []⟩ := by
    cases hi : IsIgnore n with
    | true =>
      simp [Match, IsList, TermNode.Value, ValueObject.isEmpty, TryAccessLeafReference,
        IsLeaf, HandleLeaf, TermToNamePtr, hi]
    | false =>
      have hsym : X.IsUnilangSymbol n = true := by
        rcases hacc with h | h
        · rw [hi] at h; cases h
        · exact h
      simp [Match, IsList, TermNode.Value, ValueObject.isEmpty, TryAccessLeafReference,
        IsLeaf, HandleLeaf, TermToNamePtr, hi, hsym]
  have hbv : IsIgnore n = false →
      BindValue X n [] temporaryTag p_env ⟨o, env, []⟩ =
        if id.isEmpty then .ok ⟨o, env, []⟩
        else (BindParameterObject p_env sigil (sigil == '&') temporaryTag o).bind
          fun r => .ok ⟨r.2, env.Bind id r.1.term, []⟩ := by
    intro hi
    have hsym : X.IsUnilangSymbol n = true := by
      rcases hacc with h | h
      · rw [hi] at h; cases h
      · exact h
    cases hie : id.isEmpty <;>
      simp [BindValue, hi, hsym, hx, hie, getAt, setAt]
  refine ⟨?_, ?_, ?_⟩
  · intro h
    unfold BindParameter BindParameterImpl GParameterMatcher matchAndDrain
    rw [hm]
    cases hi : IsIgnore n with
    | true => simp [Outcome.bind, drain, WrapCall]
    | false =>
      have hid : id = [] := by
        rcases h with h | h
        · rw [hi] at h; cases h
        · exact h
      rw [hbv hi]
      simp [hid, Outcome.bind, drain, WrapCall]
  · rintro ⟨hi, hid, hs⟩
    have hie : id.isEmpty = false := by
      cases id with
      | nil => exact absurd rfl hid
      | cons _ _ => rfl
    unfold BindParameter BindParameterImpl GParameterMatcher matchAndDrain
    rw [hm, hbv hi]
    subst hs
    simp [hi, hie, BindParameterObject, temporaryTag, TermTags.toBool, HAnd.hAnd,
      AndOp.and, Outcome.bind, WrapCall]
  · rintro ⟨hi, hid, hs⟩
    have hie : id.isEmpty = false := by
      cases id with
      | nil => exact absurd rfl hid
      | cons _ _ => rfl
    obtain ⟨call, o1, hbpo⟩ :=
      BindParameterObject_ok_of_ne_at p_env sigil (sigil == '&') temporaryTag o hs
    refine ⟨call, o1, hbpo, ?_⟩
    unfold BindParameter BindParameterImpl GParameterMatcher matchAndDrain
    rw [hm, hbv hi, hbpo]
    simp [hi, hie, Outcome.bind, drain, WrapCall]

/-- C10, witness: the leaf formal &x against the operand 1. -/
theorem BindParameter_leaf_binding_witness :
    ExtractSigil ['&', 'x'] = some ('&', ['x']) ∧
    (IsIgnore ['&', 'x'] = true ∨ External.sample.IsUnilangSymbol ['&', 'x'] = true) ∧
    ∃ call o1,
      BindParameterObject 0 '&' ('&' == '&') temporaryTag (objectLeaf 1) = .ok (call, o1) ∧
      BindParameter External.sample (0 + 1) 0 [] (.mk [] (.token ['&', 'x']) Unqualified)
        (objectLeaf 1) = .ok ⟨o1, Environment.Bind [] ['x'] call.term, []⟩ :=
  ⟨rfl, Or.inr rfl,
    (BindParameter_leaf_binding External.sample 0 0 [] ['&', 'x'] Unqualified
      (objectLeaf 1) '&' ['x'] rfl (Or.inr rfl)).2.2 ⟨rfl, by decide, by decide⟩⟩

/-! ## Auxiliary facts of the reduction engine and of the referent of an operand -/

theorem getAt_setAt (p : Loc) (v : TermNode) :
    ∀ root : TermNode, (getAt p root).isSome = true → getAt p (setAt p v root) = some v := by
  induction p with
  | nil => intro root _; rfl
  | cons st p ih =>
    intro root h
    obtain ⟨cs, val, g⟩ := root
    cases st with
    | child k =>
      simp only [getAt, setAt, TermNode.container] at h ⊢
      cases hk : cs[k]? with
      | none => simp [hk] at h
      | some ck =>
        simp only [hk] at h ⊢
        have hlt : k < cs.length := by
          rcases List.getElem?_eq_some_iff.mp hk with ⟨hlt, _⟩
          exact hlt
        simp only [TermNode.container, List.getElem?_set_self hlt]
        exact ih ck h
    | referent =>
      cases val with
      | reference g1 r e =>
        simp only [getAt, setAt, TermNode.Value] at h ⊢
        exact ih r h
      | empty => simp [getAt, TermNode.Value] at h
      | token s => simp [getAt, TermNode.Value] at h
      | shared s => simp [getAt, TermNode.Value] at h
      | object s => simp [getAt, TermNode.Value] at h
      | handler s => simp [getAt, TermNode.Value] at h

theorem EnsureLValueReference_Unique (g : TermTags) :
    (EnsureLValueReference g).Unique = false := by
  obtain ⟨u, n, t⟩ := g
  cases u <;> rfl

theorem and_not_uniqueTag_Unique (g : TermTags) : (g &&& ~~~uniqueTag).Unique = false := by
  obtain ⟨u, n, t⟩ := g
  cases u <;> rfl

theorem ReduceLeaf_of_reference (X : Host) (p : Loc) (ctx : Context) (c : List TermNode)
    (tags g : TermTags) (r : TermNode) (e : EnvironmentReference)
    (h : getAt p ctx.root = some (.mk c (.reference tags r e) g)) :
    ReduceLeaf X p ctx = .ok .Retained ctx := by
  unfold ReduceLeaf
  simp [h, TermToNamePtr, TermNode.Value]

theorem getAt_append (p q : Loc) :
    ∀ root : TermNode, getAt (p ++ q) root = (getAt p root).bind (getAt q) := by
  induction p with
  | nil => intro root; rfl
  | cons st p ih =>
    intro root
    obtain ⟨cs, val, g⟩ := root
    cases st with
    | child k =>
      simp only [List.cons_append, getAt, TermNode.container]
      cases hk : cs[k]? with
      | none => rfl
      | some ck => exact ih ck
    | referent =>
      cases val with
      | reference g1 r e => exact ih r
      | empty => rfl
      | token s => rfl
      | shared s => rfl
      | object s => rfl
      | handler s => rfl

theorem firstSubtermLoop_stop (u : TermNode) (hu : u.container.length ≠ 1) :
    firstSubtermLoop u = [] := by
  obtain ⟨cs, val, g⟩ := u
  match cs, hu with
  | [], _ => simp [firstSubtermLoop]
  | [a], h => simp [TermNode.container] at h
  | a :: b :: rest, _ => simp [firstSubtermLoop]

theorem firstSubtermLoop_singletonChain (u : TermNode) (hu : u.container.length ≠ 1) :
    ∀ gs : List TermTags,
      firstSubtermLoop (singletonChain gs u) = List.replicate gs.length (.child 0) := by
  intro gs
  induction gs with
  | nil => simpa [singletonChain] using firstSubtermLoop_stop u hu
  | cons g gs ih =>
    simp only [singletonChain, firstSubtermLoop, ih, List.length_cons, List.replicate_succ]

theorem getAt_singletonChain (u : TermNode) :
    ∀ gs : List TermTags,
      getAt (List.replicate gs.length (.child 0)) (singletonChain gs u) = some u := by
  intro gs
  induction gs with
  | nil => rfl
  | cons g gs ih =>
    simp only [singletonChain, List.length_cons, List.replicate_succ, getAt,
      TermNode.container, List.getElem?_cons_zero]
    exact ih

theorem ReduceLeaf_current (X : Host) (p : Loc) (ctx c : Context)
    (h : (ReduceLeaf X p ctx).context = some c) : c.current = ctx.current := by
  unfold ReduceLeaf at h
  cases hg : getAt p ctx.root with
  | none => rw [hg] at h; cases h
  | some term =>
    rw [hg] at h
    simp only at h
    cases hn : TermToNamePtr term with
    | none =>
      rw [hn] at h
      cases h
      rfl
    | some id =>
      rw [hn] at h
      simp only at h
      cases id with
      | nil =>
        simp only [CheckReducible, Bool.false_eq_true, if_false] at h
        cases h
        rfl
      | cons f rest =>
        simp only at h
        by_cases hr : literalRejected f (f :: rest) = true
        · simp only [hr, if_true] at h
          cases h
          rfl
        · simp only [hr, if_false] at h
          cases hres : Resolve ctx.Record (f :: rest) with
          | none =>
            rw [hres] at h
            cases h
            rfl
          | some b =>
            rw [hres] at h
            simp only [CheckReducible, Bool.false_eq_true, if_false] at h
            cases h
            rfl

theorem DefaultReduceOnce_childless_current (X : Host) (p : Loc) (ctx c : Context)
    (v : ValueObject) (g : TermTags) (hterm : getAt p ctx.root = some (.mk [] v g))
    (h : (DefaultReduceOnce X p ctx).context = some c) : c.current = ctx.current := by
  unfold DefaultReduceOnce at h
  rw [hterm] at h
  simp only at h
  split at h
  · exact ReduceLeaf_current X p ctx c h
  · unfold ReduceBranch at h
    rw [hterm] at h
    simp only [IsBranch, TermNode.container, List.isEmpty_nil, Bool.not_true,
      Bool.false_eq_true, if_false] at h
    cases h
    rfl

theorem setAt_setAt (p : Loc) (a b : TermNode) :
    ∀ root : TermNode, setAt p a (setAt p b root) = setAt p a root := by
  induction p with
  | nil => intro root; rfl
  | cons st p ih =>
    intro root
    obtain ⟨cs, val, g⟩ := root
    cases st with
    | child k =>
      simp only [setAt, TermNode.container, TermNode.Value, TermNode.Tags]
      cases hk : cs[k]? with
      | none => simp only [TermNode.container, hk]
      | some ck =>
        have hlt : k < cs.length := by
          rcases Nat.lt_or_ge k cs.length with h | h
          · exact h
          · rw [List.getElem?_eq_none h] at hk
            cases hk
        simp only [TermNode.container, TermNode.Value, TermNode.Tags,
          List.getElem?_set_self hlt, List.set_set, ih]
    | referent =>
      cases val with
      | reference g1 r e =>
        simp only [setAt, TermNode.container, TermNode.Value, TermNode.Tags, ih]
      | empty => rfl
      | token s => rfl
      | shared s => rfl
      | object s => rfl
      | handler s => rfl

theorem DefaultReduceOnce_valued_current (X : Host) (p : Loc) (ctx c : Context)
    (term : TermNode) (hterm : getAt p ctx.root = some term)
    (hv : term.Value.isEmpty = false)
    (h : (DefaultReduceOnce X p ctx).context = some c) : c.current = ctx.current := by
  unfold DefaultReduceOnce at h
  rw [hterm] at h
  simp only [hv, Bool.not_false, if_true] at h
  exact ReduceLeaf_current X p ctx c h

theorem ReduceBranch_of_two (X : Host) (p : Loc) (ctx : Context) (a b : TermNode)
    (rest : List TermNode) (val : ValueObject) (g : TermTags)
    (hterm : getAt p ctx.root = some (.mk (a :: b :: rest) val g))
    (hv : val.isEmpty = true) :
    ReduceBranch X p ctx = .ok .Partial
      { ctx with
        root := setAt p (.mk (if IsEmpty a then b :: rest else a :: b :: rest) val g)
          ctx.root,
        NextTerm := p,
        LastStatus := .Neutral,
        current := .reduceOnce (p ++ [.child 0]) :: .combinedBranch p :: ctx.current } := by
  unfold ReduceBranch
  rw [hterm]
  by_cases he : IsEmpty a = true
  · simp [IsBranch, TermNode.container, he, RemoveHead, IsBranchedList, IsList, hv,
      SetupFront, TermNode.Value, TermNode.Tags]
  · simp [IsBranch, TermNode.container, he, IsBranchedList, IsList, hv,
      SetupFront, TermNode.Value, TermNode.Tags]

theorem TryAccessLeafReference_eq_none_iff (t : TermNode) :
    TryAccessLeafReference t = none ↔ t.Value.isReference = false := by
  obtain ⟨cs, val, gt⟩ := t
  cases val <;> simp [TryAccessLeafReference, TermNode.Value, ValueObject.isReference]

theorem TryAccessLeafHandler_eq_some_iff (t : TermNode) (h : Nat) :
    TryAccessLeafHandler t = some h ↔ t.Value = .handler h := by
  obtain ⟨cs, val, gt⟩ := t
  cases val <;> simp [TryAccessLeafHandler, TermNode.Value]

theorem TryAccessTermHandler_eq_some_iff (t : TermNode) (h : Nat) :
    TryAccessTermHandler t = some h ↔ t.Value = .handler h := by
  obtain ⟨cs, val, gt⟩ := t
  cases val <;> simp [TryAccessTermHandler, TermNode.Value]

theorem CombinerReturnThunk_eq (h : Nat) (p : Loc) (owner : Option Nat) (ctx : Context)
    (term : TermNode) (hterm : getAt p ctx.root = some term) :
    CombinerReturnThunk h p owner ctx = .ok .Partial
      { ctx with
        root := setAt p (.mk term.container .empty term.Tags) ctx.root,
        NextTerm := p,
        current := .handler (owner.getD h) :: ctx.current,
        LastFunction := owner,
        attached := owner.toList ++ ctx.attached } := by
  unfold CombinerReturnThunk
  rw [hterm]
  cases owner <;> rfl

/-- The tags that ReduceCombinedBranch gives to the term. -/
theorem combined_tags (g : TermTags) (b : Bool) :
    ((if b = true then g &&& ~~~temporaryTag else g ||| temporaryTag).Temporary = !b) ∧
    (if b = true then g &&& ~~~temporaryTag else g ||| temporaryTag).Unique = g.Unique ∧
    (if b = true then g &&& ~~~temporaryTag else g ||| temporaryTag).Nonmodifying =
      g.Nonmodifying := by
  obtain ⟨u, n, t⟩ := g
  cases b <;> cases u <;> cases n <;> cases t <;> decide

theorem ReduceCombinedBranch_eq (p : Loc) (ctx : Context) (term fm : TermNode)
    (rest : List TermNode) (hterm : getAt p ctx.root = some term)
    (hc : term.container = fm :: rest) (hl : IsList term = true) :
    ReduceCombinedBranch p ctx =
      match (TryAccessLeafReference fm).bind (fun r => TryAccessLeafHandler r.2.1) with
      | some h => CombinerReturnThunk h p none
          { ctx with root := setAt p (.mk term.container term.Value
              (if (TryAccessLeafReference fm).isSome then term.Tags &&& ~~~temporaryTag
                else term.Tags ||| temporaryTag)) ctx.root }
      | none =>
        match TryAccessTermHandler fm with
        | some h => CombinerReturnThunk h p (some h)
            { ctx with root := setAt p (.mk term.container term.Value
                (if (TryAccessLeafReference fm).isSome then term.Tags &&& ~~~temporaryTag
                  else term.Tags ||| temporaryTag)) ctx.root }
        | none =>
          .thrown (.ListReductionFailure (TryAccessLeafReference fm).isSome rest.length)
            { ctx with root := setAt p (.mk term.container term.Value
                (if (TryAccessLeafReference fm).isSome then term.Tags &&& ~~~temporaryTag
                  else term.Tags ||| temporaryTag)) ctx.root } := by
  unfold ReduceCombinedBranch
  rw [hterm]
  have hb : IsBranchedList term = true := by
    simp [IsBranchedList, IsBranch, hc, hl]
  simp only [hb, hc, Bool.not_true, Bool.false_eq_true, if_false, List.length_cons,
    Nat.add_sub_cancel]

theorem TryAccessLeafReference_eq_some_iff (t : TermNode) (g : TermTags) (r : TermNode)
    (e : EnvironmentReference) :
    TryAccessLeafReference t = some (g, r, e) ↔ t.Value = .reference g r e := by
  obtain ⟨cs, val, gt⟩ := t
  cases val <;> simp [TryAccessLeafReference, TermNode.Value]

theorem referenced_handler_iff (fm : TermNode) (h : Nat) :
    (TryAccessLeafReference fm).bind (fun r => TryAccessLeafHandler r.2.1) = some h ↔
      ∃ g r e, fm.Value = .reference g r e ∧ r.Value = .handler h := by
  constructor
  · intro hb
    cases hr : TryAccessLeafReference fm with
    | none => rw [hr] at hb; simp at hb
    | some q =>
      obtain ⟨g, r, e⟩ := q
      rw [hr] at hb
      simp only [Option.some_bind] at hb
      exact ⟨g, r, e, (TryAccessLeafReference_eq_some_iff fm g r e).mp hr,
        (TryAccessLeafHandler_eq_some_iff r h).mp hb⟩
  · rintro ⟨g, r, e, hfm, hr⟩
    rw [(TryAccessLeafReference_eq_some_iff fm g r e).mpr hfm]
    simp only [Option.some_bind]
    exact (TryAccessLeafHandler_eq_some_iff r h).mpr hr

theorem Trampoline_nil (X : Host) (fuel : Nat) (ctx : Context) (h : ctx.current = []) :
    Trampoline X fuel ctx = .ok ctx.LastStatus ctx := by
  cases fuel <;> simp [Trampoline, h]

theorem Trampoline_cons (X : Host) (fuel : Nat) (ctx : Context) (a : Action)
    (rest : List Action) (h : ctx.current = a :: rest) :
    Trampoline X (fuel + 1) ctx = (a.exec X { ctx with current := rest }).thenRun X fuel := by
  simp only [Trampoline, h]
  cases a.exec X { ctx with current := rest } <;> rfl

theorem Trampoline_ok_current (X : Host) :
    ∀ (fuel : Nat) (ctx : Context) (st : ReductionStatus) (c : Context),
      Trampoline X fuel ctx = .ok st c → c.current = [] ∧ st = c.LastStatus := by
  intro fuel
  induction fuel with
  | zero =>
    intro ctx st c h
    cases hq : ctx.current with
    | nil =>
      rw [Trampoline_nil X 0 ctx hq] at h
      cases h
      exact ⟨hq, rfl⟩
    | cons a rest => simp [Trampoline, hq] at h
  | succ fuel ih =>
    intro ctx st c h
    cases hq : ctx.current with
    | nil =>
      rw [Trampoline_nil X _ ctx hq] at h
      cases h
      exact ⟨hq, rfl⟩
    | cons a rest =>
      rw [Trampoline_cons X fuel ctx a rest hq] at h
      cases he : a.exec X { ctx with current := rest } with
      | ok st1 c1 =>
        rw [he] at h
        exact ih _ st c h
      | thrown e c1 => rw [he] at h; cases h
      | aborted => rw [he] at h; cases h
      | timeout => rw [he] at h; cases h

theorem Trampoline_mono (X : Host) :
    ∀ (fuel : Nat) (ctx : Context) (r : Reduced),
      Trampoline X fuel ctx = r → r ≠ .timeout → ∀ k, Trampoline X (fuel + k) ctx = r := by
  intro fuel
  induction fuel with
  | zero =>
    intro ctx r h hr k
    cases hq : ctx.current with
    | nil =>
      rw [Trampoline_nil X 0 ctx hq] at h
      rw [Trampoline_nil X _ ctx hq]
      exact h
    | cons a rest =>
      simp [Trampoline, hq] at h
      exact absurd h.symm hr
  | succ fuel ih =>
    intro ctx r h hr k
    cases hq : ctx.current with
    | nil =>
      rw [Trampoline_nil X _ ctx hq] at h
      rw [Trampoline_nil X _ ctx hq]
      exact h
    | cons a rest =>
      rw [Trampoline_cons X fuel ctx a rest hq] at h
      have e1 : fuel + 1 + k = (fuel + k) + 1 := by omega
      rw [e1, Trampoline_cons X (fuel + k) ctx a rest hq]
      cases he : a.exec X { ctx with current := rest } with
      | ok st1 c1 =>
        rw [he] at h
        exact ih _ r h hr k
      | thrown e c1 => rw [he] at h; exact h
      | aborted => rw [he] at h; exact h
      | timeout => rw [he] at h; exact h

theorem thenRun_mono (X : Host) (fuel : Nat) (r0 r : Reduced)
    (h : r0.thenRun X fuel = r) (hr : r ≠ .timeout) (G : Nat) (hG : fuel ≤ G) :
    r0.thenRun X G = r := by
  obtain ⟨k, rfl⟩ := Nat.exists_eq_add_of_le hG
  cases r0 with
  | ok st c => exact Trampoline_mono X fuel _ r h hr k
  | thrown e c => exact h
  | aborted => exact h
  | timeout => exact h

theorem CombinerReturnThunk_pending (h : Nat) (p : Loc) (owner : Option Nat)
    (ctx : Context) (q : List Action) :
    CombinerReturnThunk h p owner (ctx.pending q) =
      (CombinerReturnThunk h p owner ctx).pending q := by
  unfold CombinerReturnThunk
  show (match getAt p ctx.root with
    | none => _
    | some term => _) = _
  cases getAt p ctx.root <;> rfl

theorem ReduceCombinedBranch_pending (p : Loc) (ctx : Context) (q : List Action) :
    ReduceCombinedBranch p (ctx.pending q) = (ReduceCombinedBranch p ctx).pending q := by
  unfold ReduceCombinedBranch
  show (match getAt p ctx.root with
    | none => _
    | some term => _) = _
  cases getAt p ctx.root with
  | none => rfl
  | some term =>
    simp only
    by_cases hb : IsBranchedList term = true
    · simp only [hb, Bool.not_true, Bool.false_eq_true, if_false]
      cases term.container with
      | nil => rfl
      | cons fm rest =>
        simp only
        cases (TryAccessLeafReference fm).bind (fun r => TryAccessLeafHandler r.2.1) with
        | some h =>
          exact CombinerReturnThunk_pending h p none
            { ctx with root := setAt p (.mk (fm :: rest) term.Value
                (if (TryAccessLeafReference fm).isSome then term.Tags &&& ~~~temporaryTag
                  else term.Tags ||| temporaryTag)) ctx.root } q
        | none =>
          simp only
          cases TryAccessTermHandler fm with
          | some h =>
            exact CombinerReturnThunk_pending h p (some h)
              { ctx with root := setAt p (.mk (fm :: rest) term.Value
                  (if (TryAccessLeafReference fm).isSome then term.Tags &&& ~~~temporaryTag
                    else term.Tags ||| temporaryTag)) ctx.root } q
          | none => rfl
    · simp only [hb, Bool.not_false, if_true]
      rfl

theorem ReduceOnce_pending (X : Host) (hX : X.QueueBlind) (p : Loc) (ctx : Context)
    (q : List Action) :
    ReduceOnce X p (ctx.pending q) = (ReduceOnce X p ctx).pending q :=
  hX.1 p (SetNextTermRef p ctx) q

theorem LiftOther_pending (p tm : Loc) (ctx : Context) (q : List Action) :
    LiftOther p tm (ctx.pending q) = (LiftOther p tm ctx).map (fun c => c.pending q) := by
  unfold LiftOther
  have e : (ctx.pending q).root = ctx.root := rfl
  rw [e]
  cases getAt p ctx.root with
  | none => rfl
  | some term =>
    cases getAt tm ctx.root with
    | none => rfl
    | some t => rfl

theorem ReduceOnceLifted_pending (X : Host) (hX : X.QueueBlind) (p tm : Loc)
    (ctx : Context) (q : List Action) :
    ReduceOnceLifted X p tm (ctx.pending q) = (ReduceOnceLifted X p tm ctx).pending q := by
  unfold ReduceOnceLifted
  rw [LiftOther_pending]
  cases LiftOther p tm ctx with
  | none => rfl
  | some c => exact ReduceOnce_pending X hX p c q

theorem ReduceSequenceOrderedAsync_pending (X : Host) (hX : X.QueueBlind) (p : Loc)
    (i : Nat) (ctx : Context) (q : List Action) :
    ReduceSequenceOrderedAsync X p i (ctx.pending q) =
      (ReduceSequenceOrderedAsync X p i ctx).pending q := by
  unfold ReduceSequenceOrderedAsync
  show (match getAt p ctx.root with
    | none => _
    | some t => _) = _
  cases getAt p ctx.root with
  | none => rfl
  | some t =>
    simp only
    by_cases h1 : i < t.container.length
    · simp only [h1, if_true]
      by_cases h2 : (i + 1 == t.container.length) = true
      · simp only [h2, if_true]
        exact ReduceOnceLifted_pending X hX p _ ctx q
      · simp only [h2, if_false]
        exact ReduceOnce_pending X hX _ (SetupFront (.sequenceOrdered p i) ctx) q
    · simp only [h1, if_false]
      rfl

theorem ReduceChildrenOrderedAsyncUnchecked_pending (X : Host) (hX : X.QueueBlind)
    (p : Loc) (j : Nat) (ctx : Context) (q : List Action) :
    ReduceChildrenOrderedAsyncUnchecked X p j (ctx.pending q) =
      (ReduceChildrenOrderedAsyncUnchecked X p j ctx).pending q := by
  unfold ReduceChildrenOrderedAsyncUnchecked ReduceSubsequent
  show (match getAt p ctx.root with
    | none => _
    | some t => _) = _
  cases getAt p ctx.root with
  | none => rfl
  | some t =>
    simp only
    by_cases h1 : j < t.container.length
    · simp only [h1, if_true]
      exact ReduceOnce_pending X hX _ (SetupFront (.childrenOrdered p (j + 1)) ctx) q
    · simp only [h1, if_false]
      rfl

theorem ReduceChildrenOrderedAsync_pending (X : Host) (hX : X.QueueBlind)
    (p : Loc) (j : Nat) (ctx : Context) (q : List Action) :
    ReduceChildrenOrderedAsync X p j (ctx.pending q) =
      (ReduceChildrenOrderedAsync X p j ctx).pending q := by
  unfold ReduceChildrenOrderedAsync
  show (match getAt p ctx.root with
    | none => _
    | some t => _) = _
  cases getAt p ctx.root with
  | none => rfl
  | some t =>
    simp only
    by_cases h1 : j = t.container.length
    · simp only [h1, ne_eq, not_true_eq_false, if_false]
      rfl
    · simp only [h1, ne_eq, not_false_eq_true, if_true]
      exact ReduceChildrenOrderedAsyncUnchecked_pending X hX p j ctx q

theorem CallN_pending (X : Host) (hX : X.QueueBlind) (h n : Nat) (p : Loc)
    (ctx : Context) (q : List Action) :
    CallN X h n p (ctx.pending q) = (CallN X h n p ctx).pending q := by
  unfold CallN
  show (match getAt p ctx.root with
    | none => _
    | some t => _) = _
  cases getAt p ctx.root with
  | none => rfl
  | some t =>
    simp only
    by_cases h1 : (n == 0 || decide (t.container.length ≤ 1)) = true
    · simp only [h1, if_true]
      exact hX.2 h ctx.NextTerm ctx q
    · simp only [h1, if_false]
      have := ReduceChildrenOrderedAsyncUnchecked_pending X hX p 1
        (SetNextTermRef p (SetupFront (.callN h (n - 1) p) ctx)) q
      have e : SetNextTermRef p (SetupFront (.callN h (n - 1) p) (ctx.pending q)) =
          (SetNextTermRef p (SetupFront (.callN h (n - 1) p) ctx)).pending q := rfl
      rw [e, this]
      cases ReduceChildrenOrderedAsyncUnchecked X p 1
        (SetNextTermRef p (SetupFront (.callN h (n - 1) p) ctx)) <;> rfl

theorem exec_pending (X : Host) (hX : X.QueueBlind) (a : Action) (ctx : Context)
    (q : List Action) :
    a.exec X (ctx.pending q) = (a.exec X ctx).pending q := by
  cases a with
  | combinedBranch p => exact ReduceCombinedBranch_pending p (SetNextTermRef p ctx) q
  | reduceOnce p => exact ReduceOnce_pending X hX p ctx q
  | childrenOrdered p j => exact ReduceChildrenOrderedAsync_pending X hX p j ctx q
  | sequenceOrdered p i =>
    show (match getAt p ctx.root with
      | none => _
      | some t => _) = _
    simp only [Action.exec]
    cases getAt p ctx.root with
    | none => rfl
    | some t =>
      exact ReduceSequenceOrderedAsync_pending X hX p i
        { ctx with root := setAt p (.mk (t.container.eraseIdx i) t.Value t.Tags) ctx.root } q
  | callN h n p => exact CallN_pending X hX h n p (SetNextTermRef p ctx) q
  | handler h => exact hX.2 h ctx.NextTerm ctx q

theorem Leads.refl (X : Host) (ctx : Context) : Leads X ctx ctx :=
  ⟨0, fun g => by rw [Nat.zero_add]⟩

theorem Leads.trans (X : Host) (c1 c2 c3 : Context) (h1 : Leads X c1 c2)
    (h2 : Leads X c2 c3) : Leads X c1 c3 := by
  obtain ⟨F1, h1⟩ := h1
  obtain ⟨F2, h2⟩ := h2
  refine ⟨F1 + F2, fun g => ?_⟩
  rw [Nat.add_assoc, h1, h2]

theorem Leads_exec (X : Host) (ctx : Context) (a : Action) (rest : List Action)
    (st : ReductionStatus) (c : Context) (hq : ctx.current = a :: rest)
    (he : a.exec X { ctx with current := rest } = .ok st c) :
    Leads X ctx { c with LastStatus := st } := by
  refine ⟨1, fun g => ?_⟩
  rw [Nat.add_comm, Trampoline_cons X g ctx a rest hq, he]
  rfl

theorem Leads_of_ok (X : Host) (hX : X.QueueBlind) (q : List Action) :
    ∀ (fuel : Nat) (ctx : Context) (st : ReductionStatus) (c : Context),
      Trampoline X fuel ctx = .ok st c → Leads X (ctx.pending q) { c with current := q } := by
  intro fuel
  induction fuel with
  | zero =>
    intro ctx st c h
    cases hq : ctx.current with
    | nil =>
      rw [Trampoline_nil X 0 ctx hq] at h
      cases h
      have e : ctx.pending q = { ctx with current := q } := by
        simp [Context.pending, hq]
      rw [e]
      exact Leads.refl X _
    | cons a rest => simp [Trampoline, hq] at h
  | succ fuel ih =>
    intro ctx st c h
    cases hq : ctx.current with
    | nil =>
      rw [Trampoline_nil X _ ctx hq] at h
      cases h
      have e : ctx.pending q = { ctx with current := q } := by
        simp [Context.pending, hq]
      rw [e]
      exact Leads.refl X _
    | cons a rest =>
      rw [Trampoline_cons X fuel ctx a rest hq] at h
      cases he : a.exec X { ctx with current := rest } with
      | ok st1 c1 =>
        rw [he] at h
        have h1 := ih { c1 with LastStatus := st1 } st c h
        have hq2 : (ctx.pending q).current = a :: (rest ++ q) := by
          simp [Context.pending, hq]
        have he2 : a.exec X { ctx.pending q with current := rest ++ q } =
            .ok st1 (c1.pending q) := by
          have := exec_pending X hX a { ctx with current := rest } q
          rw [he] at this
          exact this
        exact Leads.trans X _ _ _ (Leads_exec X _ a (rest ++ q) st1 _ hq2 he2) h1
      | thrown e c1 => rw [he] at h; cases h
      | aborted => rw [he] at h; cases h
      | timeout => rw [he] at h; cases h

theorem Leads_result (X : Host) (c1 c2 : Context) (h : Leads X c1 c2) (fuel : Nat)
    (r : Reduced) (hr : Trampoline X fuel c2 = r) (hne : r ≠ .timeout) :
    ∃ F, ∀ G, F ≤ G → Trampoline X G c1 = r := by
  obtain ⟨F1, h1⟩ := h
  refine ⟨F1 + fuel, fun G hG => ?_⟩
  obtain ⟨k, rfl⟩ := Nat.exists_eq_add_of_le hG
  rw [Nat.add_assoc, h1]
  exact Trampoline_mono X fuel c2 r hr hne k

theorem sequence_main (X : Host) (hX : X.QueueBlind) (p : Loc) (fuel : Nat) :
    ∀ (k : Nat) (ctx : Context) (st : ReductionStatus) (c : Context),
      ctx.current = [] → sequenceReference X fuel k p ctx = .ok st c →
      ∃ F, ∀ G, F ≤ G → (ReduceSequenceOrderedAsync X p 0 ctx).thenRun X G = .ok st c := by
  intro k
  induction k with
  | zero => intro ctx st c _ h; simp [sequenceReference] at h
  | succ k ih =>
    intro ctx st c hq h
    unfold sequenceReference at h
    unfold ReduceSequenceOrderedAsync
    cases ht : getAt p ctx.root with
    | none => rw [ht] at h; cases h
    | some t =>
      rw [ht] at h
      simp only at h ⊢
      cases hc : t.container with
      | nil => rw [hc] at h; cases h
      | cons a rest =>
        cases rest with
        | nil =>
          rw [hc] at h
          simp only at h
          refine ⟨fuel, fun G hG => ?_⟩
          simp only [List.length_cons, List.length_nil, Nat.zero_add, Nat.lt_one_iff,
            if_true, beq_self_eq_true]
          exact thenRun_mono X fuel _ _ h (by simp) G hG
        | cons b rest =>
          rw [hc] at h
          simp only at h
          have hlen : (0 < (a :: b :: rest).length) = True := by simp
          have hne : (0 + 1 == (a :: b :: rest).length) = false := by simp
          simp only [hlen, hne, if_true, Bool.false_eq_true, if_false]
          have hsf : SetupFront (.sequenceOrdered p 0) ctx =
              ctx.pending [.sequenceOrdered p 0] := by
            simp [SetupFront, Context.pending, hq]
          rw [hsf, ReduceOnce_pending X hX]
          cases h0 : ReduceOnce X (p ++ [.child 0]) ctx with
          | ok s0 c0 =>
            rw [h0] at h
            simp only [Reduced.thenRun] at h
            cases h1 : Trampoline X fuel { c0 with LastStatus := s0 } with
            | ok s1 c1 =>
              rw [h1] at h
              simp only at h
              have hc1 := (Trampoline_ok_current X fuel _ s1 c1 h1).1
              cases ht1 : getAt p c1.root with
              | none => rw [ht1] at h; cases h
              | some t1 =>
                rw [ht1] at h
                simp only at h
                have hq2 : ({ c1 with root :=
                    (setAt p (.mk t1.container.tail t1.Value t1.Tags) c1.root) } :
                    Context).current = [] := hc1
                obtain ⟨F1, hF1⟩ := ih _ st c hq2 h
                have hl := Leads_of_ok X hX [.sequenceOrdered p 0] fuel _ s1 c1 h1
                obtain ⟨F0, hF0⟩ := hl
                refine ⟨F0 + (F1 + 1), fun G hG => ?_⟩
                obtain ⟨g, rfl⟩ := Nat.exists_eq_add_of_le hG
                have e1 : F0 + (F1 + 1) + g = F0 + ((F1 + g) + 1) := by omega
                show Trampoline X (F0 + (F1 + 1) + g)
                  (Context.pending { c0 with LastStatus := s0 } [.sequenceOrdered p 0]) = _
                rw [e1, hF0,
                  Trampoline_cons X (F1 + g) _ (.sequenceOrdered p 0) [] rfl]
                have hex : Action.exec X (.sequenceOrdered p 0)
                    { ({ c1 with current := [.sequenceOrdered p 0] } : Context) with
                      current := [] } =
                    ReduceSequenceOrderedAsync X p 0
                      { c1 with root :=
                        (setAt p (.mk t1.container.tail t1.Value t1.Tags) c1.root) } := by
                  show (match getAt p c1.root with
                    | none => _
                    | some t => _) = _
                  rw [ht1]
                  simp only [List.eraseIdx_zero]
                  congr 1
                  cases c1
                  simp only at hc1
                  subst hc1
                  rfl
                rw [hex]
                exact hF1 (F1 + g) (Nat.le_add_right _ _)
            | thrown e c1 => rw [h1] at h; cases h
            | aborted => rw [h1] at h; cases h
            | timeout => rw [h1] at h; cases h
          | thrown e c0 => rw [h0] at h; cases h
          | aborted => rw [h0] at h; cases h
          | timeout => rw [h0] at h; cases h

theorem ReduceLeaf_pending (X : Host) (p : Loc) (ctx : Context) (q : List Action) :
    ReduceLeaf X p (ctx.pending q) = (ReduceLeaf X p ctx).pending q := by
  unfold ReduceLeaf
  have e1 : (ctx.pending q).root = ctx.root := rfl
  have e2 : (ctx.pending q).Record = ctx.Record := rfl
  rw [e1, e2]
  cases getAt p ctx.root with
  | none => rfl
  | some term =>
    simp only
    cases TermToNamePtr term with
    | none => rfl
    | some id =>
      simp only
      cases id with
      | nil => simp only [CheckReducible, Bool.false_eq_true, if_false]; rfl
      | cons f rest =>
        simp only
        by_cases hr : literalRejected f (f :: rest) = true
        · simp only [hr, if_true]
          rfl
        · simp only [hr, if_false]
          cases Resolve ctx.Record (f :: rest) with
          | none => rfl
          | some b =>
            simp only [CheckReducible, Bool.false_eq_true, if_false]
            rfl

theorem ReduceBranch_pending (X : Host) (hX : X.QueueBlind) (p : Loc) (ctx : Context)
    (q : List Action) :
    ReduceBranch X p (ctx.pending q) = (ReduceBranch X p ctx).pending q := by
  unfold ReduceBranch
  have e1 : (ctx.pending q).root = ctx.root := rfl
  rw [e1]
  cases getAt p ctx.root with
  | none => rfl
  | some term =>
    simp only
    by_cases hb : IsBranch term = true
    · simp only [hb, if_true]
      cases h1 : (term.container.length == 1) with
      | true =>
        simp only [if_true]
        exact ReduceOnceLifted_pending X hX p _ ctx q
      | false =>
        simp only [Bool.false_eq_true, if_false]
        cases h2 : (!IsBranchedList
            (match term.container.head? with
            | some first => if IsEmpty first = true then RemoveHead term else term
            | none => term)) with
        | true => rfl
        | false => rfl
    · simp only [hb, if_false]
      rfl

theorem DefaultReduceOnce_pending (X : Host) (hX : X.QueueBlind) (p : Loc)
    (ctx : Context) (q : List Action) :
    DefaultReduceOnce X p (ctx.pending q) = (DefaultReduceOnce X p ctx).pending q := by
  unfold DefaultReduceOnce
  have e1 : (ctx.pending q).root = ctx.root := rfl
  rw [e1]
  cases getAt p ctx.root with
  | none => rfl
  | some term =>
    simp only
    split
    · exact ReduceLeaf_pending X p ctx q
    · exact ReduceBranch_pending X hX p ctx q

theorem DefaultHost_QueueBlind (Handler : Nat → Loc → Context → Reduced)
    (MakeTermTags : EnvironmentReference → TermNode → TermTags)
    (hH : ∀ h p ctx q, Handler h p (Context.pending ctx q) = (Handler h p ctx).pending q) :
    ∀ fuel, (DefaultHost Handler MakeTermTags fuel).QueueBlind := by
  intro fuel
  induction fuel with
  | zero => exact ⟨fun _ _ _ => rfl, hH⟩
  | succ fuel ih =>
    exact ⟨fun p ctx q => DefaultReduceOnce_pending _ ih p ctx q, hH⟩

theorem sample_QueueBlind (fuel : Nat) : (Host.sample fuel).QueueBlind :=
  DefaultHost_QueueBlind _ _ (fun _ _ _ _ => rfl) fuel

theorem operandsReference_current (X : Host) (fuel : Nat) (p : Loc) :
    ∀ (k j : Nat) (ctx : Context) (st : ReductionStatus) (c : Context),
      ctx.current = [] → operandsReference X fuel k p j ctx = .ok st c →
      c.current = [] ∧ st = .Neutral := by
  intro k
  induction k with
  | zero => intro j ctx st c _ h; simp [operandsReference] at h
  | succ k ih =>
    intro j ctx st c hq h
    unfold operandsReference at h
    cases ht : getAt p ctx.root with
    | none => rw [ht] at h; cases h
    | some t =>
      rw [ht] at h
      simp only at h
      by_cases hj : j = t.container.length
      · simp only [hj, if_true] at h
        cases h
        exact ⟨hq, rfl⟩
      · simp only [hj, if_false] at h
        by_cases hlt : j < t.container.length
        · simp only [hlt, if_true] at h
          cases h0 : ReduceOnce X (p ++ [.child j]) ctx with
          | ok s0 c0 =>
            rw [h0] at h
            simp only [Reduced.thenRun] at h
            cases h1 : Trampoline X fuel { c0 with LastStatus := s0 } with
            | ok s1 c1 =>
              rw [h1] at h
              exact ih (j + 1) c1 st c (Trampoline_ok_current X fuel _ s1 c1 h1).1 h
            | thrown e c1 => rw [h1] at h; cases h
            | aborted => rw [h1] at h; cases h
            | timeout => rw [h1] at h; cases h
          | thrown e c0 => rw [h0] at h; cases h
          | aborted => rw [h0] at h; cases h
          | timeout => rw [h0] at h; cases h
        · simp only [hlt, if_false] at h
          cases h

theorem operands_main (X : Host) (hX : X.QueueBlind) (p : Loc) (fuel : Nat)
    (q : List Action) :
    ∀ (k j : Nat) (ctx : Context) (st : ReductionStatus) (c : Context),
      ctx.current = [] → operandsReference X fuel k p j ctx = .ok st c →
      Leads X { ctx with current := .childrenOrdered p j :: q }
        { c with LastStatus := st, current := q } := by
  intro k
  induction k with
  | zero => intro j ctx st c _ h; simp [operandsReference] at h
  | succ k ih =>
    intro j ctx st c hq h
    unfold operandsReference at h
    cases ht : getAt p ctx.root with
    | none => rw [ht] at h; cases h
    | some t =>
      rw [ht] at h
      simp only at h
      by_cases hj : j = t.container.length
      · subst hj
        simp only [if_true] at h
        cases h
        have hex : Action.exec X (.childrenOrdered p t.container.length)
            { ({ ctx with current := .childrenOrdered p t.container.length :: q } :
                Context) with current := q } =
            .ok .Neutral { ctx with current := q } := by
          show ReduceChildrenOrderedAsync X p _ _ = _
          unfold ReduceChildrenOrderedAsync
          show (match getAt p ctx.root with
            | none => _
            | some t => _) = _
          rw [ht]
          simp only [ne_eq, not_true_eq_false, if_false]
        exact Leads_exec X { ctx with current := .childrenOrdered p t.container.length :: q }
          _ q .Neutral _ rfl hex
      · simp only [hj, if_false] at h
        by_cases hlt : j < t.container.length
        · simp only [hlt, if_true] at h
          cases h0 : ReduceOnce X (p ++ [.child j]) ctx with
          | ok s0 c0 =>
            rw [h0] at h
            simp only [Reduced.thenRun] at h
            cases h1 : Trampoline X fuel { c0 with LastStatus := s0 } with
            | ok s1 c1 =>
              rw [h1] at h
              have hc1 := (Trampoline_ok_current X fuel _ s1 c1 h1).1
              have hrest := ih (j + 1) c1 st c hc1 h
              have hl := Leads_of_ok X hX (.childrenOrdered p (j + 1) :: q) fuel _ s1 c1 h1
              have hex : Action.exec X (.childrenOrdered p j)
                  { ({ ctx with current := .childrenOrdered p j :: q } : Context) with
                    current := q } =
                  .ok s0 (c0.pending (.childrenOrdered p (j + 1) :: q)) := by
                show ReduceChildrenOrderedAsync X p j _ = _
                unfold ReduceChildrenOrderedAsync ReduceChildrenOrderedAsyncUnchecked
                  ReduceSubsequent
                show (match getAt p ctx.root with
                  | none => _
                  | some t => _) = _
                rw [ht]
                simp only [hj, ne_eq, not_false_eq_true, if_true, hlt]
                have e : SetupFront (.childrenOrdered p (j + 1))
                    { ({ ctx with current := .childrenOrdered p j :: q } : Context) with
                      current := q } =
                    ctx.pending (.childrenOrdered p (j + 1) :: q) := by
                  simp [SetupFront, Context.pending, hq]
                rw [e, ReduceOnce_pending X hX, h0]
                rfl
              exact Leads.trans X _ _ _
                (Leads.trans X _ _ _
                  (Leads_exec X { ctx with current := .childrenOrdered p j :: q }
                    _ q s0 _ rfl hex) hl) hrest
            | thrown e c1 => rw [h1] at h; cases h
            | aborted => rw [h1] at h; cases h
            | timeout => rw [h1] at h; cases h
          | thrown e c0 => rw [h0] at h; cases h
          | aborted => rw [h0] at h; cases h
          | timeout => rw [h0] at h; cases h
        · simp only [hlt, if_false] at h
          cases h

theorem callN_main (X : Host) (hX : X.QueueBlind) (p : Loc) (fuel k h : Nat) :
    ∀ (n : Nat) (ctx : Context) (st : ReductionStatus) (c : Context),
      ctx.current = [] → callNReference X fuel k h n p ctx = .ok st c →
      ∃ F, ∀ G, F ≤ G → (CallN X h n p ctx).thenRun X G = .ok st c := by
  intro n
  induction n with
  | zero =>
    intro ctx st c hq href
    unfold callNReference at href
    unfold CallN
    cases ht : getAt p ctx.root with
    | none => rw [ht] at href; cases href
    | some t =>
      rw [ht] at href
      simp only at href ⊢
      refine ⟨fuel, fun G hG => ?_⟩
      simp only [beq_self_eq_true, Bool.true_or, if_true]
      exact thenRun_mono X fuel _ _ href (by simp) G hG
  | succ n ih =>
    intro ctx st c hq href
    unfold callNReference at href
    unfold CallN
    cases ht : getAt p ctx.root with
    | none => rw [ht] at href; cases href
    | some t =>
      rw [ht] at href
      simp only at href ⊢
      by_cases hlen : t.container.length ≤ 1
      · simp only [hlen, if_true] at href
        refine ⟨fuel, fun G hG => ?_⟩
        simp only [hlen, decide_True, Bool.or_true, if_true]
        exact thenRun_mono X fuel _ _ href (by simp) G hG
      · simp only [hlen, if_false] at href
        have hlt : 1 < t.container.length := by omega
        have hcond : (n + 1 == 0 || decide (t.container.length ≤ 1)) = false := by
          simp [hlen]
        simp only [hcond, Bool.false_eq_true, if_false, Nat.add_sub_cancel]
        have hun : ReduceChildrenOrderedAsyncUnchecked X p 1
            (SetNextTermRef p (SetupFront (.callN h n p) ctx)) =
            (ReduceOnce X (p ++ [.child 1]) (SetNextTermRef p ctx)).pending
              [.childrenOrdered p 2, .callN h n p] := by
          unfold ReduceChildrenOrderedAsyncUnchecked ReduceSubsequent
          show (match getAt p ctx.root with
            | none => _
            | some t => _) = _
          rw [ht]
          simp only [hlt, if_true]
          have e : SetupFront (.childrenOrdered p (1 + 1))
              (SetNextTermRef p (SetupFront (.callN h n p) ctx)) =
              (SetNextTermRef p ctx).pending [.childrenOrdered p 2, .callN h n p] := by
            simp [SetupFront, SetNextTermRef, Context.pending, hq]
          rw [e, ReduceOnce_pending X hX]
        rw [hun]
        cases h0 : ReduceOnce X (p ++ [.child 1]) (SetNextTermRef p ctx) with
        | ok s0 c0 =>
          rw [h0] at href
          simp only at href
          cases h1 : Trampoline X fuel { c0 with LastStatus := .Partial } with
          | ok s1 c1 =>
            rw [h1] at href
            simp only at href
            have hc1 := (Trampoline_ok_current X fuel _ s1 c1 h1).1
            cases h2 : operandsReference X fuel k p 2 c1 with
            | ok s2 c2 =>
              rw [h2] at href
              simp only at href
              have hc2 := (operandsReference_current X fuel p k 2 c1 s2 c2 hc1 h2).1
              obtain ⟨F1, hF1⟩ := ih (SetNextTermRef p { c2 with LastStatus := s2 }) st c
                hc2 href
              have hl1 := Leads_of_ok X hX [.childrenOrdered p 2, .callN h n p] fuel _ s1 c1 h1
              have hl2 := operands_main X hX p fuel [.callN h n p] k 2 c1 s2 c2 hc1 h2
              obtain ⟨F0, hF0⟩ := Leads.trans X _ _ _ hl1 hl2
              refine ⟨F0 + (F1 + 1), fun G hG => ?_⟩
              obtain ⟨g, rfl⟩ := Nat.exists_eq_add_of_le hG
              have e1 : F0 + (F1 + 1) + g = F0 + ((F1 + g) + 1) := by omega
              show Trampoline X (F0 + (F1 + 1) + g)
                (Context.pending { c0 with LastStatus := .Partial }
                  [.childrenOrdered p 2, .callN h n p]) = _
              rw [e1, hF0, Trampoline_cons X (F1 + g) _ (.callN h n p) [] rfl]
              have hex : Action.exec X (.callN h n p)
                  { ({ c2 with LastStatus := s2, current := [.callN h n p] } : Context) with
                    current := [] } =
                  CallN X h n p (SetNextTermRef p { c2 with LastStatus := s2 }) := by
                show CallN X h n p _ = _
                congr 1
                cases c2
                simp only at hc2
                subst hc2
                rfl
              rw [hex]
              exact hF1 (F1 + g) (Nat.le_add_right _ _)
            | thrown e c2 => rw [h2] at href; cases href
            | aborted => rw [h2] at href; cases href
            | timeout => rw [h2] at href; cases href
          | thrown e c1 => rw [h1] at href; cases href
          | aborted => rw [h1] at href; cases href
          | timeout => rw [h1] at href; cases href
        | thrown e c0 => rw [h0] at href; cases href
        | aborted => rw [h0] at href; cases href
        | timeout => rw [h0] at href; cases href

theorem CallN_step (X : Host) (hX : X.QueueBlind) (p : Loc) (h n : Nat) (ctx : Context)
    (t : TermNode) (ht : getAt p ctx.root = some t) (hlt : 1 < t.container.length)
    (hq : ctx.current = []) :
    CallN X h (n + 1) p ctx =
      match (ReduceOnce X (p ++ [.child 1]) (SetNextTermRef p ctx)).pending
          [.childrenOrdered p 2, .callN h n p] with
      | .ok _ c => .ok .Partial c
      | other => other := by
  unfold CallN
  rw [ht]
  have hcond : (n + 1 == 0 || decide (t.container.length ≤ 1)) = false := by
    simp
    omega
  simp only [hcond, Bool.false_eq_true, if_false, Nat.add_sub_cancel]
  have hun : ReduceChildrenOrderedAsyncUnchecked X p 1
      (SetNextTermRef p (SetupFront (.callN h n p) ctx)) =
      (ReduceOnce X (p ++ [.child 1]) (SetNextTermRef p ctx)).pending
        [.childrenOrdered p 2, .callN h n p] := by
    unfold ReduceChildrenOrderedAsyncUnchecked ReduceSubsequent
    show (match getAt p ctx.root with
      | none => _
      | some t => _) = _
    rw [ht]
    simp only [hlt, if_true]
    have e : SetupFront (.childrenOrdered p (1 + 1))
        (SetNextTermRef p (SetupFront (.callN h n p) ctx)) =
        (SetNextTermRef p ctx).pending [.childrenOrdered p 2, .callN h n p] := by
      simp [SetupFront, SetNextTermRef, Context.pending, hq]
    rw [e, ReduceOnce_pending X hX]
  rw [hun]

theorem IsLeaf_nest_succ (d : Nat) (t : TermNode) : IsLeaf (nest (d + 1) t) = false := rfl

theorem trailingEllipsis_nest (tr : Traits) (d : Nat) (a : TokenValue) (g : TermTags)
    (h : Bool) (ha : a.head? ≠ some '.') :
    trailingEllipsis tr (nest (d + 1) (.mk [] (.token a) g)) h = .ok false := by
  cases d with
  | zero =>
    cases a with
    | nil => rfl
    | cons ch rest =>
      have hc : ch ≠ '.' := by
        intro hc
        apply ha
        rw [hc]
        rfl
      simp [trailingEllipsis, nest, listTerm, TermNode.container, IsLeaf, TermNode.Value,
        ValueObject.isEmpty, TryAccessLeafToken, hc]
  | succ d => rfl

theorem Match_nest_step (X : External) (tr : Traits) (fuel d : Nat) (a : TokenValue)
    (g : TermTags) (v : TermNode) (o : Loc) (tags : TermTags) (r_env : EnvironmentReference)
    (h : Bool) (s : MatcherState) (ha : a.head? ≠ some '.')
    (ho : getAt o s.root = some (nest (d + 1) v)) :
    Match X tr (fuel + 1) (nest (d + 1) (.mk [] (.token a) g)) o tags r_env h s =
      Match X tr fuel (nest d (.mk [] (.token a) g)) (o ++ [.child 0]) tags r_env false
        (update_thunk s (.subterms [] none o 1 tags r_env false)) := by
  have hch : getAt (o ++ [.child 0]) s.root = some (nest d v) := by
    rw [getAt_append, ho]
    rfl
  have hm : Match X tr (fuel + 1) (nest (d + 1) (.mk [] (.token a) g)) o tags r_env h s =
      (trailingEllipsis tr (nest (d + 1) (.mk [] (.token a) g)) h).bind fun ellipsis =>
        match getAt o s.root with
        | none => .aborted
        | some term =>
          if IsList (resolved term) then
            if (nest (d + 1) (TermNode.mk [] (.token a) g)).container.length
                  == (resolved term).container.length
                || (ellipsis && decide ((resolved term).container.length
                  ≥ (nest (d + 1) (TermNode.mk [] (.token a) g)).container.length - 1)) then
              MatchSubterms X (Match X tr fuel)
                (if ellipsis then (nest (d + 1) (TermNode.mk [] (.token a) g)).container.dropLast
                  else (nest (d + 1) (TermNode.mk [] (.token a) g)).container)
                (if ellipsis
                  then (nest (d + 1) (TermNode.mk [] (.token a) g)).container.getLast?
                  else none)
                (resolvedLoc o term) 0 (subtermTags tags term)
                (subtermEnvironment r_env term) ellipsis s
            else if !ellipsis then
              .thrown (.ArityMismatch
                (nest (d + 1) (TermNode.mk [] (.token a) g)).container.length
                (resolved term).container.length)
            else .thrown .InsufficientTerms
          else .thrown .ListTypeError := rfl
  rw [hm, trailingEllipsis_nest tr d a g h ha, Outcome.bind_ok, ho]
  have hr : resolved (nest (d + 1) v) = nest (d + 1) v := rfl
  have hl : resolvedLoc o (nest (d + 1) v) = o := rfl
  have ht : subtermTags tags (nest (d + 1) v) = tags := rfl
  have he : subtermEnvironment r_env (nest (d + 1) v) = r_env := rfl
  simp only [hr, hl, ht, he]
  have hlist : IsList (nest (d + 1) v) = true := rfl
  simp only [hlist, if_true, nest, listTerm, TermNode.container, List.length_singleton,
    beq_self_eq_true, Bool.true_or, Bool.false_eq_true, if_false]
  rw [MatchSubterms_cons]
  rw [hch]
  rfl

theorem Match_nest_timeout (X : External) (tr : Traits) (a : TokenValue) (g : TermTags)
    (v : TermNode) (ha : a.head? ≠ some '.') :
    ∀ (d : Nat) (o : Loc) (tags : TermTags) (r_env : EnvironmentReference) (h : Bool)
      (s : MatcherState), getAt o s.root = some (nest d v) →
      Match X tr d (nest d (.mk [] (.token a) g)) o tags r_env h s = .timeout := by
  intro d
  induction d with
  | zero => intro o tags r_env h s _; rfl
  | succ d ih =>
    intro o tags r_env h s ho
    rw [Match_nest_step X tr d d a g v o tags r_env h s ha ho]
    apply ih
    show getAt (o ++ [.child 0]) s.root = _
    rw [getAt_append, ho]
    rfl

theorem Match_leaf_fuel (X : External) (tr : Traits) (fuel : Nat) (a : TokenValue)
    (g : TermTags) (o : Loc) (tags : TermTags) (r_env : EnvironmentReference) (h : Bool)
    (s : MatcherState) :
    Match X tr (fuel + 1) (.mk [] (.token a) g) o tags r_env h s =
      HandleLeaf X tr (fun n => BindValue X n o tags r_env s) (.mk [] (.token a) g) h s := rfl

theorem HandleLeaf_ne_timeout (X : External) (tr : Traits) (t : TermNode) (h : Bool)
    (o : Loc) (tags : TermTags) (r_env : EnvironmentReference) (s : MatcherState) :
    HandleLeaf X tr (fun n => BindValue X n o tags r_env s) t h s ≠ .timeout := by
  have hb : ∀ n, BindValue X n o tags r_env s ≠ .timeout := by
    intro n
    unfold BindValue
    split
    · simp
    · split
      · simp
      · split
        · split
          · simp
          · rename_i sigil id _ ob _
            unfold BindParameterObject
            simp only []
            repeat' split
            all_goals simp [Outcome.bind]
        · simp
  unfold HandleLeaf
  cases tr <;> simp only []
  · split
    · split
      · split
        · exact hb _
        · simp
      · simp
    · simp
  · split
    · simp
    · split
      · split
        · exact hb _
        · simp
      · simp

theorem Match_nest_spine (X : External) (tr : Traits) (a : TokenValue) (g : TermTags)
    (v : TermNode) (ha : a.head? ≠ some '.') (tags : TermTags)
    (r_env : EnvironmentReference) (n : Nat) :
    ∀ (d : Nat) (o : Loc) (h : Bool) (s : MatcherState),
      getAt o s.root = some (nest d v) →
      Match X tr (d + 1 + n) (nest d (.mk [] (.token a) g)) o tags r_env h s =
        HandleLeaf X tr
          (fun m => BindValue X m (o ++ List.replicate d (.child 0)) tags r_env
            { s with act := spineThunks tags r_env d o ++ s.act })
          (.mk [] (.token a) g) (if d = 0 then h else false)
          { s with act := spineThunks tags r_env d o ++ s.act } := by
  intro d
  induction d with
  | zero =>
    intro o h s _
    rw [Nat.zero_add, Nat.add_comm]
    show Match X tr (n + 1) (.mk [] (.token a) g) o tags r_env h s = _
    rw [Match_leaf_fuel]
    simp [spineThunks]
  | succ d ih =>
    intro o h s ho
    have e : d + 1 + 1 + n = (d + 1 + n) + 1 := by omega
    rw [e, Match_nest_step X tr (d + 1 + n) d a g v o tags r_env h s ha ho]
    have hch : getAt (o ++ [.child 0])
        (update_thunk s (.subterms [] none o 1 tags r_env false)).root = some (nest d v) := by
      show getAt (o ++ [.child 0]) s.root = _
      rw [getAt_append, ho]
      rfl
    rw [ih (o ++ [Step.child 0]) false
      (update_thunk s (.subterms [] none o 1 tags r_env false)) hch]
    have hloc : o ++ [.child 0] ++ List.replicate d (.child 0) =
        o ++ List.replicate (d + 1) (Step.child 0) := by
      rw [List.append_assoc, List.replicate_succ]
      rfl
    have hact : spineThunks tags r_env d (o ++ [.child 0]) ++
        (update_thunk s (.subterms [] none o 1 tags r_env false)).act =
        spineThunks tags r_env (d + 1) o ++ s.act := by
      simp [spineThunks, update_thunk]
    have hroot : (update_thunk s (.subterms [] none o 1 tags r_env false)).root = s.root := rfl
    have henv : (update_thunk s (.subterms [] none o 1 tags r_env false)).env = s.env := rfl
    rw [hloc]
    cases d with
    | zero => simp only [hact, hroot, henv]; rfl
    | succ d => simp only [hact, hroot, henv]; rfl

/-- C11: for a term holding a non-empty token id with first character f,
ReduceLeaf raises the InvalidSyntax of lines 48-50, leaving the context as it
is and whatever the environments hold, exactly when f is a decimal digit, or f
is one of the characters #, + and -, id has more than one character and some
character of id is neither + nor -; the message is that of an invalid literal
when f is #, of an unsupported literal prefix otherwise. When the condition
fails, ReduceLeaf raises BadIdentifier or returns Neutral. -/
theorem ReduceLeaf_literal_filter (X : Host) (p : Loc) (ctx : Context)
    (term : TermNode) (f : Char) (rest : TokenValue)
    (hterm : getAt p ctx.root = some term)
    (hid : TermToNamePtr term = some (f :: rest)) :
    ((isdigit f = true ∨
        ((f = '#' ∨ f = '+' ∨ f = '-') ∧ (f :: rest).length > 1 ∧
          ∃ c ∈ f :: rest, c ≠ '+' ∧ c ≠ '-')) →
      ReduceLeaf X p ctx = .thrown (.InvalidSyntaxLiteral
        (if f = '#' then .InvalidLiteral else .UnsupportedLiteralPrefix) (f :: rest)) ctx) ∧
    (¬ (isdigit f = true ∨
        ((f = '#' ∨ f = '+' ∨ f = '-') ∧ (f :: rest).length > 1 ∧
          ∃ c ∈ f :: rest, c ≠ '+' ∧ c ≠ '-')) →
      ReduceLeaf X p ctx = .thrown (.BadIdentifier (f :: rest)) ctx ∨
      ∃ ctx1, ReduceLeaf X p ctx = .ok .Neutral ctx1) := by
  have hcond : literalRejected f (f :: rest) = true ↔
      (isdigit f = true ∨
        ((f = '#' ∨ f = '+' ∨ f = '-') ∧ (f :: rest).length > 1 ∧
          ∃ c ∈ f :: rest, c ≠ '+' ∧ c ≠ '-')) := by
    unfold literalRejected
    simp only [Bool.or_eq_true, Bool.and_eq_true, decide_eq_true_eq, beq_iff_eq,
      List.any_eq_true, bne_iff_ne, ne_eq]
    constructor
    · rintro (⟨⟨h1, h2⟩, c, hc, hc1, hc2⟩ | h)
      · exact Or.inr ⟨or_assoc.mp h2, h1, c, hc, hc1, hc2⟩
      · exact Or.inl h
    · rintro (h | ⟨h2, h1, c, hc, hc1, hc2⟩)
      · exact Or.inr h
      · exact Or.inl ⟨⟨h1, or_assoc.mpr h2⟩, c, hc, hc1, hc2⟩
  constructor
  · intro h
    have h1 := hcond.mpr h
    unfold ReduceLeaf
    simp only [hterm, hid, h1, if_true]
    by_cases hf : f = '#'
    · simp [hf]
    · simp [hf]
  · intro h
    have h1 : literalRejected f (f :: rest) = false := by
      cases hl : literalRejected f (f :: rest) with
      | false => rfl
      | true => exact absurd (hcond.mp hl) h
    unfold ReduceLeaf
    simp only [hterm, hid, h1]
    cases hr : Resolve ctx.Record (f :: rest) with
    | none => left; simp
    | some b =>
      right
      obtain ⟨bound, p_env⟩ := b
      simp [CheckReducible]

/-- C11, witness: the tokens +12abc and #foo are rejected with the two
messages; the tokens +, -, # and +-+ pass the filter and are looked up. -/
theorem ReduceLeaf_literal_filter_witness :
    ReduceLeaf (Host.sample 1) []
        (Context.initial (tokenLeaf ['+', '1', '2', 'a', 'b', 'c']) []) =
      .thrown (.InvalidSyntaxLiteral .UnsupportedLiteralPrefix
        ['+', '1', '2', 'a', 'b', 'c'])
        (Context.initial (tokenLeaf ['+', '1', '2', 'a', 'b', 'c']) []) ∧
    ReduceLeaf (Host.sample 1) [] (Context.initial (tokenLeaf ['#', 'f', 'o', 'o']) []) =
      .thrown (.InvalidSyntaxLiteral .InvalidLiteral ['#', 'f', 'o', 'o'])
        (Context.initial (tokenLeaf ['#', 'f', 'o', 'o']) []) ∧
    ReduceLeaf (Host.sample 1) [] (Context.initial (tokenLeaf ['+']) []) =
      .thrown (.BadIdentifier ['+']) (Context.initial (tokenLeaf ['+']) []) ∧
    ReduceLeaf (Host.sample 1) [] (Context.initial (tokenLeaf ['-']) []) =
      .thrown (.BadIdentifier ['-']) (Context.initial (tokenLeaf ['-']) []) ∧
    ReduceLeaf (Host.sample 1) [] (Context.initial (tokenLeaf ['#']) []) =
      .thrown (.BadIdentifier ['#']) (Context.initial (tokenLeaf ['#']) []) ∧
    ReduceLeaf (Host.sample 1) [] (Context.initial (tokenLeaf ['+', '-', '+']) []) =
      .thrown (.BadIdentifier ['+', '-', '+'])
        (Context.initial (tokenLeaf ['+', '-', '+']) []) :=
  ⟨(ReduceLeaf_literal_filter (Host.sample 1) []
      (Context.initial (tokenLeaf ['+', '1', '2', 'a', 'b', 'c']) []) _ '+'
      ['1', '2', 'a', 'b', 'c'] rfl rfl).1
      (Or.inr ⟨Or.inr (Or.inl rfl), by decide, '1', by decide, by decide, by decide⟩),
    rfl, rfl, rfl, rfl, rfl⟩

/-! ## C12: a resolved leaf becomes a reference -/

/-- C12: for a leaf holding the token id, ReduceLeaf returns Retained when id
is empty; when id is not empty and passes the literal filter, it raises
BadIdentifier if id does not resolve, and if id resolves it returns Neutral and
leaves at the place of the leaf a term whose value is a TermReference without
Unique, on which ReduceLeaf, and ReduceOnce with the default dispatch, return
Retained and change nothing but the next term of the context. -/
theorem ReduceLeaf_reference (X : Host) (p : Loc) (ctx : Context) (g : TermTags)
    (id : TokenValue) (hterm : getAt p ctx.root = some (.mk [] (.token id) g)) :
    (id = [] → ReduceLeaf X p ctx = .ok .Retained ctx) ∧
    (∀ f rest, id = f :: rest → literalRejected f id = false →
      (Resolve ctx.Record id = none →
        ReduceLeaf X p ctx = .thrown (.BadIdentifier id) ctx) ∧
      (∀ bound p_env, Resolve ctx.Record id = some (bound, p_env) →
        ∃ c tags r e ctx1,
          ReduceLeaf X p ctx = .ok .Neutral ctx1 ∧
          ctx1 = { ctx with root := setAt p (.mk c (.reference tags r e) g) ctx.root } ∧
          getAt p ctx1.root = some (.mk c (.reference tags r e) g) ∧
          tags.Unique = false ∧
          ReduceLeaf X p ctx1 = .ok .Retained ctx1 ∧
          ∀ n, ReduceOnce (DefaultHost X.Handler X.MakeTermTags (n + 1)) p ctx1 =
            .ok .Retained (SetNextTermRef p ctx1))) := by
  have hsome : (getAt p ctx.root).isSome = true := by rw [hterm]; rfl
  refine ⟨?_, ?_⟩
  · intro hid
    subst hid
    unfold ReduceLeaf
    simp [hterm, TermToNamePtr, TermNode.Value, CheckReducible]
  · intro f rest hid hrej
    subst hid
    refine ⟨?_, ?_⟩
    · intro hres
      unfold ReduceLeaf
      simp [hterm, TermToNamePtr, TermNode.Value, hrej, hres]
    · intro bound p_env hres
      have key : ∀ (c : List TermNode) (tags : TermTags) (r : TermNode)
          (e : EnvironmentReference),
          tags.Unique = false →
          ReduceLeaf X p ctx = .ok .Neutral
            { ctx with root := setAt p (.mk c (.reference tags r e) g) ctx.root } →
          ∃ c tags r e ctx1,
            ReduceLeaf X p ctx = .ok .Neutral ctx1 ∧
            ctx1 = { ctx with root := setAt p (.mk c (.reference tags r e) g) ctx.root } ∧
            getAt p ctx1.root = some (.mk c (.reference tags r e) g) ∧
            tags.Unique = false ∧
            ReduceLeaf X p ctx1 = .ok .Retained ctx1 ∧
            ∀ n, ReduceOnce (DefaultHost X.Handler X.MakeTermTags (n + 1)) p ctx1 =
              .ok .Retained (SetNextTermRef p ctx1) := by
        intro c tags r e htags hred
        have hg : getAt p (setAt p (.mk c (.reference tags r e) g) ctx.root) =
            some (.mk c (.reference tags r e) g) := getAt_setAt p _ _ hsome
        refine ⟨c, tags, r, e, _, hred, rfl, hg, htags, ?_, ?_⟩
        · exact ReduceLeaf_of_reference X p _ c tags g r e hg
        · intro n
          show DefaultReduceOnce _ p _ = _
          unfold DefaultReduceOnce
          have hg2 : getAt p (SetNextTermRef p
              { ctx with root := setAt p (.mk c (.reference tags r e) g) ctx.root }).root =
              some (.mk c (.reference tags r e) g) := hg
          simp only [hg2, TermNode.Value, ValueObject.isEmpty, Bool.not_false, if_true]
          exact ReduceLeaf_of_reference _ p _ c tags g r e hg2
      cases hb : TryAccessLeafReference bound with
      | some q =>
        obtain ⟨g1, r1, e1⟩ := q
        apply key bound.container (EnsureLValueReference g1) r1 e1
          (EnsureLValueReference_Unique g1)
        unfold ReduceLeaf
        simp [hterm, TermToNamePtr, TermNode.Value, hrej, hres, hb, CheckReducible,
          TermNode.Tags]
      | none =>
        apply key [] (X.MakeTermTags p_env bound &&& ~~~uniqueTag) bound p_env
          (and_not_uniqueTag_Unique _)
        unfold ReduceLeaf
        simp [hterm, TermToNamePtr, TermNode.Value, hrej, hres, hb, CheckReducible,
          TermNode.Tags, TermNode.container]

/-- C12, witness: with x bound to the object 42, the leaf x is replaced by a
reference to the bound term. -/
theorem ReduceLeaf_reference_witness :
    ReduceLeaf (Host.sample 1) []
        (Context.initial (tokenLeaf ['x']) [(0, [(['x'], objectLeaf 42)])]) =
      .ok .Neutral (Context.initial
        (.mk [] (.reference Unqualified (objectLeaf 42) 0) Unqualified)
        [(0, [(['x'], objectLeaf 42)])]) ∧
    ∃ c tags r e ctx1,
      ReduceLeaf (Host.sample 1) []
          (Context.initial (tokenLeaf ['x']) [(0, [(['x'], objectLeaf 42)])]) =
        .ok .Neutral ctx1 ∧
      ctx1 = { Context.initial (tokenLeaf ['x']) [(0, [(['x'], objectLeaf 42)])] with
        root := setAt [] (.mk c (.reference tags r e) Unqualified) (tokenLeaf ['x']) } ∧
      getAt [] ctx1.root = some (.mk c (.reference tags r e) Unqualified) ∧
      tags.Unique = false ∧
      ReduceLeaf (Host.sample 1) [] ctx1 = .ok .Retained ctx1 ∧
      ∀ n, ReduceOnce (DefaultHost (Host.sample 1).Handler (Host.sample 1).MakeTermTags
          (n + 1)) [] ctx1 = .ok .Retained (SetNextTermRef [] ctx1) :=
  ⟨rfl, (ReduceLeaf_reference (Host.sample 1) []
    (Context.initial (tokenLeaf ['x']) [(0, [(['x'], objectLeaf 42)])]) Unqualified ['x']
    rfl).2 'x' [] rfl rfl |>.2 (objectLeaf 42) 0 rfl⟩

/-! ## C13: ReduceOrdered evaluates in sequence -/

/-- C13: for a host whose dispatch and handlers leave the pending
continuations alone, and a branch term at the location p of a context with no
pending continuation: whenever the sequence in the words of the spec (the
first subterm is reduced with all that it schedules and then erased, as long
as there is more than one, and the last one is lifted into the term and
reduced) ends with a status and a context, ReduceOrdered followed by the
trampoline ends with the same status and context, for every fuel that is large
enough. -/
theorem ReduceOrdered_sequence (X : Host) (hX : X.QueueBlind) (p : Loc) (ctx : Context)
    (t : TermNode) (hterm : getAt p ctx.root = some t) (hb : IsBranch t = true)
    (hq : ctx.current = []) (fuel k : Nat) (st : ReductionStatus) (c : Context)
    (href : sequenceReference X fuel k p ctx = .ok st c) :
    ∃ F, ∀ G, F ≤ G → (ReduceOrdered X p ctx).thenRun X G = .ok st c := by
  have h := sequence_main X hX p fuel k ctx st c hq href
  unfold ReduceOrdered
  rw [hterm]
  simp only [hb, if_true]
  exact h

/-- C13, witness: on ((f 1) y), with f bound to a handler and y to 2, the
combination (f 1) is reduced first, with the three continuations that it
takes, and erased; then y is lifted and reduced, and the term ends as a
reference to the term bound to y. -/
theorem ReduceOrdered_sequence_witness :
    ∃ F, ∀ G, F ≤ G →
      (ReduceOrdered (Host.sample 2) []
        (Context.initial
          (listTerm [listTerm [tokenLeaf ['f'], objectLeaf 1], tokenLeaf ['y']])
          [(0, [(['f'], .mk [] (.handler 7) Unqualified), (['y'], objectLeaf 2)])])).thenRun
        (Host.sample 2) G =
      .ok .Neutral
        ⟨.mk [] (.reference Unqualified (objectLeaf 2) 0) Unqualified,
          [(0, [(['f'], .mk [] (.handler 7) Unqualified), (['y'], objectLeaf 2)])],
          [], .Neutral, [], none, []⟩ :=
  ReduceOrdered_sequence (Host.sample 2) (sample_QueueBlind 2) []
    (Context.initial
      (listTerm [listTerm [tokenLeaf ['f'], objectLeaf 1], tokenLeaf ['y']])
      [(0, [(['f'], .mk [] (.handler 7) Unqualified), (['y'], objectLeaf 2)])])
    (listTerm [listTerm [tokenLeaf ['f'], objectLeaf 1], tokenLeaf ['y']]) rfl rfl rfl 3 2
    .Neutral _ rfl

/-! ## C14: CallN evaluates the operands n times -/

/-- C14: for a host whose dispatch and handlers leave the pending
continuations alone and a context with no pending continuation: whenever
CallN in the words of the spec (n passes over the operands, each operand
reduced in turn with all that it schedules, then one call of the handler on
the term; no pass when n is 0 or the term has no operand) ends with a status
and a context, CallN followed by the trampoline ends with the same status and
context, for every fuel that is large enough. When n is 0 or the term has no
operand, CallN is the call of the handler on the next term; else it returns
Partial. -/
theorem CallN_passes (X : Host) (hX : X.QueueBlind) (h n : Nat) (p : Loc) (ctx : Context)
    (t : TermNode) (hterm : getAt p ctx.root = some t) (hq : ctx.current = [])
    (fuel k : Nat) (st : ReductionStatus) (c : Context)
    (href : callNReference X fuel k h n p ctx = .ok st c) :
    (∃ F, ∀ G, F ≤ G → (CallN X h n p ctx).thenRun X G = .ok st c) ∧
    ((n = 0 ∨ t.container.length ≤ 1) → CallN X h n p ctx = X.Handler h ctx.NextTerm ctx) ∧
    (n ≠ 0 → 1 < t.container.length → ∃ c0, CallN X h n p ctx = .ok .Partial c0) := by
  refine ⟨callN_main X hX p fuel k h n ctx st c hq href, ?_, ?_⟩
  · intro hcase
    unfold CallN
    rw [hterm]
    have hcond : (n == 0 || decide (t.container.length ≤ 1)) = true := by
      rcases hcase with h0 | h1
      · simp [h0]
      · simp [h1]
    simp only [hcond, if_true]
  · intro hn hlt
    obtain ⟨m, rfl⟩ := Nat.exists_eq_succ_of_ne_zero hn
    rw [CallN_step X hX p h m ctx t hterm hlt hq]
    unfold callNReference at href
    rw [hterm] at href
    have hlen : ¬ t.container.length ≤ 1 := by omega
    simp only [hlen, if_false] at href
    cases h0 : ReduceOnce X (p ++ [.child 1]) (SetNextTermRef p ctx) with
    | ok s0 c0 => exact ⟨_, rfl⟩
    | thrown e c0 => rw [h0] at href; cases href
    | aborted => rw [h0] at href; cases href
    | timeout => rw [h0] at href; cases href

/-- C14, witness: CallN with n = 2 on (f x y), with x bound to 1 and y to 2:
after two passes over x and y the handler is called on the term, whose status
Regular is the last one. -/
theorem CallN_passes_witness :
    (∃ F, ∀ G, F ≤ G →
      (CallN (Host.sample 2) 7 2 []
        (Context.initial (listTerm [objectLeaf 0, tokenLeaf ['x'], tokenLeaf ['y']])
          [(0, [(['x'], objectLeaf 1), (['y'], objectLeaf 2)])])).thenRun (Host.sample 2) G =
      .ok .Regular
        ⟨listTerm [objectLeaf 0,
            .mk [] (.reference Unqualified (objectLeaf 1) 0) Unqualified,
            .mk [] (.reference Unqualified (objectLeaf 2) 0) Unqualified],
          [(0, [(['x'], objectLeaf 1), (['y'], objectLeaf 2)])],
          [], .Regular, [], none, []⟩) ∧
    ∃ c0, CallN (Host.sample 2) 7 2 []
        (Context.initial (listTerm [objectLeaf 0, tokenLeaf ['x'], tokenLeaf ['y']])
          [(0, [(['x'], objectLeaf 1), (['y'], objectLeaf 2)])]) = .ok .Partial c0 :=
  ⟨(CallN_passes (Host.sample 2) (sample_QueueBlind 2) 7 2 []
      (Context.initial (listTerm [objectLeaf 0, tokenLeaf ['x'], tokenLeaf ['y']])
        [(0, [(['x'], objectLeaf 1), (['y'], objectLeaf 2)])])
      (listTerm [objectLeaf 0, tokenLeaf ['x'], tokenLeaf ['y']]) rfl rfl 1 3 .Regular _
      rfl).1,
    (CallN_passes (Host.sample 2) (sample_QueueBlind 2) 7 2 []
      (Context.initial (listTerm [objectLeaf 0, tokenLeaf ['x'], tokenLeaf ['y']])
        [(0, [(['x'], objectLeaf 1), (['y'], objectLeaf 2)])])
      (listTerm [objectLeaf 0, tokenLeaf ['x'], tokenLeaf ['y']]) rfl rfl 1 3 .Regular
      ⟨listTerm [objectLeaf 0,
            .mk [] (.reference Unqualified (objectLeaf 1) 0) Unqualified,
            .mk [] (.reference Unqualified (objectLeaf 2) 0) Unqualified],
          [(0, [(['x'], objectLeaf 1), (['y'], objectLeaf 2)])],
          [], .Regular, [], none, []⟩
      rfl).2.2 (by decide) (by decide)⟩

/-! ## C15: the dispatch of ReduceCombinedBranch -/

/-- C15, counterexample: a head that has a subterm, and so is no leaf, whose
value is a TermReference to a leaf holding a ContextHandler, and a head that is
a leaf holding a TermReference to a term that has a subterm and whose value is
a ContextHandler: the value of neither head is a ContextHandler, and
ReduceCombinedBranch dispatches the handler on both. -/
theorem ReduceCombinedBranch_dispatch_counterexample :
    IsLeaf (.mk [objectLeaf 0]
      (.reference Unqualified (.mk [] (.handler 7) Unqualified) 0) Unqualified) = false ∧
    ReduceCombinedBranch []
        (Context.initial
          (listTerm [.mk [objectLeaf 0]
            (.reference Unqualified (.mk [] (.handler 7) Unqualified) 0) Unqualified,
            objectLeaf 2]) []) =
      .ok .Partial
        ⟨listTerm [.mk [objectLeaf 0]
            (.reference Unqualified (.mk [] (.handler 7) Unqualified) 0) Unqualified,
            objectLeaf 2], [], [], .Neutral, [.handler 7], none, []⟩ ∧
    IsLeaf (.mk [objectLeaf 0] (.handler 7) Unqualified) = false ∧
    ReduceCombinedBranch []
        (Context.initial
          (listTerm [.mk []
            (.reference Unqualified (.mk [objectLeaf 0] (.handler 7) Unqualified) 0)
            Unqualified, objectLeaf 2]) []) =
      .ok .Partial
        ⟨listTerm [.mk []
            (.reference Unqualified (.mk [objectLeaf 0] (.handler 7) Unqualified) 0)
            Unqualified, objectLeaf 2], [], [], .Neutral, [.handler 7], none, []⟩ :=
  ⟨rfl, rfl, rfl, rfl⟩

/-- C15, amended: on a branched list with head fm, ReduceCombinedBranch raises
ListReductionFailure exactly when neither the value of fm is a TermReference
to a term whose value is a ContextHandler nor the value of fm is a
ContextHandler, whatever subterms fm and the referent have; the number of
arguments reported is the size of the term less one; in the two other cases
the result is that of CombinerReturnThunk on the handler, which returns
Partial with the call of the handler in front of the queue and the term as
next term. -/
theorem ReduceCombinedBranch_dispatch (p : Loc) (ctx : Context) (term fm : TermNode)
    (rest : List TermNode) (hterm : getAt p ctx.root = some term)
    (hc : term.container = fm :: rest) (hl : IsList term = true) :
    ((∃ has_ref n ctx1,
        ReduceCombinedBranch p ctx = .thrown (.ListReductionFailure has_ref n) ctx1) ↔
      (¬ (∃ h g r e, fm.Value = .reference g r e ∧ r.Value = .handler h) ∧
        ¬ ∃ h, fm.Value = .handler h)) ∧
    (∀ e ctx1, ReduceCombinedBranch p ctx = .thrown e ctx1 →
      ∃ has_ref, e = .ListReductionFailure has_ref (term.container.length - 1)) ∧
    (((∃ h g r e, fm.Value = .reference g r e ∧ r.Value = .handler h) ∨
        ∃ h, fm.Value = .handler h) →
      ∃ h owner ctx1 ctx2,
        ReduceCombinedBranch p ctx = CombinerReturnThunk h p owner ctx1 ∧
        CombinerReturnThunk h p owner ctx1 = .ok .Partial ctx2 ∧
        ctx2.current = .handler h :: ctx.current ∧ ctx2.NextTerm = p ∧
        ((∃ g r e, fm.Value = .reference g r e ∧ r.Value = .handler h) ∨
          fm.Value = .handler h)) := by
  have hsome : (getAt p ctx.root).isSome = true := by rw [hterm]; rfl
  have heq := ReduceCombinedBranch_eq p ctx term fm rest hterm hc hl
  have hg1 := getAt_setAt p (.mk term.container term.Value
      (if (TryAccessLeafReference fm).isSome then term.Tags &&& ~~~temporaryTag
        else term.Tags ||| temporaryTag)) ctx.root hsome
  have hlen : term.container.length - 1 = rest.length := by simp [hc]
  cases h1 : (TryAccessLeafReference fm).bind (fun r => TryAccessLeafHandler r.2.1) with
  | some h =>
    rw [h1] at heq
    simp only at heq
    have hcr := CombinerReturnThunk_eq h p none
      ({ ctx with root := setAt p (.mk term.container term.Value
        (if (TryAccessLeafReference fm).isSome then term.Tags &&& ~~~temporaryTag
          else term.Tags ||| temporaryTag)) ctx.root } : Context) _ hg1
    obtain ⟨g, r, e, hfm, hr⟩ := (referenced_handler_iff fm h).mp h1
    refine ⟨⟨?_, ?_⟩, ?_, ?_⟩
    · rintro ⟨a, n, c1, hthrown⟩
      rw [heq, hcr] at hthrown
      cases hthrown
    · rintro ⟨hA, _⟩
      exact absurd ⟨h, g, r, e, hfm, hr⟩ hA
    · intro e1 c1 hthrown
      rw [heq, hcr] at hthrown
      cases hthrown
    · intro _
      exact ⟨h, none, _, _, heq, hcr, rfl, rfl, Or.inl ⟨g, r, e, hfm, hr⟩⟩
  | none =>
    rw [h1] at heq
    simp only at heq
    have hA : ¬ ∃ h g r e, fm.Value = .reference g r e ∧ r.Value = .handler h := by
      rintro ⟨h, g, r, e, hfm, hr⟩
      have := (referenced_handler_iff fm h).mpr ⟨g, r, e, hfm, hr⟩
      rw [h1] at this
      cases this
    cases h2 : TryAccessTermHandler fm with
    | some h =>
      rw [h2] at heq
      simp only at heq
      have hcr := CombinerReturnThunk_eq h p (some h)
        ({ ctx with root := setAt p (.mk term.container term.Value
          (if (TryAccessLeafReference fm).isSome then term.Tags &&& ~~~temporaryTag
            else term.Tags ||| temporaryTag)) ctx.root } : Context) _ hg1
      have hv := (TryAccessTermHandler_eq_some_iff fm h).mp h2
      refine ⟨⟨?_, ?_⟩, ?_, ?_⟩
      · rintro ⟨a, n, c1, hthrown⟩
        rw [heq, hcr] at hthrown
        cases hthrown
      · rintro ⟨_, hB⟩
        exact absurd ⟨h, hv⟩ hB
      · intro e1 c1 hthrown
        rw [heq, hcr] at hthrown
        cases hthrown
      · intro _
        exact ⟨h, some h, _, _, heq, hcr, rfl, rfl, Or.inr hv⟩
    | none =>
      rw [h2] at heq
      simp only at heq
      have hB : ¬ ∃ h, fm.Value = .handler h := by
        rintro ⟨h, hv⟩
        have := (TryAccessTermHandler_eq_some_iff fm h).mpr hv
        rw [h2] at this
        cases this
      refine ⟨⟨fun _ => ⟨hA, hB⟩, fun _ => ⟨_, _, _, heq⟩⟩, ?_, ?_⟩
      · intro e1 c1 hthrown
        rw [heq] at hthrown
        cases hthrown
        exact ⟨_, by rw [hlen]⟩
      · rintro (hA1 | hB1)
        · exact absurd hA1 hA
        · exact absurd hB1 hB

/-- C15, witness: ReduceOnce on (() 1 2) with the default dispatch removes the
empty head, and the trampoline then raises ListReductionFailure on (1 2),
reporting one argument. -/
theorem ReduceCombinedBranch_dispatch_witness :
    (ReduceOnce (Host.sample 2) []
        (Context.initial (listTerm [listTerm [], objectLeaf 1, objectLeaf 2]) [])).thenRun
        (Host.sample 2) 2 =
      .thrown (.ListReductionFailure false 1)
        ⟨.mk [objectLeaf 1, objectLeaf 2] .empty temporaryTag, [], [], .Retained, [],
          none, []⟩ ∧
    ∀ e ctx1,
      ReduceCombinedBranch [] (Context.initial (listTerm [objectLeaf 1, objectLeaf 2]) []) =
        .thrown e ctx1 →
      ∃ has_ref, e = .ListReductionFailure has_ref
        ((listTerm [objectLeaf 1, objectLeaf 2]).container.length - 1) :=
  ⟨rfl, (ReduceCombinedBranch_dispatch []
    (Context.initial (listTerm [objectLeaf 1, objectLeaf 2]) [])
    (listTerm [objectLeaf 1, objectLeaf 2]) (objectLeaf 1) [objectLeaf 2] rfl rfl rfl).2.1⟩

/-! ## C16: the depth of the direct calls of Match -/

/-- C16, counterexample: Match calls itself directly, through MatchSubterms,
on the first subterm of a formal list. On the formal (((a))) against the
operand (((1))) three nested invocations of Match do not reach the symbol and
four do; no number of nested invocations is enough for every formal. -/
theorem Match_direct_recursion_counterexample :
    Match External.sample .ParameterCheck 3 (nest 3 (tokenLeaf ['a'])) [] temporaryTag 0
        false ⟨nest 3 (objectLeaf 1), [], []⟩ = .timeout ∧
    BindParameter External.sample 3 0 [] (nest 3 (tokenLeaf ['a'])) (nest 3 (objectLeaf 1)) =
      .timeout ∧
    BindParameter External.sample 4 0 [] (nest 3 (tokenLeaf ['a'])) (nest 3 (objectLeaf 1)) =
      .ok ⟨nest 3 (.mk [] .empty Unqualified), [(['a'], objectLeaf 1)], []⟩ ∧
    ¬ ∃ c, ∀ (t : TermNode) (s : MatcherState),
      Match External.sample .ParameterCheck c t [] temporaryTag 0 false s ≠ .timeout := by
  refine ⟨rfl, rfl, rfl, ?_⟩
  rintro ⟨c, hc⟩
  exact hc (nest c (tokenLeaf ['a'])) ⟨nest c (objectLeaf 1), [], []⟩
    (Match_nest_timeout External.sample .ParameterCheck ['a'] Unqualified (objectLeaf 1)
      (by decide) c [] temporaryTag 0 false _ rfl)

/-- C16, amended: the thunk chain takes the subterms after the first of a
formal list (MatchSubterms stores the call for them before it goes on) and the
referent of a reference formal; the first subterm is matched by a direct call
of Match from MatchSubterms. For a symbol a nested d lists deep, matched
against an operand nested as deep, d nested invocations of Match do not
reach the symbol, and d + 1 do: the leaf is then handled with d deferred calls
of MatchSubterms stored, one for each list. -/
theorem Match_direct_recursion (X : External) (tr : Traits) (a : TokenValue)
    (g : TermTags) (v : TermNode) (ha : a.head? ≠ some '.') (d : Nat) (o : Loc)
    (tags : TermTags) (r_env : EnvironmentReference) (h : Bool) (s : MatcherState)
    (ho : getAt o s.root = some (nest d v)) :
    Match X tr d (nest d (.mk [] (.token a) g)) o tags r_env h s = .timeout ∧
    (∀ n, Match X tr (d + 1 + n) (nest d (.mk [] (.token a) g)) o tags r_env h s =
      HandleLeaf X tr
        (fun m => BindValue X m (o ++ List.replicate d (.child 0)) tags r_env
          { s with act := spineThunks tags r_env d o ++ s.act })
        (.mk [] (.token a) g) (if d = 0 then h else false)
        { s with act := spineThunks tags r_env d o ++ s.act }) ∧
    (∀ n, Match X tr (d + 1 + n) (nest d (.mk [] (.token a) g)) o tags r_env h s ≠
      .timeout) ∧
    (∀ (M : MatchFn) (ti : TermNode) (rest : List TermNode) (last : Option TermNode)
      (o_tm : Loc) (j : Nat) (ellipsis : Bool),
      MatchSubterms X M (ti :: rest) last o_tm j tags r_env ellipsis s =
        match getAt (o_tm ++ [.child j]) s.root with
        | none => .aborted
        | some _ => M ti (o_tm ++ [.child j]) tags r_env false
            (update_thunk s (.subterms rest last o_tm (j + 1) tags r_env ellipsis))) ∧
    (∀ (fuel : Nat) (rg : TermTags) (nd : TermNode) (e : EnvironmentReference)
      (gt : TermTags),
      Match X tr (fuel + 1) (.mk [] (.reference rg nd e) gt) o tags r_env h s =
        .ok (update_thunk s (.matchReferent nd o tags r_env))) := by
  refine ⟨Match_nest_timeout X tr a g v ha d o tags r_env h s ho,
    fun n => Match_nest_spine X tr a g v ha tags r_env n d o h s ho, ?_,
    fun M ti rest last o_tm j ellipsis => rfl, fun fuel rg nd e gt => rfl⟩
  intro n
  rw [Match_nest_spine X tr a g v ha tags r_env n d o h s ho]
  exact HandleLeaf_ne_timeout X tr _ _ _ tags r_env _

/-- C16, witness: the formal ((a)) against the operand ((1)). -/
theorem Match_direct_recursion_witness :
    Match External.sample .ParameterCheck 2 (nest 2 (tokenLeaf ['a'])) [] temporaryTag 0
        false ⟨nest 2 (objectLeaf 1), [], []⟩ = .timeout ∧
    Match External.sample .ParameterCheck 3 (nest 2 (tokenLeaf ['a'])) [] temporaryTag 0
        false ⟨nest 2 (objectLeaf 1), [], []⟩ =
      .ok ⟨nest 2 (.mk [] .empty Unqualified), [(['a'], objectLeaf 1)],
        [.subterms [] none [.child 0] 1 temporaryTag 0 false,
          .subterms [] none [] 1 temporaryTag 0 false]⟩ ∧
    ∀ n, Match External.sample .ParameterCheck (2 + 1 + n) (nest 2 (tokenLeaf ['a'])) []
        temporaryTag 0 false ⟨nest 2 (objectLeaf 1), [], []⟩ ≠ .timeout :=
  ⟨(Match_direct_recursion External.sample .ParameterCheck ['a'] Unqualified (objectLeaf 1)
      (by decide) 2 [] temporaryTag 0 false ⟨nest 2 (objectLeaf 1), [], []⟩ rfl).1,
    rfl,
    (Match_direct_recursion External.sample .ParameterCheck ['a'] Unqualified (objectLeaf 1)
      (by decide) 2 [] temporaryTag 0 false ⟨nest 2 (objectLeaf 1), [], []⟩ rfl).2.2.1⟩

/-! ## C17: nested lists of one subterm -/

/-- C17, counterexample: ((f x)) is one list of one subterm around (f x),
which has two subterms; ReduceBranch lifts (f x) into the place of the term
and its single lifted reduction, with the default dispatch, schedules the
reduction of f and, behind it, the combined-branch dispatch of the term. -/
theorem ReduceBranch_singleton_chain_counterexample :
    listTerm [listTerm [tokenLeaf ['f'], tokenLeaf ['x']]] =
      singletonChain [Unqualified] (listTerm [tokenLeaf ['f'], tokenLeaf ['x']]) ∧
    (listTerm [tokenLeaf ['f'], tokenLeaf ['x']]).container.length = 2 ∧
    ReduceBranch (Host.sample 2) []
        (Context.initial (listTerm [listTerm [tokenLeaf ['f'], tokenLeaf ['x']]]) []) =
      .ok .Partial
        ⟨listTerm [tokenLeaf ['f'], tokenLeaf ['x']], [], [], .Neutral,
          [.reduceOnce [.child 0], .combinedBranch []], none, []⟩ :=
  ⟨rfl, rfl, rfl⟩

/-- C17, amended: on a term that is a chain of k nested lists with one subterm
each, k at least 1, around a term u whose number of subterms is not 1,
ReduceBranch is the call ReduceOnceLifted(term, ctx, u), whatever k is: u is
found k steps down the first subterms, its container and value are lifted into
the term, and the dispatch of the context is called once on the term.
ReduceBranch schedules nothing for the k lists; what is scheduled is what that
one reduction of the lifted term schedules. With the default dispatch that is
nothing when u has no subterm or a value, and when u is a list of two or more
subterms it is the reduction of the first subterm that is left and one
combined-branch dispatch of the term, the result being Partial. -/
theorem ReduceBranch_singleton_chain (X : Host) (p : Loc) (ctx : Context)
    (g : TermTags) (gs : List TermTags) (u : TermNode)
    (hu : u.container.length ≠ 1)
    (hterm : getAt p ctx.root = some (singletonChain (g :: gs) u)) :
    getAt (p ++ List.replicate (gs.length + 1) (.child 0)) ctx.root = some u ∧
    ReduceBranch X p ctx =
      ReduceOnceLifted X p (p ++ List.replicate (gs.length + 1) (.child 0)) ctx ∧
    ReduceBranch X p ctx =
      X.ReduceOnce p
        { ctx with root := setAt p (.mk u.container u.Value g) ctx.root, NextTerm := p } ∧
    ((u.container = [] ∨ u.Value.isEmpty = false) → ∀ (n : Nat) (c : Context),
      (ReduceBranch (DefaultHost X.Handler X.MakeTermTags (n + 1)) p ctx).context = some c →
      c.current = ctx.current) ∧
    (∀ a b rest, u.container = a :: b :: rest → u.Value.isEmpty = true → ∀ n : Nat,
      ReduceBranch (DefaultHost X.Handler X.MakeTermTags (n + 1)) p ctx = .ok .Partial
        { ctx with
          root := setAt p
            (.mk (if IsEmpty a then b :: rest else a :: b :: rest) u.Value g) ctx.root,
          NextTerm := p,
          LastStatus := .Neutral,
          current :=
            .reduceOnce (p ++ [.child 0]) :: .combinedBranch p :: ctx.current }) := by
  have hloc : getAt (p ++ List.replicate (gs.length + 1) (.child 0)) ctx.root = some u := by
    rw [getAt_append, hterm]
    exact getAt_singletonChain u (g :: gs)
  have hloop : firstSubtermLoop (singletonChain (g :: gs) u) =
      List.replicate (gs.length + 1) (.child 0) :=
    firstSubtermLoop_singletonChain u hu (g :: gs)
  have h1 : ∀ Y : Host, ReduceBranch Y p ctx =
      ReduceOnceLifted Y p (p ++ List.replicate (gs.length + 1) (.child 0)) ctx := by
    intro Y
    unfold ReduceBranch
    rw [hterm]
    simp only [hloop]
    simp [singletonChain, IsBranch, TermNode.container]
  have h2 : ∀ Y : Host, ReduceBranch Y p ctx =
      Y.ReduceOnce p
        { ctx with root := setAt p (.mk u.container u.Value g) ctx.root, NextTerm := p } := by
    intro Y
    rw [h1 Y]
    unfold ReduceOnceLifted LiftOther
    rw [hterm, hloc]
    rfl
  have hsome : (getAt p ctx.root).isSome = true := by rw [hterm]; rfl
  have hg := getAt_setAt p (.mk u.container u.Value g) ctx.root hsome
  refine ⟨hloc, h1 X, h2 X, ?_, ?_⟩
  · intro hc n c hctx
    rw [h2] at hctx
    rcases hc with hc | hv
    · rw [hc] at hg
      exact DefaultReduceOnce_childless_current _ p
        { ctx with root := setAt p (.mk u.container u.Value g) ctx.root, NextTerm := p } c
        u.Value g (by rw [hc]; exact hg) hctx
    · exact DefaultReduceOnce_valued_current _ p
        { ctx with root := setAt p (.mk u.container u.Value g) ctx.root, NextTerm := p } c
        (.mk u.container u.Value g) hg hv hctx
  · intro a b rest hc hv n
    rw [h2]
    rw [hc] at hg
    have hd : (DefaultHost X.Handler X.MakeTermTags (n + 1)).ReduceOnce p
        { ctx with root := setAt p (.mk u.container u.Value g) ctx.root, NextTerm := p } =
        ReduceBranch (DefaultHost X.Handler X.MakeTermTags n) p
          { ctx with root := setAt p (.mk u.container u.Value g) ctx.root,
                     NextTerm := p } := by
      show DefaultReduceOnce _ p _ = _
      unfold DefaultReduceOnce
      rw [hc]
      have hvv : (TermNode.mk (a :: b :: rest) u.Value g).Value.isEmpty = true := hv
      simp only [hg, hvv, Bool.not_true, Bool.false_eq_true, if_false]
    rw [hd]
    have hb := ReduceBranch_of_two (DefaultHost X.Handler X.MakeTermTags n) p
      { ctx with root := setAt p (.mk u.container u.Value g) ctx.root, NextTerm := p }
      a b rest u.Value g (by rw [hc]; exact hg) hv
    rw [hb]
    simp only [setAt_setAt]

/-- C17, witness: ReduceOnce on ((x)), with x unbound and the default
dispatch, raises BadIdentifier for x after the term has become the leaf x. -/
theorem ReduceBranch_singleton_chain_witness :
    ReduceOnce (Host.sample 2) []
        (Context.initial (listTerm [listTerm [tokenLeaf ['x']]]) []) =
      .thrown (.BadIdentifier ['x']) (Context.initial (tokenLeaf ['x']) []) ∧
    ReduceBranch (Host.sample 2) []
        (Context.initial (listTerm [listTerm [tokenLeaf ['x']]]) []) =
      (Host.sample 2).ReduceOnce []
        { Context.initial (listTerm [listTerm [tokenLeaf ['x']]]) [] with
          root := setAt [] (.mk (tokenLeaf ['x']).container (tokenLeaf ['x']).Value
            Unqualified) (listTerm [listTerm [tokenLeaf ['x']]]),
          NextTerm := [] } :=
  ⟨rfl, (ReduceBranch_singleton_chain (Host.sample 2) []
    (Context.initial (listTerm [listTerm [tokenLeaf ['x']]]) []) Unqualified [Unqualified]
    (tokenLeaf ['x']) (by decide) rfl).2.2.1⟩

/-! ## C18: what ReduceBranch schedules -/

/-- C18: on a list with at least two subterms, ReduceBranch removes the first
subterm exactly when it is the empty term, and no other; it sets the next term
to the term and LastStatus to Neutral, puts in front of the queue the
reduction of the first subterm that is left and, right behind it,
ReduceCombinedBranch on the term, and returns Partial, so that the trampoline
calls ReduceOnce on that subterm first, with ReduceCombinedBranch next in the
queue. On a term that is not a branch ReduceBranch returns Retained and
changes nothing. -/
theorem ReduceBranch_schedule (X : Host) (p : Loc) (ctx : Context) (term : TermNode)
    (hterm : getAt p ctx.root = some term) :
    (∀ a b rest, term.container = a :: b :: rest → IsList term = true →
      ReduceBranch X p ctx = .ok .Partial
        { ctx with
          root := setAt p
            (.mk (if IsEmpty a then b :: rest else a :: b :: rest) term.Value term.Tags)
            ctx.root,
          NextTerm := p,
          LastStatus := .Neutral,
          current := .reduceOnce (p ++ [.child 0]) :: .combinedBranch p :: ctx.current } ∧
      ∀ fuel, (ReduceBranch X p ctx).thenRun X (fuel + 1) =
        (ReduceOnce X (p ++ [.child 0])
          { ctx with
            root := setAt p
              (.mk (if IsEmpty a then b :: rest else a :: b :: rest) term.Value term.Tags)
              ctx.root,
            NextTerm := p,
            LastStatus := .Partial,
            current := .combinedBranch p :: ctx.current }).thenRun X fuel) ∧
    (IsBranch term = false → ReduceBranch X p ctx = .ok .Retained ctx) := by
  refine ⟨?_, ?_⟩
  · intro a b rest hc hl
    have h1 : ReduceBranch X p ctx = .ok .Partial
        { ctx with
          root := setAt p
            (.mk (if IsEmpty a then b :: rest else a :: b :: rest) term.Value term.Tags)
            ctx.root,
          NextTerm := p,
          LastStatus := .Neutral,
          current := .reduceOnce (p ++ [.child 0]) :: .combinedBranch p :: ctx.current } := by
      obtain ⟨cs, val, g⟩ := term
      simp only [TermNode.container] at hc
      subst hc
      unfold ReduceBranch
      rw [hterm]
      by_cases he : IsEmpty a = true
      · simp [IsBranch, TermNode.container, he, RemoveHead, IsBranchedList, hl,
          SetupFront, TermNode.Value, TermNode.Tags]
        simpa [IsList] using hl
      · simp [IsBranch, TermNode.container, he, IsBranchedList, hl,
          SetupFront, TermNode.Value, TermNode.Tags]
    refine ⟨h1, ?_⟩
    intro fuel
    rw [h1]
    rfl
  · intro hb
    unfold ReduceBranch
    rw [hterm]
    simp [hb]

/-- C18, witness: on (() 1 2) the empty head is removed and the two
continuations are scheduled; the leaf 1 is not a branch. -/
theorem ReduceBranch_schedule_witness :
    ReduceBranch (Host.sample 1) []
        (Context.initial (listTerm [listTerm [], objectLeaf 1, objectLeaf 2]) []) =
      .ok .Partial
        ⟨listTerm [objectLeaf 1, objectLeaf 2], [], [], .Neutral,
          [.reduceOnce [.child 0], .combinedBranch []], none, []⟩ ∧
    ReduceBranch (Host.sample 1) [] (Context.initial (objectLeaf 1) []) =
      .ok .Retained (Context.initial (objectLeaf 1) []) :=
  ⟨((ReduceBranch_schedule (Host.sample 1) []
      (Context.initial (listTerm [listTerm [], objectLeaf 1, objectLeaf 2]) []) _ rfl).1
      (listTerm []) (objectLeaf 1) [objectLeaf 2] rfl rfl).1,
    (ReduceBranch_schedule (Host.sample 1) [] (Context.initial (objectLeaf 1) []) _ rfl).2
      rfl⟩

/-! ## C19: the Temporary tag of a combination -/

/-- C19, counterexample: a head that has a subterm, and so is no leaf, and
whose value is a TermReference: ReduceCombinedBranch clears Temporary on the
term, here before it raises ListReductionFailure. -/
theorem ReduceCombinedBranch_tags_counterexample :
    IsLeaf (.mk [objectLeaf 0] (.reference Unqualified (objectLeaf 1) 0) Unqualified) = false ∧
    ReduceCombinedBranch []
        (Context.initial
          (.mk [.mk [objectLeaf 0] (.reference Unqualified (objectLeaf 1) 0) Unqualified,
            objectLeaf 2] .empty temporaryTag) []) =
      .thrown (.ListReductionFailure true 1)
        (Context.initial
          (.mk [.mk [objectLeaf 0] (.reference Unqualified (objectLeaf 1) 0) Unqualified,
            objectLeaf 2] .empty Unqualified) []) ∧
    (Unqualified : TermTags).Temporary = false :=
  ⟨rfl, rfl, rfl⟩

/-- C19, amended: on a branched list, ReduceCombinedBranch either returns with
the handler scheduled or raises ListReductionFailure, and in both cases the
term is left with Temporary exactly when the value of the head is not a
TermReference, whether the head has subterms or not, its two other tags being
unchanged. -/
theorem ReduceCombinedBranch_tags (p : Loc) (ctx : Context) (term fm : TermNode)
    (rest : List TermNode) (hterm : getAt p ctx.root = some term)
    (hc : term.container = fm :: rest) (hl : IsList term = true) :
    ∃ ctx1 term1,
      (ReduceCombinedBranch p ctx = .ok .Partial ctx1 ∨
        ∃ has_ref n, ReduceCombinedBranch p ctx =
          .thrown (.ListReductionFailure has_ref n) ctx1) ∧
      getAt p ctx1.root = some term1 ∧
      (term1.Tags.Temporary = true ↔ fm.Value.isReference = false) ∧
      term1.Tags.Unique = term.Tags.Unique ∧
      term1.Tags.Nonmodifying = term.Tags.Nonmodifying := by
  have hsome : (getAt p ctx.root).isSome = true := by rw [hterm]; rfl
  have heq := ReduceCombinedBranch_eq p ctx term fm rest hterm hc hl
  obtain ⟨ht1, ht2, ht3⟩ := combined_tags term.Tags (TryAccessLeafReference fm).isSome
  have hiff : ((if (TryAccessLeafReference fm).isSome = true
        then term.Tags &&& ~~~temporaryTag else term.Tags ||| temporaryTag).Temporary = true ↔
      fm.Value.isReference = false) := by
    rw [ht1, ← TryAccessLeafReference_eq_none_iff]
    cases TryAccessLeafReference fm <;> simp
  have hg1 := getAt_setAt p (.mk term.container term.Value
      (if (TryAccessLeafReference fm).isSome then term.Tags &&& ~~~temporaryTag
        else term.Tags ||| temporaryTag)) ctx.root hsome
  have hg2 := getAt_setAt p (.mk term.container .empty
      (if (TryAccessLeafReference fm).isSome then term.Tags &&& ~~~temporaryTag
        else term.Tags ||| temporaryTag)) _ (by rw [hg1]; rfl)
  cases h1 : (TryAccessLeafReference fm).bind (fun r => TryAccessLeafHandler r.2.1) with
  | some h =>
    rw [h1] at heq
    simp only at heq
    rw [CombinerReturnThunk_eq h p none _ _ hg1] at heq
    exact ⟨_, _, Or.inl heq, hg2, hiff, ht2, ht3⟩
  | none =>
    rw [h1] at heq
    simp only at heq
    cases h2 : TryAccessTermHandler fm with
    | some h =>
      rw [h2] at heq
      simp only at heq
      rw [CombinerReturnThunk_eq h p (some h) _ _ hg1] at heq
      exact ⟨_, _, Or.inl heq, hg2, hiff, ht2, ht3⟩
    | none =>
      rw [h2] at heq
      exact ⟨_, _, Or.inr ⟨_, _, heq⟩, hg1, hiff, ht2, ht3⟩

/-- C19, witness: with the object 1 as head the list gets Temporary and
ListReductionFailure is raised. -/
theorem ReduceCombinedBranch_tags_witness :
    ReduceCombinedBranch [] (Context.initial (listTerm [objectLeaf 1, objectLeaf 2]) []) =
      .thrown (.ListReductionFailure false 1)
        (Context.initial (.mk [objectLeaf 1, objectLeaf 2] .empty temporaryTag) []) ∧
    ∃ ctx1 term1,
      (ReduceCombinedBranch [] (Context.initial (listTerm [objectLeaf 1, objectLeaf 2]) []) =
          .ok .Partial ctx1 ∨
        ∃ has_ref n,
          ReduceCombinedBranch [] (Context.initial (listTerm [objectLeaf 1, objectLeaf 2]) [])
            = .thrown (.ListReductionFailure has_ref n) ctx1) ∧
      getAt [] ctx1.root = some term1 ∧
      (term1.Tags.Temporary = true ↔ (objectLeaf 1).Value.isReference = false) ∧
      term1.Tags.Unique = (listTerm [objectLeaf 1, objectLeaf 2]).Tags.Unique ∧
      term1.Tags.Nonmodifying = (listTerm [objectLeaf 1, objectLeaf 2]).Tags.Nonmodifying :=
  ⟨rfl, ReduceCombinedBranch_tags [] (Context.initial (listTerm [objectLeaf 1, objectLeaf 2]) [])
    (listTerm [objectLeaf 1, objectLeaf 2]) (objectLeaf 1) [objectLeaf 2] rfl rfl rfl⟩

/-! ## C20: an operand reached through a reference -/

end Unilang
